import Mathlib

/-! # Software blitter (Oxygen engine, `drawing/software/Blitter.cpp`)

A shallow embedding of `Blitter.cpp` and theorems about it.

Conventions of the embedding.

* `int` coordinates are `Int`.  Signed overflow is undefined behaviour in C++,
  so the embedding describes the program on the inputs where the `int`
  arithmetic of the geometry does not overflow.
* `uint32` / `uint8` / `uint64` values are `Nat` with explicit `% 2 ^ w` at the
  places where the C++ arithmetic wraps or a cast narrows.
* Memory is a `List Nat`; a pointer is an `Int` index into it.  A read or write
  outside the list is a fault, and a faulting function returns `none`.
* A `float` is the value it denotes: a rational, an infinity or NaN (`FloatVal`;
  the two zeros are not told apart).  The functions of the embedding take the
  float code (the transformed bounding box, the inverse mapping of the
  transformed copy, the scaling of tint and added colours) and the sampling,
  fill and merge primitives of `BlitterHelper` as parameters, collected in
  `External`, so that the statements about cropping, staging and dispatch hold
  for every float arithmetic.  Where a statement is about the float code itself
  (the bounding box of the transformed branch, the point sampling of the
  transformed copy), that code is given in binary32 arithmetic: every operation
  rounds its exact result to the nearest binary32 number, ties to even
  (`toFloat32`), one operation at a time in the order of the source expression
  (no fused multiply-add).  A conversion to `int` truncates toward zero and is
  undefined outside the range of `int`.  This code is collected in the
  instance `float32External`.
* Little-endian byte order: byte `i` of a pixel `p` is `p / 256 ^ i % 256`.
-/

namespace Blitter

/-! ## Geometry (`Vec2i`, `Recti`) -/

/-- Integer 2D vector. -/
structure Vec2i where
  x : Int
  y : Int
  deriving DecidableEq, Repr

namespace Vec2i

/-- Component-wise sum. -/
def add (a b : Vec2i) : Vec2i := ⟨a.x + b.x, a.y + b.y⟩

/-- Component-wise difference. -/
def sub (a b : Vec2i) : Vec2i := ⟨a.x - b.x, a.y - b.y⟩

/-- Component-wise negation. -/
def neg (a : Vec2i) : Vec2i := ⟨-a.x, -a.y⟩

instance : Add Vec2i := ⟨add⟩
instance : Sub Vec2i := ⟨sub⟩
instance : Neg Vec2i := ⟨neg⟩

end Vec2i

/-- Integer rectangle: position of the min corner plus size. -/
structure Recti where
  x : Int
  y : Int
  width : Int
  height : Int
  deriving DecidableEq, Repr

namespace Recti

/-- The rectangle `Recti(pos, size)`. -/
def ofPosSize (pos size : Vec2i) : Recti := ⟨pos.x, pos.y, size.x, size.y⟩

/-- The default-constructed rectangle `Recti()`. -/
def zero : Recti := ⟨0, 0, 0, 0⟩

/-- The min corner. -/
def getPos (r : Recti) : Vec2i := ⟨r.x, r.y⟩

/-- The size. -/
def getSize (r : Recti) : Vec2i := ⟨r.width, r.height⟩

/-- Modelled from the spec: `Recti::isEmpty` is not part of the source tree; a
rectangle is empty when it covers no pixel ("non-negative in size; empty
rectangles short-circuit"). -/
def isEmpty (r : Recti) : Bool := decide (r.width ≤ 0) || decide (r.height ≤ 0)

/-- Modelled from the spec: `Recti::getIntersection` is not part of the source
tree; "intersect with viewport" is the rectangle from the larger of the two min
corners to the smaller of the two max corners (its size is not positive when
the two rectangles share no pixel). -/
def getIntersection (a b : Recti) : Recti :=
  let x := max a.x b.x
  let y := max a.y b.y
  ⟨x, y, min (a.x + a.width) (b.x + b.width) - x, min (a.y + a.height) (b.y + b.height) - y⟩

/-- The pixel `(px, py)` lies in the rectangle. -/
def Contains (r : Recti) (px py : Int) : Prop :=
  r.x ≤ px ∧ px < r.x + r.width ∧ r.y ≤ py ∧ py < r.y + r.height

instance (r : Recti) (px py : Int) : Decidable (r.Contains px py) := by
  unfold Contains; infer_instance

/-- Rectangle `a` lies wholly inside rectangle `b`. -/
def Inside (a b : Recti) : Prop :=
  b.x ≤ a.x ∧ a.x + a.width ≤ b.x + b.width ∧ b.y ≤ a.y ∧ a.y + a.height ≤ b.y + b.height

instance (a b : Recti) : Decidable (a.Inside b) := by
  unfold Inside; infer_instance

end Recti

/-! ## Floats, colours, options -/

/-- The value of a C `float`, as far as comparisons are concerned. -/
inductive FloatVal where
  | nan
  | negInf
  | finite (q : ℚ)
  | posInf
  deriving DecidableEq

namespace FloatVal

/-- The comparison `v >= 1.0f`. -/
def geOne : FloatVal → Bool
  | nan => false
  | negInf => false
  | finite q => decide (1 ≤ q)
  | posInf => true

/-- The comparison `v > 0.0f`. -/
def gtZero : FloatVal → Bool
  | nan => false
  | negInf => false
  | finite q => decide (0 < q)
  | posInf => true

/-- The comparison `v < 1.0f`. -/
def ltOne : FloatVal → Bool
  | nan => false
  | negInf => true
  | finite q => decide (q < 1)
  | posInf => false

end FloatVal

/-- A colour of four float channels. -/
structure Color where
  r : FloatVal
  g : FloatVal
  b : FloatVal
  a : FloatVal
  deriving DecidableEq

/-- The blend modes; every mode other than the two that `Blitter.cpp` names is
`other n`. -/
inductive BlendMode where
  | OPAQUE
  | ALPHA
  | other (n : Nat)
  deriving DecidableEq, Repr

/-- The sampling modes of the transformed copy. -/
inductive SamplingMode where
  | POINT
  | BILINEAR
  deriving DecidableEq, Repr

/-- A 2x2 float matrix `m[0..3]`. -/
structure Transform where
  m0 : FloatVal
  m1 : FloatVal
  m2 : FloatVal
  m3 : FloatVal
  deriving DecidableEq

/-- The fields of `Blitter::Options` that `Blitter.cpp` reads.  A null pointer
is `none`. -/
structure Options where
  mBlendMode : BlendMode
  mSamplingMode : SamplingMode
  mTransform : Option Transform
  mInvTransform : Transform
  mTintColor : Option Color
  mAddedColor : Option Color
  mSwapRedBlueChannels : Bool
  deriving DecidableEq

/-! ## Memory and bitmap views -/

/-- Read the memory cell at index `i`; a fault outside the memory. -/
def readAt (mem : List Nat) (i : Int) : Option Nat :=
  if 0 ≤ i then mem[i.toNat]? else none

/-- Write the memory cell at index `i`; a fault outside the memory. -/
def writeAt (mem : List Nat) (i : Int) (v : Nat) : Option (List Nat) :=
  if 0 ≤ i ∧ i.toNat < mem.length then some (mem.set i.toNat v) else none

/-- Modelled from the spec: the bitmap view type is not part of the source tree
("the underlying 2D buffer/view abstraction (bounds, stride, pixel
addressing)").  A view is a pointer `mData` into a memory `mem`, a size and a
row stride. -/
structure BitmapView where
  mem : List Nat
  mData : Int
  mSize : Vec2i
  mStride : Int
  deriving DecidableEq

namespace BitmapView

/-- The size of the view. -/
def getSize (v : BitmapView) : Vec2i := v.mSize

/-- Modelled from the spec: a view is empty when it has no pixel. -/
def isEmpty (v : BitmapView) : Bool := decide (v.mSize.x ≤ 0) || decide (v.mSize.y ≤ 0)

/-- Modelled from the spec: pixel addressing, `&mData[x + y * mStride]`. -/
def getPixelPointer (v : BitmapView) (x y : Int) : Int := v.mData + x + y * v.mStride

/-- Modelled from the spec: pointer to the first pixel of line `y`. -/
def getLinePointer (v : BitmapView) (y : Int) : Int := v.mData + y * v.mStride

/-- Modelled from the spec: the constructor `BitmapView(view, innerRect)`,
"a read-only view directly into the source at `innerIndent`, sized to the
destination box". -/
def subView (v : BitmapView) (innerRect : Recti) : BitmapView :=
  { mem := v.mem
    mData := v.getPixelPointer innerRect.x innerRect.y
    mSize := innerRect.getSize
    mStride := v.mStride }

/-- The pixel at `(x, y)` of the view; a fault when its address is outside the
memory. -/
def getPixel (v : BitmapView) (x y : Int) : Option Nat := readAt v.mem (v.getPixelPointer x y)

end BitmapView

/-- An output: pixel buffer plus viewport rectangle. -/
structure OutputWrapper where
  mBitmapView : BitmapView
  mViewportRect : Recti
  deriving DecidableEq

/-- A direct-colour sprite (32-bit pixels) and its pivot. -/
structure SpriteWrapper where
  mBitmapView : BitmapView
  mPivot : Vec2i
  deriving DecidableEq

/-- A palette-indexed sprite (8-bit pixels) and its pivot. -/
structure IndexedSpriteWrapper where
  mBitmapView : BitmapView
  mPivot : Vec2i
  deriving DecidableEq

/-- A palette: colour table and entry count. -/
structure PaletteWrapper where
  mPalette : List Nat
  mNumEntries : Nat
  deriving DecidableEq

/-- The parts of the program that are float arithmetic or live in
`BlitterHelper` / `rmx`. -/
structure External where
  /-- Lines 251-269: the integer bounding box of the four transformed corners. -/
  transformedBoundingBox : Transform → Recti → Vec2i → Recti
  /-- Lines 156-160: the point-sampled sprite pixel for the output pixel `(sx, sy)`. -/
  pointSample : Options → SpriteWrapper → Vec2i → Int → Int → Nat
  /-- Lines 176-180: the bilinear-sampled sprite pixel for the output pixel `(sx, sy)`. -/
  bilinearSample : Options → SpriteWrapper → Vec2i → Int → Int → Nat
  /-- Lines 203-207, palette variant of `pointSample`. -/
  pointSampleIndexed : Options → IndexedSpriteWrapper → PaletteWrapper → Vec2i → Int → Int → Nat
  /-- Lines 223-227, palette variant of `bilinearSample`. -/
  bilinearSampleIndexed : Options → IndexedSpriteWrapper → PaletteWrapper → Vec2i → Int → Int → Nat
  /-- The `int` value of `roundToInt(v * k)` for a float `v` and a constant `k`. -/
  roundToIntScaled : FloatVal → Nat → Int
  /-- The value of `sizeof(void*)` on the target. -/
  sizeofPointer : Nat
  /-- The colour packing `Color::getABGR32`. -/
  getABGR32 : Color → Nat
  /-- The output memory after `BlitterHelper::fillRect(view, color)`. -/
  fillRect : BitmapView → Color → List Nat
  /-- The output memory after `BlitterHelper::blendRectAlpha(view, color)`. -/
  blendRectAlpha : BitmapView → Color → List Nat

/-! ## `applyCropping` -/

/-- The function `Blitter::applyCropping` (lines 237-274). -/
def applyCropping (ext : External) (viewportRect spriteRect : Recti) (position : Vec2i)
    (options : Options) : Recti :=
  if spriteRect.isEmpty then Recti.zero
  else
    let uncroppedBoundingBox : Recti :=
      match options.mTransform with
      | none => Recti.ofPosSize (position + spriteRect.getPos) spriteRect.getSize
      | some t => ext.transformedBoundingBox t spriteRect position
    Recti.getIntersection uncroppedBoundingBox viewportRect

/-! ## Scratch buffer -/

/-- The state of a `Blitter` object: its scratch vector `mTempBitmapData`. -/
structure Instance where
  mTempBitmapData : List Nat
  deriving DecidableEq

/-- The effect of `std::vector::resize(n)`: keep the first `n` cells, value-initialise
new ones. -/
def resize (data : List Nat) (n : Nat) : List Nat :=
  data.take n ++ List.replicate (n - data.length) 0

/-- The function `Blitter::makeTempBitmap` (lines 109-113).  The returned view
points at cell 0 of the resized scratch vector, which is the view's `mem`; its
stride is its width. -/
def makeTempBitmap (self : Instance) (size : Vec2i) : BitmapView :=
  { mem := resize self.mTempBitmapData (size.x * size.y).toNat
    mData := 0
    mSize := size
    mStride := size.x }

/-! ## Loops -/

/-- The row loop `for (int y = 0; y < n; ++y) body(y)`, started at `y`
with `n` rows to go. -/
def forRows (body : Int → List Nat → Option (List Nat)) : Nat → Int → List Nat → Option (List Nat)
  | 0, _, mem => some mem
  | n + 1, y, mem => (body y mem).bind (forRows body n (y + 1))

/-- The pixel loop `for (x = 0; x < n; ++x) { *dst = g(*src); ++dst; ++src; }`
reading from `srcMem` and writing to the scratch memory. -/
def copyPixels (g : Nat → Option Nat) (srcMem : List Nat) :
    Nat → Int → Int → List Nat → Option (List Nat)
  | 0, _, _, mem => some mem
  | n + 1, src, dst, mem =>
    (readAt srcMem src).bind fun v =>
      (g v).bind fun c =>
        (writeAt mem dst c).bind (copyPixels g srcMem n (src + 1) (dst + 1))

/-- The pixel loop `for (ix = 0; ix < n; ++ix) { *dst = val(ix); ++dst; }`. -/
def fillPixels (val : Int → Nat) : Nat → Int → Int → List Nat → Option (List Nat)
  | 0, _, _, mem => some mem
  | n + 1, ix, dst, mem => (writeAt mem dst (val ix)).bind (fillPixels val n (ix + 1) (dst + 1))

/-- The in-place pixel loop `for (x = 0; x < n; ++x) { *dst = f(*dst); ++dst; }`. -/
def modifyPixels (f : Nat → Nat) : Nat → Int → List Nat → Option (List Nat)
  | 0, _, mem => some mem
  | n + 1, dst, mem =>
    (readAt mem dst).bind fun p =>
      (writeAt mem dst (f p)).bind (modifyPixels f n (dst + 1))

/-! ## Staging copies -/

/-- The direct-colour overload of `Blitter::makeTempBitmapAsCopy` (lines 115-123);
the `memcpy` of one line copies `size.x` pixels. -/
def makeTempBitmapAsCopy (self : Instance) (input : BitmapView) (size innerIndent : Vec2i) :
    Option BitmapView :=
  let result := makeTempBitmap self size
  (forRows (fun y mem =>
      copyPixels some input.mem size.x.toNat
        (input.getPixelPointer innerIndent.x (innerIndent.y + y)) (result.getLinePointer y) mem)
    size.y.toNat 0 result.mem).map fun mem => { result with mem := mem }

/-- The palette resolution of line 135,
`(index < palette.mNumEntries) ? palette.mPalette[index] : 0`; reading the table
outside its memory is a fault. -/
def paletteLookup (palette : PaletteWrapper) (index : Nat) : Option Nat :=
  if index < palette.mNumEntries then palette.mPalette[index]? else some 0

/-- The palette overload of `Blitter::makeTempBitmapAsCopy` (lines 125-141). -/
def makeTempBitmapAsCopyIndexed (self : Instance) (input : BitmapView) (palette : PaletteWrapper)
    (size innerIndent : Vec2i) : Option BitmapView :=
  let result := makeTempBitmap self size
  (forRows (fun y mem =>
      copyPixels (paletteLookup palette) input.mem size.x.toNat
        (input.getPixelPointer innerIndent.x (innerIndent.y + y)) (result.getLinePointer y) mem)
    size.y.toNat 0 result.mem).map fun mem => { result with mem := mem }

/-- The direct-colour overload of `Blitter::makeTempBitmapAsTransformedCopy`
(lines 143-188). -/
def makeTempBitmapAsTransformedCopy (ext : External) (self : Instance) (outputBoundingBox : Recti)
    (sprite : SpriteWrapper) (position : Vec2i) (options : Options) : Option BitmapView :=
  let result := makeTempBitmap self outputBoundingBox.getSize
  let sample : Int → Int → Nat :=
    match options.mSamplingMode with
    | .POINT => fun ix iy =>
        ext.pointSample options sprite position (outputBoundingBox.x + ix) (outputBoundingBox.y + iy)
    | .BILINEAR => fun ix iy =>
        ext.bilinearSample options sprite position (outputBoundingBox.x + ix) (outputBoundingBox.y + iy)
  (forRows (fun iy mem =>
      fillPixels (fun ix => sample ix iy) outputBoundingBox.width.toNat 0
        (result.getPixelPointer 0 iy) mem)
    outputBoundingBox.height.toNat 0 result.mem).map fun mem => { result with mem := mem }

/-- The palette overload of `Blitter::makeTempBitmapAsTransformedCopy`
(lines 190-235). -/
def makeTempBitmapAsTransformedCopyIndexed (ext : External) (self : Instance)
    (outputBoundingBox : Recti) (sprite : IndexedSpriteWrapper) (palette : PaletteWrapper)
    (position : Vec2i) (options : Options) : Option BitmapView :=
  let result := makeTempBitmap self outputBoundingBox.getSize
  let sample : Int → Int → Nat :=
    match options.mSamplingMode with
    | .POINT => fun ix iy =>
        ext.pointSampleIndexed options sprite palette position
          (outputBoundingBox.x + ix) (outputBoundingBox.y + iy)
    | .BILINEAR => fun ix iy =>
        ext.bilinearSampleIndexed options sprite palette position
          (outputBoundingBox.x + ix) (outputBoundingBox.y + iy)
  (forRows (fun iy mem =>
      fillPixels (fun ix => sample ix iy) outputBoundingBox.width.toNat 0
        (result.getPixelPointer 0 iy) mem)
    outputBoundingBox.height.toNat 0 result.mem).map fun mem => { result with mem := mem }

/-! ## Intermediate processing -/

/-- Byte `i` of a pixel (`((uint8*)dst)[i]`). -/
def getByte (p i : Nat) : Nat := p / 256 ^ i % 256

/-- Store the `uint8` value of `v` into byte `i` of a pixel. -/
def setByte (p i v : Nat) : Nat := p - getByte p i * 256 ^ i + v % 256 * 256 ^ i

/-- The four `uint32` multipliers `mult[0..3]` of the tint stage. -/
structure TintMult where
  m0 : Nat
  m1 : Nat
  m2 : Nat
  m3 : Nat
  deriving DecidableEq, Repr

/-- The three `uint8` amounts `add[0..2]` of the add stage. -/
structure AddAmount where
  a0 : Nat
  a1 : Nat
  a2 : Nat
  deriving DecidableEq, Repr

/-- Lines 287-293: `(uint32)roundToInt(channel * 0x100)` for the four channels. -/
def tintMult (ext : External) (c : Color) : TintMult :=
  { m0 := (ext.roundToIntScaled c.r 0x100 % 2 ^ 32).toNat
    m1 := (ext.roundToIntScaled c.g 0x100 % 2 ^ 32).toNat
    m2 := (ext.roundToIntScaled c.b 0x100 % 2 ^ 32).toNat
    m3 := (ext.roundToIntScaled c.a 0x100 % 2 ^ 32).toNat }

/-- Lines 311-316: `(uint8)roundToInt(channel * 0xff)` for red, green, blue. -/
def addAmount (ext : External) (c : Color) : AddAmount :=
  { a0 := (ext.roundToIntScaled c.r 0xff % 2 ^ 8).toNat
    a1 := (ext.roundToIntScaled c.g 0xff % 2 ^ 8).toNat
    a2 := (ext.roundToIntScaled c.b 0xff % 2 ^ 8).toNat }

/-- Lines 299-302 on one pixel: the four byte stores, in order; the product is
`uint32` arithmetic. -/
def tintPixel (mult : TintMult) (p : Nat) : Nat :=
  let p0 := setByte p 0 (min ((getByte p 0 * mult.m0 % 2 ^ 32) >>> 8) 0xff)
  let p1 := setByte p0 1 (min ((getByte p0 1 * mult.m1 % 2 ^ 32) >>> 8) 0xff)
  let p2 := setByte p1 2 (min ((getByte p1 2 * mult.m2 % 2 ^ 32) >>> 8) 0xff)
  setByte p2 3 (min ((getByte p2 3 * mult.m3 % 2 ^ 32) >>> 8) 0xff)

/-- Lines 322-324 on one pixel: the three byte stores, in order; the sum is
`int` arithmetic. -/
def addPixel (add : AddAmount) (p : Nat) : Nat :=
  let p0 := setByte p 0 (min (getByte p 0 + add.a0) 0xff)
  let p1 := setByte p0 1 (min (getByte p0 1 + add.a1) 0xff)
  setByte p1 2 (min (getByte p1 2 + add.a2) 0xff)

/-- Line 352: the red/blue exchange of one 32-bit pixel. -/
def swapRedBlue32 (color : Nat) : Nat :=
  (((color &&& 0x00ff0000) >>> 16) ||| (color &&& 0xff00ff00) ||| ((color &&& 0x000000ff) <<< 16))
    % 2 ^ 32

/-- Line 344: the red/blue exchange of two pixels held in one 64-bit word. -/
def swapRedBlue64 (colors : Nat) : Nat :=
  (((colors &&& 0x00ff000000ff0000) >>> 16) ||| (colors &&& 0xff00ff00ff00ff00)
    ||| ((colors &&& 0x000000ff000000ff) <<< 16)) % 2 ^ 64

/-- Lines 294-305: the tint loops over the bitmap. -/
def tintStage (mult : TintMult) (bitmap : BitmapView) : Option BitmapView :=
  (forRows (fun y mem =>
      modifyPixels (tintPixel mult) bitmap.getSize.x.toNat (bitmap.getLinePointer y) mem)
    bitmap.getSize.y.toNat 0 bitmap.mem).map fun mem => { bitmap with mem := mem }

/-- Lines 317-327: the add loops over the bitmap. -/
def addStage (add : AddAmount) (bitmap : BitmapView) : Option BitmapView :=
  (forRows (fun y mem =>
      modifyPixels (addPixel add) bitmap.getSize.x.toNat (bitmap.getLinePointer y) mem)
    bitmap.getSize.y.toNat 0 bitmap.mem).map fun mem => { bitmap with mem := mem }

/-- Lines 341-346: `n` rounds of the two-pixel loop; the 64-bit word at `dst` is
the pixel at `dst` (low half) and the pixel at `dst + 1` (high half). -/
def swapWide : Nat → Int → List Nat → Option (List Nat)
  | 0, _, mem => some mem
  | n + 1, dst, mem =>
    (readAt mem dst).bind fun lo =>
      (readAt mem (dst + 1)).bind fun hi =>
        let colors := swapRedBlue64 (lo + hi * 2 ^ 32)
        (writeAt mem dst (colors % 2 ^ 32)).bind fun mem1 =>
          (writeAt mem1 (dst + 1) (colors / 2 ^ 32)).bind (swapWide n (dst + 2))

/-- Lines 336-354: the swap of one line of `numPixels` pixels starting at `dst`.
On a 64-bit target the two-pixel loop `for (; k < numPixels; k += 2)` runs
`(numPixels + 1) / 2` rounds and leaves `k = 2 * ((numPixels + 1) / 2)`; the
single-pixel loop `for (; k < numPixels; ++k)` then runs `numPixels - k` rounds. -/
def swapLine (ext : External) (numPixels : Nat) (dst : Int) (mem : List Nat) :
    Option (List Nat) :=
  if ext.sizeofPointer = 8 then
    let rounds := (numPixels + 1) / 2
    (swapWide rounds dst mem).bind
      (modifyPixels swapRedBlue32 (numPixels - 2 * rounds) (dst + 2 * rounds))
  else
    modifyPixels swapRedBlue32 numPixels dst mem

/-- Lines 333-355: the swap loops over the bitmap. -/
def swapStage (ext : External) (bitmap : BitmapView) : Option BitmapView :=
  (forRows (fun y mem => swapLine ext bitmap.getSize.x.toNat (bitmap.getLinePointer y) mem)
    bitmap.getSize.y.toNat 0 bitmap.mem).map fun mem => { bitmap with mem := mem }

/-- The function `Blitter::needsIntermediateProcessing` (lines 276-279). -/
def needsIntermediateProcessing (options : Options) : Bool :=
  options.mTintColor.isSome || options.mAddedColor.isSome || options.mSwapRedBlueChannels

/-- The function `Blitter::processIntermediateBitmap` (lines 281-357): three
blocks in sequence, each working in place on the result of the one before. -/
def processIntermediateBitmap (ext : External) (bitmap : BitmapView) (options : Options) :
    Option BitmapView := do
  let mut current := bitmap
  if let some tint := options.mTintColor then
    current ← tintStage (tintMult ext tint) current
  if let some added := options.mAddedColor then
    current ← addStage (addAmount ext added) current
  if options.mSwapRedBlueChannels then
    current ← swapStage ext current
  return current

/-- The pipeline in the words of the specification: tint, then add, then swap,
each stage applied when it is configured and the identity otherwise. -/
def adjustmentPipeline (ext : External) (bitmap : BitmapView) (options : Options) :
    Option BitmapView :=
  let tint : BitmapView → Option BitmapView :=
    match options.mTintColor with
    | some c => tintStage (tintMult ext c)
    | none => some
  let add : BitmapView → Option BitmapView :=
    match options.mAddedColor with
    | some c => addStage (addAmount ext c)
    | none => some
  let swap : BitmapView → Option BitmapView :=
    if options.mSwapRedBlueChannels then swapStage ext else some
  ((tint bitmap).bind add).bind swap

/-! ## Draw calls -/

/-- One call of `BlitterHelper::mergeIntoOutput`. -/
structure MergeCall where
  output : OutputWrapper
  outputBoundingBox : Recti
  intermediate : BitmapView
  options : Options
  deriving DecidableEq

/-- One call of a fill primitive of `BlitterHelper`. -/
inductive FillCall where
  | fillRect (view : BitmapView) (color : Color)
  | blendRectAlpha (view : BitmapView) (color : Color)
  deriving DecidableEq

/-- The function `Blitter::blitColor` (lines 14-31): the call it issues, if any. -/
def blitColor (output : OutputWrapper) (color : Color) (blendMode : BlendMode) :
    Option FillCall :=
  let outputView := output.mBitmapView.subView output.mViewportRect
  if outputView.isEmpty then none
  else if blendMode = BlendMode.OPAQUE ∨ color.a.geOne = true then
    some (FillCall.fillRect outputView color)
  else if color.a.gtZero = true then
    some (FillCall.blendRectAlpha outputView color)
  else none

/-- The output memory after `Blitter::blitColor`. -/
def blitColorOutput (ext : External) (output : OutputWrapper) (color : Color)
    (blendMode : BlendMode) : List Nat :=
  match blitColor output color blendMode with
  | none => output.mBitmapView.mem
  | some (FillCall.fillRect view c) => ext.fillRect view c
  | some (FillCall.blendRectAlpha view c) => ext.blendRectAlpha view c

/-- The function `Blitter::blitSprite` (lines 33-75): the object state after the
call and the merge it issues, if any; `none` is a memory fault. -/
def blitSprite (ext : External) (self : Instance) (output : OutputWrapper)
    (sprite : SpriteWrapper) (position : Vec2i) (options : Options) :
    Option (Instance × Option MergeCall) :=
  let outputBoundingBox := applyCropping ext output.mViewportRect
    (Recti.ofPosSize (-sprite.mPivot) sprite.mBitmapView.getSize) position options
  if outputBoundingBox.isEmpty then some (self, none)
  else
    match options.mTransform with
    | none =>
      let innerIndent := outputBoundingBox.getPos - position + sprite.mPivot
      if needsIntermediateProcessing options then
        (makeTempBitmapAsCopy self sprite.mBitmapView outputBoundingBox.getSize innerIndent).bind
          fun copied => (processIntermediateBitmap ext copied options).bind
            fun intermediate =>
              some (⟨intermediate.mem⟩, some ⟨output, outputBoundingBox, intermediate, options⟩)
      else
        let intermediate :=
          sprite.mBitmapView.subView (Recti.ofPosSize innerIndent outputBoundingBox.getSize)
        some (self, some ⟨output, outputBoundingBox, intermediate, options⟩)
    | some _ =>
      (makeTempBitmapAsTransformedCopy ext self outputBoundingBox sprite position options).bind
        fun copied => (processIntermediateBitmap ext copied options).bind
          fun intermediate =>
            some (⟨intermediate.mem⟩, some ⟨output, outputBoundingBox, intermediate, options⟩)

/-- The function `Blitter::blitIndexed` (lines 77-107): the object state after the
call and the merge it issues, if any; `none` is a memory fault. -/
def blitIndexed (ext : External) (self : Instance) (output : OutputWrapper)
    (sprite : IndexedSpriteWrapper) (palette : PaletteWrapper) (position : Vec2i)
    (options : Options) : Option (Instance × Option MergeCall) :=
  let outputBoundingBox := applyCropping ext output.mViewportRect
    (Recti.ofPosSize (-sprite.mPivot) sprite.mBitmapView.getSize) position options
  if outputBoundingBox.isEmpty then some (self, none)
  else
    match options.mTransform with
    | none =>
      let innerIndent := outputBoundingBox.getPos - position + sprite.mPivot
      (makeTempBitmapAsCopyIndexed self sprite.mBitmapView palette outputBoundingBox.getSize
          innerIndent).bind
        fun copied => (processIntermediateBitmap ext copied options).bind
          fun intermediate =>
            some (⟨intermediate.mem⟩, some ⟨output, outputBoundingBox, intermediate, options⟩)
    | some _ =>
      (makeTempBitmapAsTransformedCopyIndexed ext self outputBoundingBox sprite palette position
          options).bind
        fun copied => (processIntermediateBitmap ext copied options).bind
          fun intermediate =>
            some (⟨intermediate.mem⟩, some ⟨output, outputBoundingBox, intermediate, options⟩)

/-! ## Auxiliary definitions for the statements -/

/-- The multiplier `mult[k]` of channel `k`. -/
def TintMult.get (m : TintMult) : Nat → Nat
  | 0 => m.m0
  | 1 => m.m1
  | 2 => m.m2
  | _ => m.m3

/-- A staged bitmap: a view laid out as `makeTempBitmap` returns it, namely the
whole scratch vector, starting at cell 0, with row stride equal to the width. -/
def IsStaged (b : BitmapView) : Prop :=
  b.mData = 0 ∧ b.mStride = b.mSize.x ∧ 0 ≤ b.mSize.x ∧ 0 ≤ b.mSize.y
    ∧ b.mem.length = (b.mSize.x * b.mSize.y).toNat

instance (b : BitmapView) : Decidable (IsStaged b) := by
  unfold IsStaged; infer_instance

/-- A merge that copies its source: after the call the output pixel at
`box position + (x, y)` is the source pixel `(x, y)`, for every `(x, y)` of the box. -/
def CopiesSource (merge : MergeCall → BitmapView) : Prop :=
  ∀ (call : MergeCall) (x y : Int),
    0 ≤ x → x < call.outputBoundingBox.width → 0 ≤ y → y < call.outputBoundingBox.height →
      (merge call).getPixel (call.outputBoundingBox.x + x) (call.outputBoundingBox.y + y)
        = call.intermediate.getPixel x y

/-- A merge that copies its source: the output becomes the source view, moved to
the destination box. -/
def shiftMerge (call : MergeCall) : BitmapView :=
  { mem := call.intermediate.mem
    mData := call.intermediate.mData - call.outputBoundingBox.x
      - call.outputBoundingBox.y * call.intermediate.mStride
    mSize := call.intermediate.mSize
    mStride := call.intermediate.mStride }

/-- An instance of `External` for evaluating the embedding on concrete inputs:
a 64-bit target, `roundToInt` rounding the exact product half up, and
primitives that draw nothing. -/
def exampleExternal : External :=
  { transformedBoundingBox := fun _ r _ => r
    pointSample := fun _ _ _ _ _ => 0
    bilinearSample := fun _ _ _ _ _ => 0
    pointSampleIndexed := fun _ _ _ _ _ _ => 0
    bilinearSampleIndexed := fun _ _ _ _ _ _ => 0
    roundToIntScaled := fun v k =>
      match v with
      | FloatVal.finite q => ⌊q * k + 1 / 2⌋
      | _ => 0
    sizeofPointer := 8
    getABGR32 := fun _ => 0
    fillRect := fun v _ => v.mem
    blendRectAlpha := fun v _ => v.mem }

/-- Options with alpha blending, point sampling, no transform and no adjustment. -/
def plainOptions : Options :=
  { mBlendMode := BlendMode.ALPHA
    mSamplingMode := SamplingMode.POINT
    mTransform := none
    mInvTransform := ⟨FloatVal.finite 1, FloatVal.finite 0, FloatVal.finite 0, FloatVal.finite 1⟩
    mTintColor := none
    mAddedColor := none
    mSwapRedBlueChannels := false }

/-- The amount `add[k]` of channel `k`. -/
def AddAmount.get (a : AddAmount) : Nat → Nat
  | 0 => a.a0
  | 1 => a.a1
  | _ => a.a2

/-- The inner indent of lines 41 and 85,
`outputBoundingBox.getPos() - position + sprite.mPivot`. -/
def innerIndent (outputBoundingBox : Recti) (position pivot : Vec2i) : Vec2i :=
  outputBoundingBox.getPos - position + pivot

/-- Every pixel of the view can be read: its address lies in the memory. -/
def BitmapView.Readable (v : BitmapView) : Prop :=
  ∀ x y : Int, 0 ≤ x → x < v.mSize.x → 0 ≤ y → y < v.mSize.y → ∃ p, v.getPixel x y = some p

/-- The bit of `p` that the red/blue exchange moves to bit `i`: bits 0..7 and
16..23 trade places, the others stay. -/
def laneSwap (i : Nat) : Nat :=
  if i < 8 then i + 16 else if i < 16 then i else if i < 24 then i - 16 else i

/-- The bit of a 64-bit word that the two-pixel exchange moves to bit `i`: the
exchange of `laneSwap` in each 32-bit half. -/
def laneSwap64 (i : Nat) : Nat :=
  if i < 8 then i + 16 else if i < 16 then i else if i < 24 then i - 16 else if i < 32 then i
  else if i < 40 then i + 16 else if i < 48 then i else if i < 56 then i - 16 else i

/-- The cells that `n` rounds of the two-pixel loop of `swapWide` read and write. -/
def swapWideAccesses : Nat → Int → List Int
  | 0, _ => []
  | n + 1, dst => dst :: (dst + 1) :: swapWideAccesses n (dst + 2)

/-- The cells that `n` rounds of the single-pixel loop of `modifyPixels` read and
write. -/
def modifyPixelsAccesses : Nat → Int → List Int
  | 0, _ => []
  | n + 1, dst => dst :: modifyPixelsAccesses n (dst + 1)

/-- The cells that `swapLine` reads and writes for a line of `numPixels` pixels
starting at `dst`. -/
def swapLineAccesses (ext : External) (numPixels : Nat) (dst : Int) : List Int :=
  if ext.sizeofPointer = 8 then
    let rounds := (numPixels + 1) / 2
    swapWideAccesses rounds dst
      ++ modifyPixelsAccesses (numPixels - 2 * rounds) (dst + 2 * rounds)
  else
    modifyPixelsAccesses numPixels dst

/-- The target of `exampleExternal` with 32-bit pointers. -/
def exampleExternal32 : External := { exampleExternal with sizeofPointer := 4 }

/-! ## Binary32 arithmetic -/

/-- Round to the nearest integer, a tie to the even one. -/
def roundNearestEven (q : ℚ) : Int :=
  if q - ⌊q⌋ < 1 / 2 then ⌊q⌋
  else if 1 / 2 < q - ⌊q⌋ then ⌊q⌋ + 1
  else if ⌊q⌋ % 2 = 0 then ⌊q⌋ else ⌊q⌋ + 1

/-- The exponent `e` of the spacing `2 ^ e` of the binary32 numbers around `q`:
24 significant bits, so `2 ^ (e + 23) <= |q| < 2 ^ (e + 24)`, and not below the
spacing `2 ^ (-149)` of the subnormal numbers.  (For `q = 0` the logarithm is
taken as 0; zero is a multiple of every spacing.) -/
def ulpExponent (q : ℚ) : Int := max (Int.log 2 |q| - 23) (-149)

/-- The binary32 value of the exact result `q` of an operation (IEEE 754
round-to-nearest, ties to even); a result that rounds to `2 ^ 128` or beyond is
an infinity.  The two zeros are not told apart. -/
def toFloat32 (q : ℚ) : FloatVal :=
  let r : ℚ := roundNearestEven (q / 2 ^ ulpExponent q) * 2 ^ ulpExponent q
  if 2 ^ 128 ≤ r then FloatVal.posInf
  else if r ≤ -2 ^ 128 then FloatVal.negInf
  else FloatVal.finite r

namespace FloatVal

/-- The comparison `a < b`; false when an operand is NaN. -/
def lt : FloatVal → FloatVal → Bool
  | nan, _ => false
  | _, nan => false
  | posInf, _ => false
  | _, negInf => false
  | negInf, _ => true
  | _, posInf => true
  | finite a, finite b => decide (a < b)

/-- The float sum `a + b`. -/
def add : FloatVal → FloatVal → FloatVal
  | nan, _ => nan
  | _, nan => nan
  | posInf, negInf => nan
  | negInf, posInf => nan
  | posInf, _ => posInf
  | _, posInf => posInf
  | negInf, _ => negInf
  | _, negInf => negInf
  | finite a, finite b => toFloat32 (a + b)

/-- The float negation `-a`. -/
def neg : FloatVal → FloatVal
  | nan => nan
  | negInf => posInf
  | finite a => finite (-a)
  | posInf => negInf

/-- The float difference `a - b`. -/
def sub (a b : FloatVal) : FloatVal := add a (neg b)

/-- The product of an infinity of sign `s` (true: positive) and the finite `a`. -/
def mulInf (s : Bool) (a : ℚ) : FloatVal :=
  if a = 0 then nan else if (decide (0 < a)) = s then posInf else negInf

/-- The float product `a * b`. -/
def mul : FloatVal → FloatVal → FloatVal
  | nan, _ => nan
  | _, nan => nan
  | finite a, finite b => toFloat32 (a * b)
  | finite a, posInf => mulInf true a
  | finite a, negInf => mulInf false a
  | posInf, finite b => mulInf true b
  | negInf, finite b => mulInf false b
  | posInf, posInf => posInf
  | posInf, negInf => negInf
  | negInf, posInf => negInf
  | negInf, negInf => posInf

end FloatVal

/-- The conversion `(float)n` of an `int`. -/
def intToFloat (n : Int) : FloatVal := toFloat32 n

/-- The value `(int)v` of the truncation of a float value: toward zero. -/
def truncToInt (v : ℚ) : Int := if 0 ≤ v then ⌊v⌋ else ⌈v⌉

/-- The value of an `int` expression, undefined (`none`) outside the range of a
32-bit `int`. -/
def checkInt (v : Int) : Option Int := if -2 ^ 31 ≤ v ∧ v < 2 ^ 31 then some v else none

/-- The conversion `(int)v` of a float: truncation toward zero, undefined for a
NaN, an infinity or a value whose truncation is no 32-bit `int`. -/
def floatToInt : FloatVal → Option Int
  | FloatVal.finite q => checkInt (truncToInt q)
  | _ => none

/-- The call `std::min(a, b)` on floats: `(b < a) ? b : a`. -/
def stdMin (a b : FloatVal) : FloatVal := if FloatVal.lt b a then b else a

/-- The call `std::max(a, b)` on floats: `(a < b) ? b : a`. -/
def stdMax (a b : FloatVal) : FloatVal := if FloatVal.lt a b then b else a

/-! ## The transformed branch of `applyCropping` -/

/-- Lines 257-259: the screen position of the corner `corner + spriteRect.getPos()`
under the matrix `t`, every operation rounded to binary32. -/
def screenCorner (t : Transform) (spriteRect : Recti) (position : Vec2i) (corner : Vec2i) :
    FloatVal × FloatVal :=
  let localCorner := corner + spriteRect.getPos
  let localCornerX := intToFloat localCorner.x
  let localCornerY := intToFloat localCorner.y
  (((intToFloat position.x).add (localCornerX.mul t.m0)).add (localCornerY.mul t.m1),
    ((intToFloat position.y).add (localCornerX.mul t.m2)).add (localCornerY.mul t.m3))

/-- The four corners of line 254. -/
def cornersOf (spriteRect : Recti) : List Vec2i :=
  [⟨0, 0⟩, ⟨spriteRect.getSize.x, 0⟩, ⟨0, spriteRect.getSize.y⟩, spriteRect.getSize]

/-- Lines 251-264: the running minimum and maximum over the four corners,
started at `(1e10f, 1e10f)` and `(-1e10f, -1e10f)`; the literal `1e10f` is the
binary32 number 10000000000. -/
def cornerBounds (t : Transform) (spriteRect : Recti) (position : Vec2i) :
    (FloatVal × FloatVal) × (FloatVal × FloatVal) :=
  (cornersOf spriteRect).foldl
    (fun acc corner =>
      let s := screenCorner t spriteRect position corner
      ((stdMin s.1 acc.1.1, stdMin s.2 acc.1.2), (stdMax s.1 acc.2.1, stdMax s.2 acc.2.2)))
    ((FloatVal.finite 10000000000, FloatVal.finite 10000000000),
      (FloatVal.finite (-10000000000), FloatVal.finite (-10000000000)))

/-- Line 257: the `int` sums `corners[i] + spriteRect.getPos()` of the four corners
are defined. -/
def cornersInRange (spriteRect : Recti) : Bool :=
  (cornersOf spriteRect).all fun corner =>
    (checkInt (corner.x + spriteRect.x)).isSome && (checkInt (corner.y + spriteRect.y)).isSome

/-- Lines 251-269 of `applyCropping`: the uncropped bounding box of the
transformed sprite rectangle; `none` where a conversion to `int` or an `int`
operation of these lines is undefined. -/
def transformedBoundingBox (t : Transform) (spriteRect : Recti) (position : Vec2i) :
    Option Recti :=
  if cornersInRange spriteRect then
    let bounds := cornerBounds t spriteRect position
    (floatToInt bounds.1.1).bind fun x =>
    (floatToInt bounds.1.2).bind fun y =>
    (floatToInt bounds.2.1).bind fun maxX =>
    (checkInt (maxX + 1)).bind fun maxX1 =>
    (checkInt (maxX1 - x)).bind fun width =>
    (floatToInt bounds.2.2).bind fun maxY =>
    (checkInt (maxY + 1)).bind fun maxY1 =>
    (checkInt (maxY1 - y)).bind fun height =>
    some ⟨x, y, width, height⟩
  else none

/-! ## Point sampling of the transformed copy -/

/-- Modelled from the spec: `roundToInt` of `rmx` is not part of the source tree;
"round local coordinates to nearest integer" (a tie goes up). -/
def roundToInt (v : ℚ) : Int := ⌊v + 1 / 2⌋

/-- Modelled from the spec: `roundToInt` on a float; its value for a NaN or an
infinity is not specified and is 0 here. -/
def roundToIntFloat : FloatVal → Int
  | FloatVal.finite q => roundToInt q
  | _ => 0

/-- Modelled from the spec: `BlitterHelper::pointSampling` is not part of the
source tree; "nearest-pixel fetch; returns transparent for out-of-range
coordinates". -/
def pointSampling (view : BitmapView) (x y : Int) : Nat :=
  if 0 ≤ x ∧ x < view.mSize.x ∧ 0 ≤ y ∧ y < view.mSize.y then (view.getPixel x y).getD 0 else 0

/-- Lines 156-160 of `makeTempBitmapAsTransformedCopy`: the sample for the output
pixel `(sx, sy) = (outputBoundingBox.x + ix, outputBoundingBox.y + iy)`, every
float operation rounded to binary32. -/
def pointSample (options : Options) (sprite : SpriteWrapper) (position : Vec2i)
    (sx sy : Int) : Nat :=
  let half := FloatVal.finite (1 / 2)
  let dx := (intToFloat (sx - position.x)).add half
  let dy := (intToFloat (sy - position.y)).add half
  let localX := roundToIntFloat
    (((dx.mul options.mInvTransform.m0).add (dy.mul options.mInvTransform.m1)).sub half)
      + sprite.mPivot.x
  let localY := roundToIntFloat
    (((dx.mul options.mInvTransform.m2).add (dy.mul options.mInvTransform.m3)).sub half)
      + sprite.mPivot.y
  pointSampling sprite.mBitmapView localX localY

/-- The instance of `External` whose float code is that of `Blitter.cpp` in
binary32 arithmetic: the bounding box of the transformed branch (the empty
rectangle where that code is undefined), the point sampling of the transformed
copy, and `roundToInt(channel * k)` of the tint and add stages.  The target and
the primitives of `BlitterHelper` are as in `exampleExternal`. -/
def float32External : External :=
  { exampleExternal with
    transformedBoundingBox := fun t spriteRect position =>
      (transformedBoundingBox t spriteRect position).getD Recti.zero
    pointSample := pointSample
    roundToIntScaled := fun v k => roundToIntFloat (v.mul (intToFloat (k : Int))) }

/-- The identity matrix (1, 0, 0, 1). -/
def identityTransform : Transform :=
  ⟨FloatVal.finite 1, FloatVal.finite 0, FloatVal.finite 0, FloatVal.finite 1⟩

/-- The options `plainOptions` with the identity transform. -/
def identityOptions : Options := { plainOptions with mTransform := some identityTransform }

/-- The half turn (-1, 0, 0, -1), which is its own inverse. -/
def halfTurn : Transform :=
  ⟨FloatVal.finite (-1), FloatVal.finite 0, FloatVal.finite 0, FloatVal.finite (-1)⟩

/-- The options `plainOptions` with the half turn. -/
def halfTurnOptions : Options :=
  { plainOptions with mTransform := some halfTurn, mInvTransform := halfTurn }

/-! # Theorems -/

/-! ## Geometry and cropping -/

theorem vec_add_neg (a b : Vec2i) : a + -b = a - b := by
  cases a; cases b
  show Vec2i.add _ (Vec2i.neg _) = Vec2i.sub _ _
  simp [Vec2i.add, Vec2i.neg, Vec2i.sub, Int.sub_eq_add_neg]

theorem getIntersection_contains (a b : Recti) (px py : Int) :
    (Recti.getIntersection a b).Contains px py ↔ a.Contains px py ∧ b.Contains px py := by
  simp only [Recti.getIntersection, Recti.Contains]
  omega

theorem getIntersection_of_inside (a b : Recti) (h : a.Inside b) :
    Recti.getIntersection a b = a := by
  obtain ⟨h1, h2, h3, h4⟩ := h
  cases a; cases b
  simp only [Recti.getIntersection, Recti.mk.injEq] at *
  omega

theorem isEmpty_eq_false_iff (r : Recti) : r.isEmpty = false ↔ 0 < r.width ∧ 0 < r.height := by
  simp [Recti.isEmpty]

theorem isEmpty_eq_true_iff (r : Recti) : r.isEmpty = true ↔ r.width ≤ 0 ∨ r.height ≤ 0 := by
  simp [Recti.isEmpty]

theorem applyCropping_of_not_empty (ext : External) (viewportRect spriteRect : Recti)
    (position : Vec2i) (options : Options) (h : spriteRect.isEmpty = false) :
    applyCropping ext viewportRect spriteRect position options =
      Recti.getIntersection
        (match options.mTransform with
          | none => Recti.ofPosSize (position + spriteRect.getPos) spriteRect.getSize
          | some t => ext.transformedBoundingBox t spriteRect position) viewportRect := by
  simp [applyCropping, h]

theorem applyCropping_no_transform (ext : External) (viewportRect : Recti)
    (spriteSize pivot position : Vec2i) (options : Options)
    (hsize : 0 < spriteSize.x ∧ 0 < spriteSize.y) (hnt : options.mTransform = none) :
    applyCropping ext viewportRect (Recti.ofPosSize (-pivot) spriteSize) position options
      = Recti.getIntersection (Recti.ofPosSize (position - pivot) spriteSize) viewportRect := by
  have hne : (Recti.ofPosSize (-pivot) spriteSize).isEmpty = false := by
    rw [isEmpty_eq_false_iff]; exact hsize
  rw [applyCropping_of_not_empty _ _ _ _ _ hne, hnt]
  simp only [Recti.ofPosSize, Recti.getPos, Recti.getSize]
  rw [show (⟨(-pivot).x, (-pivot).y⟩ : Vec2i) = -pivot from rfl, vec_add_neg]

/-- Claim C1.  For every viewport rectangle, non-empty sprite size, pivot and anchor
position, with no transform configured, `applyCropping` returns the intersection
of the rectangle `(position - pivot, spriteSize)` with the viewport: it is the
rectangle from the larger min corner to the smaller max corner, a pixel lies in
it exactly when it lies in both rectangles, and when the footprint lies wholly
inside the viewport the result is the footprint itself. -/
theorem applyCropping_untransformed (ext : External) (viewportRect : Recti)
    (spriteSize pivot position : Vec2i) (options : Options)
    (hsize : 0 < spriteSize.x ∧ 0 < spriteSize.y) (hnt : options.mTransform = none) :
    applyCropping ext viewportRect (Recti.ofPosSize (-pivot) spriteSize) position options
        = Recti.getIntersection (Recti.ofPosSize (position - pivot) spriteSize) viewportRect
      ∧ (∀ px py : Int,
          (applyCropping ext viewportRect (Recti.ofPosSize (-pivot) spriteSize) position
              options).Contains px py
            ↔ (Recti.ofPosSize (position - pivot) spriteSize).Contains px py
                ∧ viewportRect.Contains px py)
      ∧ ((Recti.ofPosSize (position - pivot) spriteSize).Inside viewportRect →
          applyCropping ext viewportRect (Recti.ofPosSize (-pivot) spriteSize) position options
            = Recti.ofPosSize (position - pivot) spriteSize) := by
  have heq := applyCropping_no_transform ext viewportRect spriteSize pivot position options
    hsize hnt
  refine ⟨heq, ?_, ?_⟩
  · intro px py
    rw [heq]
    exact getIntersection_contains _ _ px py
  · intro hin
    rw [heq]
    exact getIntersection_of_inside _ _ hin

/-- The scenario of claim C1: a 4x4 sprite with zero pivot at (10,10) in a 100x100
viewport is cropped to the box x=10, y=10, width=4, height=4. -/
theorem applyCropping_untransformed_witness :
    applyCropping exampleExternal ⟨0, 0, 100, 100⟩ (Recti.ofPosSize (-⟨0, 0⟩) ⟨4, 4⟩) ⟨10, 10⟩
      plainOptions = ⟨10, 10, 4, 4⟩ :=
  (applyCropping_untransformed exampleExternal ⟨0, 0, 100, 100⟩ ⟨4, 4⟩ ⟨0, 0⟩ ⟨10, 10⟩
    plainOptions (by decide) rfl).2.2 (by decide)

theorem applyCropping_of_empty (ext : External) (viewportRect spriteRect : Recti)
    (position : Vec2i) (options : Options) (hs : spriteRect.isEmpty = true) :
    applyCropping ext viewportRect spriteRect position options = Recti.zero := by
  simp [applyCropping, hs]

theorem applyCropping_box (ext : External) (viewportRect spriteRect : Recti)
    (position : Vec2i) (options : Options)
    (h : (applyCropping ext viewportRect spriteRect position options).isEmpty = false) :
    0 < (applyCropping ext viewportRect spriteRect position options).width
      ∧ 0 < (applyCropping ext viewportRect spriteRect position options).height
      ∧ (applyCropping ext viewportRect spriteRect position options).Inside viewportRect := by
  have hpos := (isEmpty_eq_false_iff _).1 h
  refine ⟨hpos.1, hpos.2, ?_⟩
  by_cases hs : spriteRect.isEmpty = true
  · rw [applyCropping_of_empty _ _ _ _ _ hs] at hpos
    simp [Recti.zero] at hpos
  · have hs' : spriteRect.isEmpty = false := by simpa using hs
    rw [applyCropping_of_not_empty _ _ _ _ _ hs'] at hpos ⊢
    simp only [Recti.getIntersection, Recti.Inside] at hpos ⊢
    omega

theorem blitSprite_merge (ext : External) (self self' : Instance) (output : OutputWrapper)
    (sprite : SpriteWrapper) (position : Vec2i) (options : Options) (call : MergeCall)
    (h : blitSprite ext self output sprite position options = some (self', some call)) :
    call.outputBoundingBox = applyCropping ext output.mViewportRect
        (Recti.ofPosSize (-sprite.mPivot) sprite.mBitmapView.getSize) position options
      ∧ call.output = output
      ∧ call.outputBoundingBox.isEmpty = false := by
  unfold blitSprite at h
  simp only [] at h
  split at h
  · simp at h
  · rename_i hne
    have hne' : (applyCropping ext output.mViewportRect
        (Recti.ofPosSize (-sprite.mPivot) sprite.mBitmapView.getSize) position options).isEmpty
          = false := by simpa using hne
    split at h
    · split at h
      · simp only [Option.bind_eq_some] at h
        obtain ⟨_, _, _, _, h⟩ := h
        simp only [Option.some.injEq, Prod.mk.injEq] at h
        obtain ⟨_, rfl⟩ := h
        exact ⟨rfl, rfl, hne'⟩
      · simp only [Option.some.injEq, Prod.mk.injEq] at h
        obtain ⟨_, rfl⟩ := h
        exact ⟨rfl, rfl, hne'⟩
    · simp only [Option.bind_eq_some] at h
      obtain ⟨_, _, _, _, h⟩ := h
      simp only [Option.some.injEq, Prod.mk.injEq] at h
      obtain ⟨_, rfl⟩ := h
      exact ⟨rfl, rfl, hne'⟩

theorem blitIndexed_merge (ext : External) (self self' : Instance) (output : OutputWrapper)
    (sprite : IndexedSpriteWrapper) (palette : PaletteWrapper) (position : Vec2i)
    (options : Options) (call : MergeCall)
    (h : blitIndexed ext self output sprite palette position options = some (self', some call)) :
    call.outputBoundingBox = applyCropping ext output.mViewportRect
        (Recti.ofPosSize (-sprite.mPivot) sprite.mBitmapView.getSize) position options
      ∧ call.output = output
      ∧ call.outputBoundingBox.isEmpty = false := by
  unfold blitIndexed at h
  simp only [] at h
  split at h
  · simp at h
  · rename_i hne
    have hne' : (applyCropping ext output.mViewportRect
        (Recti.ofPosSize (-sprite.mPivot) sprite.mBitmapView.getSize) position options).isEmpty
          = false := by simpa using hne
    split at h
    all_goals
      simp only [Option.bind_eq_some] at h
      obtain ⟨_, _, _, _, h⟩ := h
      simp only [Option.some.injEq, Prod.mk.injEq] at h
      obtain ⟨_, rfl⟩ := h
      exact ⟨rfl, rfl, hne'⟩

/-- Claim C2.  For every call of `blitSprite` or `blitIndexed`, with or without a
transform, the destination box of the merge it issues has strictly positive
width and height and lies inside the viewport rectangle of the output it is
issued for; no merge is issued for an empty box or a box that leaves the
viewport. -/
theorem merge_box_positive_inside_viewport (ext : External) (self self' : Instance)
    (output : OutputWrapper) (position : Vec2i) (options : Options) (call : MergeCall)
    (h : (∃ sprite, blitSprite ext self output sprite position options = some (self', some call))
      ∨ (∃ sprite palette,
          blitIndexed ext self output sprite palette position options = some (self', some call))) :
    0 < call.outputBoundingBox.width ∧ 0 < call.outputBoundingBox.height
      ∧ call.outputBoundingBox.Inside output.mViewportRect
      ∧ call.outputBoundingBox.isEmpty = false
      ∧ call.output = output := by
  have key : ∃ spriteRect, call.outputBoundingBox
        = applyCropping ext output.mViewportRect spriteRect position options
      ∧ call.output = output ∧ call.outputBoundingBox.isEmpty = false := by
    rcases h with ⟨sprite, h⟩ | ⟨sprite, palette, h⟩
    · exact ⟨_, blitSprite_merge ext self self' output sprite position options call h⟩
    · exact ⟨_, blitIndexed_merge ext self self' output sprite palette position options call h⟩
  obtain ⟨spriteRect, hbox, hout, hne⟩ := key
  have hb := applyCropping_box ext output.mViewportRect spriteRect position options
    (by rw [← hbox]; exact hne)
  rw [← hbox] at hb
  exact ⟨hb.1, hb.2.1, hb.2.2, hne, hout⟩

/-- A call of `blitSprite` that issues a merge: a 1x1 sprite at (1,1) in a 2x2
viewport, with the box (1,1,1,1). -/
theorem merge_box_positive_inside_viewport_witness :
    0 < (1 : Int) ∧ 0 < (1 : Int) ∧ (⟨1, 1, 1, 1⟩ : Recti).Inside ⟨0, 0, 2, 2⟩
      ∧ (⟨1, 1, 1, 1⟩ : Recti).isEmpty = false
      ∧ (⟨⟨[0, 0, 0, 0], 0, ⟨2, 2⟩, 2⟩, ⟨0, 0, 2, 2⟩⟩ : OutputWrapper)
          = ⟨⟨[0, 0, 0, 0], 0, ⟨2, 2⟩, 2⟩, ⟨0, 0, 2, 2⟩⟩ :=
  merge_box_positive_inside_viewport exampleExternal ⟨[]⟩ ⟨[]⟩
    ⟨⟨[0, 0, 0, 0], 0, ⟨2, 2⟩, 2⟩, ⟨0, 0, 2, 2⟩⟩ ⟨1, 1⟩ plainOptions
    ⟨⟨⟨[0, 0, 0, 0], 0, ⟨2, 2⟩, 2⟩, ⟨0, 0, 2, 2⟩⟩, ⟨1, 1, 1, 1⟩, ⟨[7], 0, ⟨1, 1⟩, 1⟩, plainOptions⟩
    (Or.inl ⟨⟨⟨[7], 0, ⟨1, 1⟩, 1⟩, ⟨0, 0⟩⟩, rfl⟩)

theorem applyCropping_empty_of_disjoint (ext : External) (viewportRect spriteRect : Recti)
    (position : Vec2i) (options : Options) (hnt : options.mTransform = none)
    (hdis : ∀ px py : Int,
      ¬ ((Recti.ofPosSize (position + spriteRect.getPos) spriteRect.getSize).Contains px py
          ∧ viewportRect.Contains px py)) :
    (applyCropping ext viewportRect spriteRect position options).isEmpty = true := by
  by_cases hs : spriteRect.isEmpty = true
  · rw [applyCropping_of_empty _ _ _ _ _ hs]; rfl
  · have hs' : spriteRect.isEmpty = false := by simpa using hs
    rw [applyCropping_of_not_empty _ _ _ _ _ hs', hnt]
    by_contra hne
    have hne' : (Recti.getIntersection
        (Recti.ofPosSize (position + spriteRect.getPos) spriteRect.getSize) viewportRect).isEmpty
          = false := by simpa using hne
    have hpos := (isEmpty_eq_false_iff _).1 hne'
    apply hdis (max (position + spriteRect.getPos).x viewportRect.x)
      (max (position + spriteRect.getPos).y viewportRect.y)
    rw [← getIntersection_contains]
    simp only [Recti.getIntersection, Recti.Contains, Recti.ofPosSize] at hpos ⊢
    omega

theorem applyCropping_empty_of_empty (ext : External) (viewportRect spriteRect : Recti)
    (position : Vec2i) (options : Options) (hs : spriteRect.isEmpty = true) :
    (applyCropping ext viewportRect spriteRect position options).isEmpty = true := by
  rw [applyCropping_of_empty _ _ _ _ _ hs]; rfl

/-- Claim C3.  For every `blitSprite` or `blitIndexed` call whose sprite bitmap is
empty (with any options), or which has no transform and whose footprint
`(position - pivot, spriteSize)` shares no pixel with the viewport,
`applyCropping` returns an empty rectangle and the call does nothing: no merge is
issued (so the output is not written) and the scratch vector is unchanged. -/
theorem blit_noop_of_empty_or_outside (ext : External) (self : Instance) (output : OutputWrapper)
    (spriteView : BitmapView) (pivot position : Vec2i) (palette : PaletteWrapper)
    (options : Options)
    (h : spriteView.isEmpty = true
      ∨ (options.mTransform = none
          ∧ ∀ px py : Int,
              ¬ ((Recti.ofPosSize (position - pivot) spriteView.getSize).Contains px py
                  ∧ output.mViewportRect.Contains px py))) :
    (applyCropping ext output.mViewportRect (Recti.ofPosSize (-pivot) spriteView.getSize)
        position options).isEmpty = true
      ∧ blitSprite ext self output ⟨spriteView, pivot⟩ position options = some (self, none)
      ∧ blitIndexed ext self output ⟨spriteView, pivot⟩ palette position options
          = some (self, none) := by
  have hbox : (applyCropping ext output.mViewportRect
      (Recti.ofPosSize (-pivot) spriteView.getSize) position options).isEmpty = true := by
    rcases h with h | ⟨hnt, hdis⟩
    · apply applyCropping_empty_of_empty
      simpa [Recti.isEmpty, Recti.ofPosSize, BitmapView.isEmpty, BitmapView.getSize] using h
    · apply applyCropping_empty_of_disjoint _ _ _ _ _ hnt
      intro px py
      have := hdis px py
      simp only [Recti.ofPosSize, Recti.getPos, Recti.getSize] at this ⊢
      rw [show (⟨(-pivot).x, (-pivot).y⟩ : Vec2i) = -pivot from rfl, vec_add_neg]
      exact this
  refine ⟨hbox, ?_, ?_⟩
  · unfold blitSprite
    simp only [hbox, if_true]
  · unfold blitIndexed
    simp only [hbox, if_true]

/-- A call that does nothing: a 1x1 sprite at (2,0), right of a 2x2 viewport. -/
theorem blit_noop_of_empty_or_outside_witness :
    blitSprite exampleExternal ⟨[5]⟩ ⟨⟨[0, 0, 0, 0], 0, ⟨2, 2⟩, 2⟩, ⟨0, 0, 2, 2⟩⟩
        ⟨⟨[7], 0, ⟨1, 1⟩, 1⟩, ⟨0, 0⟩⟩ ⟨2, 0⟩ plainOptions = some (⟨[5]⟩, none) :=
  (blit_noop_of_empty_or_outside exampleExternal ⟨[5]⟩
    ⟨⟨[0, 0, 0, 0], 0, ⟨2, 2⟩, 2⟩, ⟨0, 0, 2, 2⟩⟩ ⟨[7], 0, ⟨1, 1⟩, 1⟩ ⟨0, 0⟩ ⟨2, 0⟩ ⟨[], 0⟩
    plainOptions
    (Or.inr ⟨rfl, by
      intro px py
      simp only [Recti.Contains, Recti.ofPosSize, BitmapView.getSize]
      show ¬ (((2 : Int) - 0 ≤ px ∧ px < 2 - 0 + 1 ∧ (0 : Int) - 0 ≤ py ∧ py < 0 - 0 + 1)
        ∧ (0 ≤ px ∧ px < 0 + 2 ∧ 0 ≤ py ∧ py < 0 + 2))
      omega⟩)).2.1

/-- Claim C4.  Round trip: for every non-empty direct-colour sprite with zero
pivot, blitted by `blitSprite` at position (0,0) with no transform and no
tint/add/swap onto an output whose viewport is (0,0,w,h), a merge is issued, the
scratch vector is untouched, the destination box is (0,0,w,h), the view handed
to the merge has the size of the source and equals it pixel for pixel, and a
merge that copies its source leaves output pixels identical to the source
pixels. -/
theorem blitSprite_round_trip (ext : External) (self : Instance) (source outputView : BitmapView)
    (options : Options) (merge : MergeCall → BitmapView)
    (hw : 0 < source.mSize.x) (hh : 0 < source.mSize.y)
    (hnt : options.mTransform = none) (htint : options.mTintColor = none)
    (hadd : options.mAddedColor = none) (hswap : options.mSwapRedBlueChannels = false)
    (hmerge : CopiesSource merge) :
    ∃ call : MergeCall,
      blitSprite ext self ⟨outputView, ⟨0, 0, source.mSize.x, source.mSize.y⟩⟩
          ⟨source, ⟨0, 0⟩⟩ ⟨0, 0⟩ options = some (self, some call)
        ∧ call.output = ⟨outputView, ⟨0, 0, source.mSize.x, source.mSize.y⟩⟩
        ∧ call.options = options
        ∧ call.outputBoundingBox = ⟨0, 0, source.mSize.x, source.mSize.y⟩
        ∧ call.intermediate = source
        ∧ call.intermediate.getSize = source.getSize
        ∧ (∀ x y : Int, call.intermediate.getPixel x y = source.getPixel x y)
        ∧ (∀ x y : Int, 0 ≤ x → x < source.mSize.x → 0 ≤ y → y < source.mSize.y →
            (merge call).getPixel x y = source.getPixel x y) := by
  have hbox : applyCropping ext ⟨0, 0, source.mSize.x, source.mSize.y⟩
      (Recti.ofPosSize (-(⟨0, 0⟩ : Vec2i)) source.getSize) ⟨0, 0⟩ options
        = ⟨0, 0, source.mSize.x, source.mSize.y⟩ := by
    rw [applyCropping_no_transform ext ⟨0, 0, source.mSize.x, source.mSize.y⟩
      source.getSize ⟨0, 0⟩ ⟨0, 0⟩ options ⟨hw, hh⟩ hnt, getIntersection_of_inside]
    · show Recti.ofPosSize (Vec2i.sub _ _) _ = _
      simp [Recti.ofPosSize, Vec2i.sub, BitmapView.getSize]
    · show Recti.Inside (Recti.ofPosSize (Vec2i.sub _ _) _) _
      simp [Recti.ofPosSize, Vec2i.sub, BitmapView.getSize, Recti.Inside]
  have hview : source.subView (Recti.ofPosSize
      ((⟨0, 0, source.mSize.x, source.mSize.y⟩ : Recti).getPos - ⟨0, 0⟩ + ⟨0, 0⟩)
      (⟨0, 0, source.mSize.x, source.mSize.y⟩ : Recti).getSize) = source := by
    show source.subView (Recti.ofPosSize (Vec2i.add (Vec2i.sub _ _) _) _) = source
    cases source
    simp [BitmapView.subView, Recti.ofPosSize, Vec2i.add, Vec2i.sub, Recti.getPos, Recti.getSize,
      BitmapView.getPixelPointer]
  have hne : (⟨0, 0, source.mSize.x, source.mSize.y⟩ : Recti).isEmpty = false := by
    rw [isEmpty_eq_false_iff]; exact ⟨hw, hh⟩
  have hnp : needsIntermediateProcessing options = false := by
    simp [needsIntermediateProcessing, htint, hadd, hswap]
  refine ⟨⟨⟨outputView, ⟨0, 0, source.mSize.x, source.mSize.y⟩⟩,
    ⟨0, 0, source.mSize.x, source.mSize.y⟩, source, options⟩, ?_, rfl, rfl, rfl, rfl, rfl,
    fun _ _ => rfl, ?_⟩
  · unfold blitSprite
    simp only [hbox, hne, hnt, hnp, hview]
    simp
  · intro x y hx0 hx hy0 hy
    have := hmerge ⟨⟨outputView, ⟨0, 0, source.mSize.x, source.mSize.y⟩⟩,
      ⟨0, 0, source.mSize.x, source.mSize.y⟩, source, options⟩ x y hx0 hx hy0 hy
    simpa using this

theorem shiftMerge_copiesSource : CopiesSource shiftMerge := by
  intro call x y _ _ _ _
  simp only [shiftMerge, BitmapView.getPixel, BitmapView.getPixelPointer]
  congr 1
  ring

/-- The round trip of a 2x1 sprite: the merge is handed the source view itself,
and the copying merge `shiftMerge` shows its two pixels at (0,0) and (1,0). -/
theorem blitSprite_round_trip_witness :
    ∃ call : MergeCall,
      blitSprite exampleExternal ⟨[9]⟩ ⟨⟨[0, 0], 0, ⟨2, 1⟩, 2⟩, ⟨0, 0, 2, 1⟩⟩
          ⟨⟨[0xff0000ff, 0xff00ff00], 0, ⟨2, 1⟩, 2⟩, ⟨0, 0⟩⟩ ⟨0, 0⟩ plainOptions
            = some (⟨[9]⟩, some call)
        ∧ call.intermediate = ⟨[0xff0000ff, 0xff00ff00], 0, ⟨2, 1⟩, 2⟩
        ∧ (shiftMerge call).getPixel 0 0 = some 0xff0000ff
        ∧ (shiftMerge call).getPixel 1 0 = some 0xff00ff00 := by
  obtain ⟨call, hcall, _, _, _, hsrc, _, _, hpix⟩ := blitSprite_round_trip exampleExternal ⟨[9]⟩
    ⟨[0xff0000ff, 0xff00ff00], 0, ⟨2, 1⟩, 2⟩ ⟨[0, 0], 0, ⟨2, 1⟩, 2⟩ plainOptions shiftMerge
    (by decide) (by decide) rfl rfl rfl rfl shiftMerge_copiesSource
  refine ⟨call, hcall, hsrc, ?_, ?_⟩
  · rw [hpix 0 0 (by decide) (by decide) (by decide) (by decide)]; rfl
  · rw [hpix 1 0 (by decide) (by decide) (by decide) (by decide)]; rfl

/-! ## Memory and loops -/

theorem readAt_of_lt (mem : List Nat) (i : Int) (h0 : 0 ≤ i) (h1 : i < mem.length) :
    ∃ v, readAt mem i = some v := by
  have : i.toNat < mem.length := by omega
  exact ⟨mem[i.toNat], by simp [readAt, h0, List.getElem?_eq_getElem this]⟩

theorem writeAt_of_lt (mem : List Nat) (i : Int) (v : Nat) (h0 : 0 ≤ i) (h1 : i < mem.length) :
    writeAt mem i v = some (mem.set i.toNat v) := by
  have : i.toNat < mem.length := by omega
  simp [writeAt, h0, this]

theorem writeAt_length {mem mem' : List Nat} {i : Int} {v : Nat}
    (h : writeAt mem i v = some mem') : mem'.length = mem.length := by
  unfold writeAt at h
  split at h
  · simp only [Option.some.injEq] at h; subst h; simp
  · simp at h

theorem readAt_writeAt_same {mem mem' : List Nat} {i : Int} {v : Nat}
    (h : writeAt mem i v = some mem') : readAt mem' i = some v := by
  unfold writeAt at h
  split at h
  · rename_i hi
    simp only [Option.some.injEq] at h; subst h
    simp [readAt, hi.1, hi.2]
  · simp at h

theorem readAt_writeAt_other {mem mem' : List Nat} {i j : Int} {v : Nat}
    (h : writeAt mem i v = some mem') (hj : j ≠ i) : readAt mem' j = readAt mem j := by
  unfold writeAt at h
  split at h
  · rename_i hi
    simp only [Option.some.injEq] at h; subst h
    unfold readAt
    split
    · rename_i hj0
      have : i.toNat ≠ j.toNat := by omega
      simp [List.getElem?_set_ne this]
    · rfl
  · simp at h

theorem copyPixels_spec (g : Nat → Option Nat) (srcMem : List Nat) :
    ∀ (n : Nat) (src dst : Int) (mem : List Nat), 0 ≤ dst → dst + n ≤ mem.length →
      (∀ k : Int, 0 ≤ k → k < n → ∃ v c, readAt srcMem (src + k) = some v ∧ g v = some c) →
      ∃ mem', copyPixels g srcMem n src dst mem = some mem' ∧ mem'.length = mem.length
        ∧ (∀ k : Int, 0 ≤ k → k < n →
            readAt mem' (dst + k) = (readAt srcMem (src + k)).bind g)
        ∧ (∀ j : Int, j < dst ∨ dst + n ≤ j → readAt mem' j = readAt mem j) := by
  intro n
  induction n with
  | zero =>
    intro src dst mem _ _ _
    exact ⟨mem, rfl, rfl, fun k h0 h1 => by simp at h1; omega, fun _ _ => rfl⟩
  | succ n ih =>
    intro src dst mem hd hlen hsrc
    obtain ⟨v, c, hv, hc⟩ := hsrc 0 (le_refl _) (by push_cast; omega)
    rw [add_zero] at hv
    have hw := writeAt_of_lt mem dst c hd (by push_cast at hlen; omega)
    have hl1 : (mem.set dst.toNat c).length = mem.length := by simp
    obtain ⟨mem', hrun, hlen', hin, hout⟩ := ih (src + 1) (dst + 1) (mem.set dst.toNat c)
      (by omega) (by rw [hl1]; push_cast at hlen; omega)
      (fun k h0 h1 => by
        have := hsrc (k + 1) (by omega) (by push_cast; omega)
        rwa [show src + (k + 1) = src + 1 + k by ring] at this)
    refine ⟨mem', ?_, by rw [hlen', hl1], ?_, ?_⟩
    · simp only [copyPixels, hv, hc, hw, Option.bind_some, Option.some_bind]
      exact hrun
    · intro k h0 h1
      by_cases hk : k = 0
      · subst hk
        rw [add_zero, add_zero, hv, Option.some_bind, hc, hout dst (Or.inl (by omega))]
        exact readAt_writeAt_same hw
      · have := hin (k - 1) (by omega) (by push_cast at h1; omega)
        rwa [show dst + 1 + (k - 1) = dst + k by ring,
          show src + 1 + (k - 1) = src + k by ring] at this
    · intro j hj
      rw [hout j (by push_cast at hj; omega)]
      exact readAt_writeAt_other hw (by push_cast at hj; omega)

theorem modifyPixels_spec (f : Nat → Nat) :
    ∀ (n : Nat) (dst : Int) (mem : List Nat), 0 ≤ dst → dst + n ≤ mem.length →
      ∃ mem', modifyPixels f n dst mem = some mem' ∧ mem'.length = mem.length
        ∧ (∀ k : Int, 0 ≤ k → k < n → readAt mem' (dst + k) = (readAt mem (dst + k)).map f)
        ∧ (∀ j : Int, j < dst ∨ dst + n ≤ j → readAt mem' j = readAt mem j) := by
  intro n
  induction n with
  | zero =>
    intro dst mem _ _
    exact ⟨mem, rfl, rfl, fun k h0 h1 => by simp at h1; omega, fun _ _ => rfl⟩
  | succ n ih =>
    intro dst mem hd hlen
    obtain ⟨p, hp⟩ := readAt_of_lt mem dst hd (by push_cast at hlen; omega)
    have hw := writeAt_of_lt mem dst (f p) hd (by push_cast at hlen; omega)
    have hl1 : (mem.set dst.toNat (f p)).length = mem.length := by simp
    obtain ⟨mem', hrun, hlen', hin, hout⟩ := ih (dst + 1) (mem.set dst.toNat (f p))
      (by omega) (by rw [hl1]; push_cast at hlen; omega)
    refine ⟨mem', ?_, by rw [hlen', hl1], ?_, ?_⟩
    · simp only [modifyPixels, hp, hw, Option.bind_some, Option.some_bind]
      exact hrun
    · intro k h0 h1
      by_cases hk : k = 0
      · subst hk
        rw [add_zero, hp, hout dst (Or.inl (by omega))]
        exact readAt_writeAt_same hw
      · have := hin (k - 1) (by omega) (by push_cast at h1; omega)
        rw [show dst + 1 + (k - 1) = dst + k by ring] at this
        rw [this, readAt_writeAt_other hw (by omega)]
    · intro j hj
      rw [hout j (by push_cast at hj; omega)]
      exact readAt_writeAt_other hw (by push_cast at hj; omega)

theorem forRows_spec (body : Int → List Nat → Option (List Nat)) (w : Nat) (L : Nat) (H : Int)
    (V : Int → Int → Option Nat → Option Nat)
    (hrow : ∀ (y : Int) (mem : List Nat), 0 ≤ y → y < H → mem.length = L → y * w + w ≤ L →
      ∃ mem', body y mem = some mem' ∧ mem'.length = L
        ∧ (∀ x : Int, 0 ≤ x → x < w →
            readAt mem' (y * w + x) = V y x (readAt mem (y * w + x)))
        ∧ (∀ j : Int, j < y * w ∨ y * w + w ≤ j → readAt mem' j = readAt mem j)) :
    ∀ (n : Nat) (y0 : Int) (mem : List Nat), 0 ≤ y0 → y0 + n ≤ H → mem.length = L →
      (y0 + n) * w ≤ L →
      ∃ mem', forRows body n y0 mem = some mem' ∧ mem'.length = L
        ∧ (∀ y x : Int, y0 ≤ y → y < y0 + n → 0 ≤ x → x < w →
            readAt mem' (y * w + x) = V y x (readAt mem (y * w + x)))
        ∧ (∀ j : Int, j < y0 * w ∨ (y0 + n) * w ≤ j → readAt mem' j = readAt mem j) := by
  intro n
  induction n with
  | zero =>
    intro y0 mem _ _ hl _
    exact ⟨mem, rfl, hl, fun y x h0 h1 => by simp at h1; omega, fun _ _ => rfl⟩
  | succ n ih =>
    intro y0 mem hy0 hH hl hL
    have e1 : (y0 + ((n + 1 : Nat) : Int)) * w = y0 * w + w + n * w := by push_cast; ring
    have e2 : (y0 + 1 + (n : Int)) * w = y0 * w + w + n * w := by ring
    have hnw : (0 : Int) ≤ n * w := by positivity
    rw [e1] at hL
    obtain ⟨mem1, hb, hl1, hin1, hout1⟩ := hrow y0 mem hy0 (by push_cast at hH; omega) hl
      (by omega)
    obtain ⟨mem', hrun, hl', hin, hout⟩ := ih (y0 + 1) mem1 (by omega)
      (by push_cast at hH; omega) hl1 (by rw [e2]; exact hL)
    refine ⟨mem', ?_, hl', ?_, ?_⟩
    · simp only [forRows, hb, Option.some_bind]
      exact hrun
    · intro y x hy hy' hx0 hx
      by_cases hyy : y = y0
      · subst hyy
        rw [hout (y * w + x) (Or.inl (by
          have : (y + 1) * w = y * w + w := by ring
          omega))]
        exact hin1 x hx0 hx
      · have hge : (y0 + 1) * w ≤ y * w :=
          mul_le_mul_of_nonneg_right (by omega) (by positivity)
        have e3 : (y0 + 1) * w = y0 * w + w := by ring
        rw [hin y x (by omega) (by push_cast at hy'; omega) hx0 hx,
          hout1 (y * w + x) (Or.inr (by omega))]
    · intro j hj
      have e3 : (y0 + 1) * w = y0 * w + w := by ring
      rw [e1] at hj
      rw [hout j (by rw [e2, e3]; omega), hout1 j (by omega)]

theorem forRows_of_id (body : Int → List Nat → Option (List Nat))
    (hbody : ∀ y mem, body y mem = some mem) :
    ∀ (n : Nat) (y0 : Int) (mem : List Nat), forRows body n y0 mem = some mem := by
  intro n
  induction n with
  | zero => intro y0 mem; rfl
  | succ n ih => intro y0 mem; simp [forRows, hbody, ih]

theorem resize_length (data : List Nat) (n : Nat) : (resize data n).length = n := by
  simp [resize]; omega

/-! ## Palette copy -/

theorem paletteLookup_of_le (palette : PaletteWrapper)
    (h : palette.mNumEntries ≤ palette.mPalette.length) (i : Nat) :
    paletteLookup palette i
      = some (if i < palette.mNumEntries then palette.mPalette.getD i 0 else 0) := by
  unfold paletteLookup
  split
  · rename_i hi
    have : i < palette.mPalette.length := by omega
    simp [List.getD, List.getElem?_eq_getElem this]
  · rfl

theorem paletteLookup_take (palette : PaletteWrapper) (i : Nat) :
    paletteLookup { palette with mPalette := palette.mPalette.take palette.mNumEntries } i
      = paletteLookup palette i := by
  unfold paletteLookup
  split
  · rename_i hi
    simp only [] at hi
    simp [List.getElem?_take, hi]
  · rfl

/-- The row loop of both overloads of `makeTempBitmapAsCopy`, for the per-pixel
conversion `g`. -/
theorem copyRows_spec (g : Nat → Option Nat) (self : Instance) (input : BitmapView)
    (size innerIndent : Vec2i)
    (hsrc : ∀ x y : Int, 0 ≤ x → x < size.x → 0 ≤ y → y < size.y →
      ∃ v c, input.getPixel (innerIndent.x + x) (innerIndent.y + y) = some v ∧ g v = some c) :
    ∃ mem', forRows (fun y mem =>
          copyPixels g input.mem size.x.toNat
            (input.getPixelPointer innerIndent.x (innerIndent.y + y))
            ((makeTempBitmap self size).getLinePointer y) mem)
        size.y.toNat 0 (makeTempBitmap self size).mem = some mem'
      ∧ mem'.length = (size.x * size.y).toNat
      ∧ (∀ x y : Int, 0 ≤ x → x < size.x → 0 ≤ y → y < size.y →
          readAt mem' (y * size.x + x)
            = (input.getPixel (innerIndent.x + x) (innerIndent.y + y)).bind g) := by
  have hlen : (makeTempBitmap self size).mem.length = (size.x * size.y).toNat := by
    simp [makeTempBitmap, resize_length]
  by_cases hpos : 0 < size.x ∧ 0 < size.y
  · obtain ⟨hx, hy⟩ := hpos
    have hwc : ((size.x.toNat : Nat) : Int) = size.x := by omega
    have hhc : ((size.y.toNat : Nat) : Int) = size.y := by omega
    have hL : (((size.x * size.y).toNat : Nat) : Int) = size.y * size.x := by
      have : 0 ≤ size.x * size.y := by positivity
      rw [Int.toNat_of_nonneg this]; ring
    obtain ⟨mem', hrun, hl', hin, _⟩ := forRows_spec
      (fun y mem =>
          copyPixels g input.mem size.x.toNat
            (input.getPixelPointer innerIndent.x (innerIndent.y + y))
            ((makeTempBitmap self size).getLinePointer y) mem)
      size.x.toNat (size.x * size.y).toNat size.y
      (fun y x _ => (input.getPixel (innerIndent.x + x) (innerIndent.y + y)).bind g)
      (by
        intro y mem hy0 hyH hl hfit
        have hy00 : 0 ≤ y * size.x := by positivity
        obtain ⟨mem1, h1, h2, h3, h4⟩ := copyPixels_spec g input.mem size.x.toNat
          (input.getPixelPointer innerIndent.x (innerIndent.y + y))
          ((makeTempBitmap self size).getLinePointer y) mem
          (by simp only [makeTempBitmap, BitmapView.getLinePointer]; omega)
          (by
            simp only [makeTempBitmap, BitmapView.getLinePointer]
            rw [hl]; rw [hwc] at hfit ⊢; omega)
          (by
            intro k hk0 hk
            have := hsrc k y hk0 (by omega) hy0 hyH
            simp only [BitmapView.getPixel, BitmapView.getPixelPointer] at this ⊢
            rwa [show input.mData + innerIndent.x + (innerIndent.y + y) * input.mStride + k
              = input.mData + (innerIndent.x + k) + (innerIndent.y + y) * input.mStride by ring])
        have hlp : (makeTempBitmap self size).getLinePointer y = y * (size.x.toNat : Int) := by
          simp only [makeTempBitmap, BitmapView.getLinePointer, hwc]; ring
        rw [hlp] at h3 h4
        refine ⟨mem1, h1, by rw [h2, hl], ?_, h4⟩
        intro x hx0 hxw
        rw [h3 x hx0 hxw]
        simp only [BitmapView.getPixel, BitmapView.getPixelPointer]
        rw [show input.mData + innerIndent.x + (innerIndent.y + y) * input.mStride + x
          = input.mData + (innerIndent.x + x) + (innerIndent.y + y) * input.mStride by ring])
      size.y.toNat 0 (makeTempBitmap self size).mem (le_refl _) (by omega) hlen
      (by rw [hL, hwc, hhc, zero_add])
    refine ⟨mem', hrun, hl', ?_⟩
    intro x y hx0 hxw hy0 hyh
    have := hin y x hy0 (by omega) hx0 (by omega)
    rwa [hwc] at this
  · refine ⟨(makeTempBitmap self size).mem, ?_, hlen, ?_⟩
    · by_cases hy : 0 < size.y
      · have hx : size.x.toNat = 0 := by omega
        apply forRows_of_id
        intro y mem
        rw [hx]; rfl
      · have hy0 : size.y.toNat = 0 := by omega
        rw [hy0]; rfl
    · intro x y hx0 hxw hy0 hyh
      omega

/-- Claim C5.  For every 8-bit indexed source, palette, copy size and inner indent
such that the copied rectangle can be read from the source and the table holds
at least `mNumEntries` colours, the palette overload of `makeTempBitmapAsCopy`
returns a staged bitmap whose pixel `(x, y)` is `palette[i]` when
`i < mNumEntries` and 0 otherwise, `i` being the source index at
`(innerIndent.x + x, innerIndent.y + y)`.  The table is never read at or beyond
`mNumEntries`: on the table cut down to its first `mNumEntries` entries, where
such a read would be a fault, the copy returns the same bitmap. -/
theorem makeTempBitmapAsCopy_palette (self : Instance) (input : BitmapView)
    (palette : PaletteWrapper) (size innerIndent : Vec2i)
    (hsrc : ∀ x y : Int, 0 ≤ x → x < size.x → 0 ≤ y → y < size.y →
      ∃ i, input.getPixel (innerIndent.x + x) (innerIndent.y + y) = some i)
    (hpal : palette.mNumEntries ≤ palette.mPalette.length) :
    ∃ result : BitmapView,
      makeTempBitmapAsCopyIndexed self input palette size innerIndent = some result
        ∧ result.mData = 0 ∧ result.mSize = size ∧ result.mStride = size.x
        ∧ result.mem.length = (size.x * size.y).toNat
        ∧ (∀ x y : Int, 0 ≤ x → x < size.x → 0 ≤ y → y < size.y →
            ∃ i, input.getPixel (innerIndent.x + x) (innerIndent.y + y) = some i
              ∧ result.getPixel x y
                  = some (if i < palette.mNumEntries then palette.mPalette.getD i 0 else 0))
        ∧ makeTempBitmapAsCopyIndexed self input
            { palette with mPalette := palette.mPalette.take palette.mNumEntries }
            size innerIndent = some result := by
  obtain ⟨mem', hrun, hlen, hpix⟩ := copyRows_spec (paletteLookup palette) self input size
    innerIndent (by
      intro x y hx0 hx hy0 hy
      obtain ⟨i, hi⟩ := hsrc x y hx0 hx hy0 hy
      exact ⟨i, _, hi, paletteLookup_of_le palette hpal i⟩)
  refine ⟨⟨mem', 0, size, size.x⟩, ?_, rfl, rfl, rfl, hlen, ?_, ?_⟩
  · simp only [makeTempBitmapAsCopyIndexed, hrun, Option.map_some']
    rfl
  · intro x y hx0 hx hy0 hy
    obtain ⟨i, hi⟩ := hsrc x y hx0 hx hy0 hy
    refine ⟨i, hi, ?_⟩
    have := hpix x y hx0 hx hy0 hy
    rw [hi, Option.some_bind, paletteLookup_of_le palette hpal i] at this
    simp only [BitmapView.getPixel, BitmapView.getPixelPointer]
    rw [show (0 : Int) + x + y * size.x = y * size.x + x by ring]
    exact this
  · have hfun : paletteLookup
        { palette with mPalette := palette.mPalette.take palette.mNumEntries }
          = paletteLookup palette := funext (paletteLookup_take palette)
    simp only [makeTempBitmapAsCopyIndexed, hfun, hrun, Option.map_some']
    rfl

/-- A 2x2 copy at indent (1,0) out of a 3x2 source through a palette of 3 entries:
the indices 1, 2, 4, 5 become 101, 102, 0, 0. -/
theorem makeTempBitmapAsCopy_palette_witness :
    ∃ result : BitmapView,
      makeTempBitmapAsCopyIndexed ⟨[]⟩ ⟨[0, 1, 2, 3, 4, 5], 0, ⟨3, 2⟩, 3⟩
          ⟨[100, 101, 102, 103], 3⟩ ⟨2, 2⟩ ⟨1, 0⟩ = some result
        ∧ result.mem = [101, 102, 0, 0] := by
  obtain ⟨result, hres, _⟩ := makeTempBitmapAsCopy_palette ⟨[]⟩ ⟨[0, 1, 2, 3, 4, 5], 0, ⟨3, 2⟩, 3⟩
    ⟨[100, 101, 102, 103], 3⟩ ⟨2, 2⟩ ⟨1, 0⟩
    (by
      intro x y hx0 hx hy0 hy
      have hx' : x = 0 ∨ x = 1 := by change x < 2 at hx; omega
      have hy' : y = 0 ∨ y = 1 := by change y < 2 at hy; omega
      rcases hx' with rfl | rfl <;> rcases hy' with rfl | rfl <;> exact ⟨_, rfl⟩)
    (by decide)
  refine ⟨result, hres, ?_⟩
  have h2 : makeTempBitmapAsCopyIndexed ⟨[]⟩ ⟨[0, 1, 2, 3, 4, 5], 0, ⟨3, 2⟩, 3⟩
      ⟨[100, 101, 102, 103], 3⟩ ⟨2, 2⟩ ⟨1, 0⟩ = some ⟨[101, 102, 0, 0], 0, ⟨2, 2⟩, 2⟩ := rfl
  rw [h2] at hres
  simp only [Option.some.injEq] at hres
  rw [← hres]

/-! ## Solid fills and the adjustment pipeline -/

theorem floatVal_window (a : FloatVal) :
    (a.geOne = false ∧ a.gtZero = true) ↔ (a.gtZero = true ∧ a.ltOne = true) := by
  cases a with
  | finite q =>
    simp only [FloatVal.geOne, FloatVal.gtZero, FloatVal.ltOne, decide_eq_false_iff_not,
      decide_eq_true_eq, not_le]
    exact And.comm
  | nan => simp [FloatVal.geOne, FloatVal.gtZero, FloatVal.ltOne]
  | negInf => simp [FloatVal.geOne, FloatVal.gtZero, FloatVal.ltOne]
  | posInf => simp [FloatVal.geOne, FloatVal.gtZero, FloatVal.ltOne]

/-- Claim C6.  For every colour, blend mode and non-empty viewport-clipped output
region, `blitColor` issues the overwrite fill of that region with that colour
exactly when the blend mode is opaque or alpha >= 1.0, the alpha-blended fill
exactly when the blend mode is not opaque and 0 < alpha < 1, and no call in
every remaining case; the output memory is accordingly what `fillRect` leaves,
what `blendRectAlpha` leaves, or unchanged. -/
theorem blitColor_dispatch (ext : External) (output : OutputWrapper) (color : Color)
    (blendMode : BlendMode)
    (hne : (output.mBitmapView.subView output.mViewportRect).isEmpty = false) :
    (blitColor output color blendMode
          = some (FillCall.fillRect (output.mBitmapView.subView output.mViewportRect) color)
        ↔ (blendMode = BlendMode.OPAQUE ∨ color.a.geOne = true))
      ∧ (blitColor output color blendMode
          = some (FillCall.blendRectAlpha (output.mBitmapView.subView output.mViewportRect) color)
        ↔ (blendMode ≠ BlendMode.OPAQUE ∧ color.a.gtZero = true ∧ color.a.ltOne = true))
      ∧ (blitColor output color blendMode = none
        ↔ (¬ (blendMode = BlendMode.OPAQUE ∨ color.a.geOne = true)
            ∧ ¬ (blendMode ≠ BlendMode.OPAQUE ∧ color.a.gtZero = true ∧ color.a.ltOne = true)))
      ∧ ((blendMode = BlendMode.OPAQUE ∨ color.a.geOne = true) →
          blitColorOutput ext output color blendMode
            = ext.fillRect (output.mBitmapView.subView output.mViewportRect) color)
      ∧ ((blendMode ≠ BlendMode.OPAQUE ∧ color.a.gtZero = true ∧ color.a.ltOne = true) →
          blitColorOutput ext output color blendMode
            = ext.blendRectAlpha (output.mBitmapView.subView output.mViewportRect) color)
      ∧ ((¬ (blendMode = BlendMode.OPAQUE ∨ color.a.geOne = true)
            ∧ ¬ (blendMode ≠ BlendMode.OPAQUE ∧ color.a.gtZero = true ∧ color.a.ltOne = true)) →
          blitColorOutput ext output color blendMode = output.mBitmapView.mem) := by
  have hwin := floatVal_window color.a
  by_cases hfill : blendMode = BlendMode.OPAQUE ∨ color.a.geOne = true
  · have hcall : blitColor output color blendMode
        = some (FillCall.fillRect (output.mBitmapView.subView output.mViewportRect) color) := by
      simp only [blitColor, hne, hfill]; simp
    have hnb : ¬ (blendMode ≠ BlendMode.OPAQUE ∧ color.a.gtZero = true ∧ color.a.ltOne = true) := by
      rintro ⟨h1, h2⟩
      rcases hfill with h | h
      · exact h1 h
      · have := hwin.2 h2
        rw [h] at this
        exact absurd this.1 (by decide)
    refine ⟨by simp [hcall, hfill], by simp [hcall, hnb], by simp [hcall, hfill], ?_, ?_, ?_⟩
    · intro _; simp only [blitColorOutput, hcall]
    · intro h; exact absurd h hnb
    · intro h; exact absurd hfill h.1
  · have hge : color.a.geOne = false := by
      cases h : color.a.geOne
      · rfl
      · exact absurd (Or.inr h) hfill
    have hop : blendMode ≠ BlendMode.OPAQUE := fun h => hfill (Or.inl h)
    by_cases hgt : color.a.gtZero = true
    · have hcall : blitColor output color blendMode
          = some (FillCall.blendRectAlpha (output.mBitmapView.subView output.mViewportRect)
              color) := by
        simp only [blitColor, hne, hfill, hgt]; simp
      have hb : blendMode ≠ BlendMode.OPAQUE ∧ color.a.gtZero = true ∧ color.a.ltOne = true :=
        ⟨hop, hwin.1 ⟨hge, hgt⟩⟩
      refine ⟨by simp [hcall, hfill], by simp [hcall, hb], by simp [hcall, hb], ?_, ?_, ?_⟩
      · intro h; exact absurd h hfill
      · intro _; simp only [blitColorOutput, hcall]
      · intro h; exact absurd hb h.2
    · have hcall : blitColor output color blendMode = none := by
        simp only [blitColor, hne, hfill, hgt]; simp
      have hnb : ¬ (blendMode ≠ BlendMode.OPAQUE ∧ color.a.gtZero = true
          ∧ color.a.ltOne = true) := fun h => hgt h.2.1
      refine ⟨by simp [hcall, hfill], by simp [hcall, hnb], by simp [hcall, hfill, hnb], ?_, ?_, ?_⟩
      · intro h; exact absurd h hfill
      · intro h; exact absurd h hnb
      · intro _; simp only [blitColorOutput, hcall]

/-- A solid fill of a 1x1 output in the opaque blend mode with alpha 0.5. -/
theorem blitColor_dispatch_witness :
    blitColor ⟨⟨[0], 0, ⟨1, 1⟩, 1⟩, ⟨0, 0, 1, 1⟩⟩
        ⟨FloatVal.finite 1, FloatVal.finite 0, FloatVal.finite 0, FloatVal.finite (1 / 2)⟩
        BlendMode.OPAQUE
      = some (FillCall.fillRect ⟨[0], 0, ⟨1, 1⟩, 1⟩
          ⟨FloatVal.finite 1, FloatVal.finite 0, FloatVal.finite 0, FloatVal.finite (1 / 2)⟩) :=
  (blitColor_dispatch exampleExternal ⟨⟨[0], 0, ⟨1, 1⟩, 1⟩, ⟨0, 0, 1, 1⟩⟩
    ⟨FloatVal.finite 1, FloatVal.finite 0, FloatVal.finite 0, FloatVal.finite (1 / 2)⟩
    BlendMode.OPAQUE rfl).1.2 (Or.inl rfl)

/-- Claim C7 fails in the opaque blend mode: with alpha 0.0 and a 1x1 output,
`blitColor` issues the overwrite fill. -/
theorem blitColor_overwrite_mode_alpha_zero_fills :
    blitColor ⟨⟨[0xff0000ff], 0, ⟨1, 1⟩, 1⟩, ⟨0, 0, 1, 1⟩⟩
        ⟨FloatVal.finite 1, FloatVal.finite 1, FloatVal.finite 1, FloatVal.finite 0⟩
        BlendMode.OPAQUE
      = some (FillCall.fillRect ⟨[0xff0000ff], 0, ⟨1, 1⟩, 1⟩
          ⟨FloatVal.finite 1, FloatVal.finite 1, FloatVal.finite 1, FloatVal.finite 0⟩) := by
  rfl

/-- Claim C7, amended.  For every solid fill with a colour whose alpha is 0.0, for
every blend mode other than opaque and every output, `blitColor` issues no call
and the output memory is unchanged. -/
theorem blitColor_alpha_zero_noop (ext : External) (output : OutputWrapper) (color : Color)
    (blendMode : BlendMode) (ha : color.a = FloatVal.finite 0)
    (hmode : blendMode ≠ BlendMode.OPAQUE) :
    blitColor output color blendMode = none
      ∧ blitColorOutput ext output color blendMode = output.mBitmapView.mem := by
  have hcall : blitColor output color blendMode = none := by
    simp [blitColor, ha, hmode, FloatVal.geOne, FloatVal.gtZero]
  exact ⟨hcall, by simp only [blitColorOutput, hcall]⟩

/-- A solid fill with alpha 0.0 in the alpha blend mode. -/
theorem blitColor_alpha_zero_noop_witness :
    blitColor ⟨⟨[0xff0000ff], 0, ⟨1, 1⟩, 1⟩, ⟨0, 0, 1, 1⟩⟩
        ⟨FloatVal.finite 1, FloatVal.finite 1, FloatVal.finite 1, FloatVal.finite 0⟩
        BlendMode.ALPHA = none :=
  (blitColor_alpha_zero_noop exampleExternal ⟨⟨[0xff0000ff], 0, ⟨1, 1⟩, 1⟩, ⟨0, 0, 1, 1⟩⟩
    ⟨FloatVal.finite 1, FloatVal.finite 1, FloatVal.finite 1, FloatVal.finite 0⟩
    BlendMode.ALPHA rfl (by decide)).1

/-- Claim C8 fails for a blend mode other than opaque and alpha-blend: with alpha
0.5 and a 1x1 output, `blitColor` issues the alpha-blended fill, while in the
opaque blend mode it issues the overwrite fill. -/
theorem blitColor_other_mode_blends :
    blitColor ⟨⟨[0xff0000ff], 0, ⟨1, 1⟩, 1⟩, ⟨0, 0, 1, 1⟩⟩
        ⟨FloatVal.finite 1, FloatVal.finite 1, FloatVal.finite 1, FloatVal.finite (1 / 2)⟩
        (BlendMode.other 0)
      = some (FillCall.blendRectAlpha ⟨[0xff0000ff], 0, ⟨1, 1⟩, 1⟩
          ⟨FloatVal.finite 1, FloatVal.finite 1, FloatVal.finite 1, FloatVal.finite (1 / 2)⟩)
    ∧ blitColor ⟨⟨[0xff0000ff], 0, ⟨1, 1⟩, 1⟩, ⟨0, 0, 1, 1⟩⟩
        ⟨FloatVal.finite 1, FloatVal.finite 1, FloatVal.finite 1, FloatVal.finite (1 / 2)⟩
        BlendMode.OPAQUE
      = some (FillCall.fillRect ⟨[0xff0000ff], 0, ⟨1, 1⟩, 1⟩
          ⟨FloatVal.finite 1, FloatVal.finite 1, FloatVal.finite 1, FloatVal.finite (1 / 2)⟩)
    ∧ blitColor ⟨⟨[0xff0000ff], 0, ⟨1, 1⟩, 1⟩, ⟨0, 0, 1, 1⟩⟩
        ⟨FloatVal.finite 1, FloatVal.finite 1, FloatVal.finite 1, FloatVal.finite (1 / 2)⟩
        (BlendMode.other 0)
      ≠ blitColor ⟨⟨[0xff0000ff], 0, ⟨1, 1⟩, 1⟩, ⟨0, 0, 1, 1⟩⟩
        ⟨FloatVal.finite 1, FloatVal.finite 1, FloatVal.finite 1, FloatVal.finite (1 / 2)⟩
        BlendMode.OPAQUE := by
  have h1 : blitColor ⟨⟨[0xff0000ff], 0, ⟨1, 1⟩, 1⟩, ⟨0, 0, 1, 1⟩⟩
        ⟨FloatVal.finite 1, FloatVal.finite 1, FloatVal.finite 1, FloatVal.finite (1 / 2)⟩
        (BlendMode.other 0)
      = some (FillCall.blendRectAlpha ⟨[0xff0000ff], 0, ⟨1, 1⟩, 1⟩
          ⟨FloatVal.finite 1, FloatVal.finite 1, FloatVal.finite 1, FloatVal.finite (1 / 2)⟩) := by
    simp [blitColor, BitmapView.subView, BitmapView.isEmpty, FloatVal.geOne, FloatVal.gtZero,
      Recti.getSize, BitmapView.getPixelPointer]
    norm_num
  have h2 : blitColor ⟨⟨[0xff0000ff], 0, ⟨1, 1⟩, 1⟩, ⟨0, 0, 1, 1⟩⟩
        ⟨FloatVal.finite 1, FloatVal.finite 1, FloatVal.finite 1, FloatVal.finite (1 / 2)⟩
        BlendMode.OPAQUE
      = some (FillCall.fillRect ⟨[0xff0000ff], 0, ⟨1, 1⟩, 1⟩
          ⟨FloatVal.finite 1, FloatVal.finite 1, FloatVal.finite 1, FloatVal.finite (1 / 2)⟩) := rfl
  refine ⟨h1, h2, ?_⟩
  rw [h1, h2]
  simp

/-- Claim C8, amended.  For every blend mode other than opaque and alpha-blend, and
for every colour and output, `blitColor` behaves exactly as it does for the
alpha-blend mode; it behaves as for the opaque mode when alpha >= 1.0. -/
theorem blitColor_other_mode_as_alpha (output : OutputWrapper) (color : Color) (n : Nat) :
    blitColor output color (BlendMode.other n) = blitColor output color BlendMode.ALPHA
      ∧ (color.a.geOne = true →
          blitColor output color (BlendMode.other n) = blitColor output color BlendMode.OPAQUE) := by
  constructor
  · simp [blitColor]
  · intro h
    simp [blitColor, h]

/-- A solid fill in a blend mode other than opaque and alpha-blend with alpha 1.0:
the overwrite fill, as in the opaque mode. -/
theorem blitColor_other_mode_as_alpha_witness :
    blitColor ⟨⟨[0xff0000ff], 0, ⟨1, 1⟩, 1⟩, ⟨0, 0, 1, 1⟩⟩
        ⟨FloatVal.finite 1, FloatVal.finite 1, FloatVal.finite 1, FloatVal.finite 1⟩
        (BlendMode.other 0)
      = blitColor ⟨⟨[0xff0000ff], 0, ⟨1, 1⟩, 1⟩, ⟨0, 0, 1, 1⟩⟩
        ⟨FloatVal.finite 1, FloatVal.finite 1, FloatVal.finite 1, FloatVal.finite 1⟩
        BlendMode.OPAQUE :=
  (blitColor_other_mode_as_alpha ⟨⟨[0xff0000ff], 0, ⟨1, 1⟩, 1⟩, ⟨0, 0, 1, 1⟩⟩
    ⟨FloatVal.finite 1, FloatVal.finite 1, FloatVal.finite 1, FloatVal.finite 1⟩ 0).2
    (by simp [FloatVal.geOne])

/-- Claim C9.  For every bitmap and every option set, `processIntermediateBitmap`
equals the composition of the tint stage, then the add stage, then the swap
stage, each applied when its option is configured and the identity otherwise;
with none of tint, add, swap configured the bitmap is returned unchanged. -/
theorem processIntermediateBitmap_eq_pipeline (ext : External) (bitmap : BitmapView)
    (options : Options) :
    processIntermediateBitmap ext bitmap options = adjustmentPipeline ext bitmap options
      ∧ (options.mTintColor = none → options.mAddedColor = none →
          options.mSwapRedBlueChannels = false →
          processIntermediateBitmap ext bitmap options = some bitmap) := by
  obtain ⟨bm, sm, tr, inv, tint, add, swap⟩ := options
  constructor
  · cases tint <;> cases add <;> cases swap <;>
      simp [processIntermediateBitmap, adjustmentPipeline]
    all_goals first
      | rfl
      | (cases tintStage _ bitmap <;> rfl)
  · intro h1 h2 h3
    simp only at h1 h2 h3
    subst h1 h2 h3
    rfl

/-- With no adjustment configured a 2x1 bitmap is returned as it is. -/
theorem processIntermediateBitmap_eq_pipeline_witness :
    processIntermediateBitmap exampleExternal ⟨[0xff0000ff, 0xff00ff00], 0, ⟨2, 1⟩, 2⟩
        plainOptions = some ⟨[0xff0000ff, 0xff00ff00], 0, ⟨2, 1⟩, 2⟩ :=
  (processIntermediateBitmap_eq_pipeline exampleExternal
    ⟨[0xff0000ff, 0xff00ff00], 0, ⟨2, 1⟩, 2⟩ plainOptions).2 rfl rfl rfl

/-! ## Tint stage -/

theorem getByte_setByte (p v j k : Nat) (hj : j < 4) (hk : k < 4) :
    getByte (setByte p j v) k = if k = j then v % 256 else getByte p k := by
  interval_cases j <;> interval_cases k <;> simp [getByte, setByte] <;> omega

theorem setByte_lt (p v j : Nat) (hj : j < 4) (hp : p < 2 ^ 32) : setByte p j v < 2 ^ 32 := by
  interval_cases j <;> simp [getByte, setByte] <;> omega

theorem tintPixel_lt (mult : TintMult) (p : Nat) (hp : p < 2 ^ 32) :
    tintPixel mult p < 2 ^ 32 := by
  unfold tintPixel
  exact setByte_lt _ _ 3 (by omega) (setByte_lt _ _ 2 (by omega)
    (setByte_lt _ _ 1 (by omega) (setByte_lt _ _ 0 (by omega) hp)))

theorem tintPixel_byte (mult : TintMult) (p k : Nat) (hk : k < 4) :
    getByte (tintPixel mult p) k = min ((getByte p k * mult.get k % 2 ^ 32) >>> 8) 255 := by
  have hm : ∀ a : Nat, min a 255 % 256 = min a 255 := fun a => by omega
  unfold tintPixel
  interval_cases k <;>
    simp only [getByte_setByte _ _ _ _ (by omega : (0 : Nat) < 4) (by omega : (0 : Nat) < 4),
      getByte_setByte _ _ _ _ (by omega : (0 : Nat) < 4) (by omega : (1 : Nat) < 4),
      getByte_setByte _ _ _ _ (by omega : (0 : Nat) < 4) (by omega : (2 : Nat) < 4),
      getByte_setByte _ _ _ _ (by omega : (0 : Nat) < 4) (by omega : (3 : Nat) < 4),
      getByte_setByte _ _ _ _ (by omega : (1 : Nat) < 4) (by omega : (0 : Nat) < 4),
      getByte_setByte _ _ _ _ (by omega : (1 : Nat) < 4) (by omega : (1 : Nat) < 4),
      getByte_setByte _ _ _ _ (by omega : (1 : Nat) < 4) (by omega : (2 : Nat) < 4),
      getByte_setByte _ _ _ _ (by omega : (1 : Nat) < 4) (by omega : (3 : Nat) < 4),
      getByte_setByte _ _ _ _ (by omega : (2 : Nat) < 4) (by omega : (0 : Nat) < 4),
      getByte_setByte _ _ _ _ (by omega : (2 : Nat) < 4) (by omega : (1 : Nat) < 4),
      getByte_setByte _ _ _ _ (by omega : (2 : Nat) < 4) (by omega : (2 : Nat) < 4),
      getByte_setByte _ _ _ _ (by omega : (2 : Nat) < 4) (by omega : (3 : Nat) < 4),
      getByte_setByte _ _ _ _ (by omega : (3 : Nat) < 4) (by omega : (0 : Nat) < 4),
      getByte_setByte _ _ _ _ (by omega : (3 : Nat) < 4) (by omega : (1 : Nat) < 4),
      getByte_setByte _ _ _ _ (by omega : (3 : Nat) < 4) (by omega : (2 : Nat) < 4),
      getByte_setByte _ _ _ _ (by omega : (3 : Nat) < 4) (by omega : (3 : Nat) < 4),
      TintMult.get, hm] <;> simp

/-- The row loop of an in-place stage that maps every pixel by `f`, on a staged bitmap. -/
theorem stageRows_spec (f : Nat → Nat) (bitmap : BitmapView) (hst : IsStaged bitmap) :
    ∃ mem', forRows (fun y mem =>
          modifyPixels f bitmap.getSize.x.toNat (bitmap.getLinePointer y) mem)
        bitmap.getSize.y.toNat 0 bitmap.mem = some mem'
      ∧ mem'.length = bitmap.mem.length
      ∧ (∀ x y : Int, 0 ≤ x → x < bitmap.mSize.x → 0 ≤ y → y < bitmap.mSize.y →
          ∃ p, bitmap.getPixel x y = some p
            ∧ (⟨mem', bitmap.mData, bitmap.mSize, bitmap.mStride⟩ : BitmapView).getPixel x y
                = some (f p)) := by
  obtain ⟨hd, hs, hx, hy, hlen⟩ := hst
  have hwc : ((bitmap.mSize.x.toNat : Nat) : Int) = bitmap.mSize.x := by omega
  have hhc : ((bitmap.mSize.y.toNat : Nat) : Int) = bitmap.mSize.y := by omega
  have hL : ((bitmap.mem.length : Nat) : Int) = bitmap.mSize.y * bitmap.mSize.x := by
    have : 0 ≤ bitmap.mSize.x * bitmap.mSize.y := by positivity
    rw [hlen, Int.toNat_of_nonneg this]; ring
  have hlp : ∀ y : Int, bitmap.getLinePointer y = y * (bitmap.mSize.x.toNat : Int) := by
    intro y
    simp only [BitmapView.getLinePointer, hd, hs, hwc]; ring
  obtain ⟨mem', hrun, hl', hin, _⟩ := forRows_spec
    (fun y mem => modifyPixels f bitmap.getSize.x.toNat (bitmap.getLinePointer y) mem)
    bitmap.mSize.x.toNat bitmap.mem.length bitmap.mSize.y
    (fun _ _ old => old.map f)
    (by
      intro y mem hy0 hyH hl hfit
      have hy00 : 0 ≤ y * bitmap.mSize.x := by positivity
      obtain ⟨mem1, h1, h2, h3, h4⟩ := modifyPixels_spec f bitmap.mSize.x.toNat
        (bitmap.getLinePointer y) mem
        (by rw [hlp, hwc]; exact hy00)
        (by rw [hlp, hl]; exact hfit)
      rw [hlp] at h3 h4
      exact ⟨mem1, h1, by rw [h2, hl], h3, h4⟩)
    bitmap.mSize.y.toNat 0 bitmap.mem (le_refl _) (by omega) rfl
    (by rw [hL, hwc, hhc, zero_add])
  refine ⟨mem', hrun, hl', ?_⟩
  intro x y hx0 hxw hy0 hyh
  have hpix := hin y x hy0 (by omega) hx0 (by omega)
  rw [hwc] at hpix
  have haddr : bitmap.getPixelPointer x y = y * bitmap.mSize.x + x := by
    simp only [BitmapView.getPixelPointer, hd, hs]; ring
  have hlt : y * bitmap.mSize.x + x < bitmap.mem.length := by
    have h1 : (y + 1) * bitmap.mSize.x ≤ bitmap.mSize.y * bitmap.mSize.x :=
      mul_le_mul_of_nonneg_right (by omega) hx
    have h2 : (y + 1) * bitmap.mSize.x = y * bitmap.mSize.x + bitmap.mSize.x := by ring
    omega
  have hge : 0 ≤ y * bitmap.mSize.x + x := by positivity
  obtain ⟨p, hp⟩ := readAt_of_lt bitmap.mem _ hge hlt
  refine ⟨p, ?_, ?_⟩
  · simp only [BitmapView.getPixel, haddr, hp]
  · simp only [BitmapView.getPixel]
    rw [show (⟨mem', bitmap.mData, bitmap.mSize, bitmap.mStride⟩ : BitmapView).getPixelPointer x y
      = bitmap.getPixelPointer x y from rfl, haddr, hpix, hp]
    rfl

theorem makeTempBitmap_isStaged (self : Instance) (size : Vec2i) (hx : 0 ≤ size.x)
    (hy : 0 ≤ size.y) : IsStaged (makeTempBitmap self size) :=
  ⟨rfl, rfl, hx, hy, resize_length _ _⟩

theorem readAt_mem {mem : List Nat} {i : Int} {p : Nat} (h : readAt mem i = some p) :
    p ∈ mem := by
  unfold readAt at h
  split at h
  · exact List.getElem?_mem h
  · simp at h

theorem exampleExternal_round_tint_one :
    exampleExternal.roundToIntScaled (FloatVal.finite 1) 0x100 = 256 := by
  show ⌊(1 : ℚ) * ((0x100 : Nat) : ℚ) + 1 / 2⌋ = 256
  rw [Int.floor_eq_iff]
  norm_num

theorem exampleExternal_round_tint_half :
    exampleExternal.roundToIntScaled (FloatVal.finite (1 / 2)) 0x100 = 128 := by
  show ⌊(1 / 2 : ℚ) * ((0x100 : Nat) : ℚ) + 1 / 2⌋ = 128
  rw [Int.floor_eq_iff]
  norm_num

theorem exampleExternal_round_tint_big :
    exampleExternal.roundToIntScaled (FloatVal.finite 131072) 0x100 = 33554432 := by
  show ⌊(131072 : ℚ) * ((0x100 : Nat) : ℚ) + 1 / 2⌋ = 33554432
  rw [Int.floor_eq_iff]
  norm_num

theorem tintMult_example_big :
    tintMult exampleExternal
        ⟨FloatVal.finite 131072, FloatVal.finite 1, FloatVal.finite 1, FloatVal.finite 1⟩
      = ⟨33554432, 256, 256, 256⟩ := by
  simp only [tintMult, exampleExternal_round_tint_big, exampleExternal_round_tint_one]
  rfl

/-- Claim C10 fails when the `uint32` product wraps: for the tint colour
(131072.0, 1, 1, 1), whose multipliers round(channel * 256) are
(33554432, 256, 256, 256), the red byte 128 of the pixel 0xff000080 becomes 0,
since 128 * 33554432 = 2^32, while min((128 * 33554432) >> 8, 255) is 255. -/
theorem tintStage_overflow :
    exampleExternal.roundToIntScaled (FloatVal.finite 131072) 0x100 = 33554432
      ∧ tintMult exampleExternal
            ⟨FloatVal.finite 131072, FloatVal.finite 1, FloatVal.finite 1, FloatVal.finite 1⟩
          = ⟨33554432, 256, 256, 256⟩
      ∧ tintStage (tintMult exampleExternal
            ⟨FloatVal.finite 131072, FloatVal.finite 1, FloatVal.finite 1, FloatVal.finite 1⟩)
          ⟨[0xff000080], 0, ⟨1, 1⟩, 1⟩
        = some ⟨[0xff000000], 0, ⟨1, 1⟩, 1⟩
      ∧ tintStage ⟨33554432, 256, 256, 256⟩ ⟨[0xff000080], 0, ⟨1, 1⟩, 1⟩
        = some ⟨[0xff000000], 0, ⟨1, 1⟩, 1⟩
      ∧ getByte 0xff000080 0 = 128
      ∧ getByte 0xff000000 0 = 0
      ∧ min ((128 * 33554432) >>> 8) 255 = 255 := by
  refine ⟨exampleExternal_round_tint_big, tintMult_example_big, ?_, by rfl, by decide,
    by decide, by decide⟩
  rw [tintMult_example_big]
  rfl

/-- Claim C10, amended.  For every staged bitmap of `uint32` pixels and every tint
colour, the four multipliers are `round(tintChannel * 256) mod 2^32` of the red,
green, blue and alpha channel in this order, which is `round(tintChannel * 256)`
itself when that lies in 0 .. 2^32 - 1; the tint stage succeeds, keeps the
layout of the bitmap, and replaces in every pixel each of the four bytes `c`
(bytes 0, 1, 2, 3, alpha included) by `min(((c * m) mod 2^32) >> 8, 255)` for
the multiplier `m` of the same channel; this is `min((c * m) >> 8, 255)` for
every multiplier `m <= 16843009`. -/
theorem tintStage_bytes (ext : External) (color : Color) (bitmap : BitmapView)
    (hst : IsStaged bitmap) (hpx : ∀ p ∈ bitmap.mem, p < 2 ^ 32) :
    ∃ result : BitmapView,
      tintStage (tintMult ext color) bitmap = some result
        ∧ result.mData = bitmap.mData ∧ result.mSize = bitmap.mSize
        ∧ result.mStride = bitmap.mStride ∧ result.mem.length = bitmap.mem.length
        ∧ (tintMult ext color).get 0 = (ext.roundToIntScaled color.r 0x100 % 2 ^ 32).toNat
        ∧ (tintMult ext color).get 1 = (ext.roundToIntScaled color.g 0x100 % 2 ^ 32).toNat
        ∧ (tintMult ext color).get 2 = (ext.roundToIntScaled color.b 0x100 % 2 ^ 32).toNat
        ∧ (tintMult ext color).get 3 = (ext.roundToIntScaled color.a 0x100 % 2 ^ 32).toNat
        ∧ (0 ≤ ext.roundToIntScaled color.r 0x100 ∧ ext.roundToIntScaled color.r 0x100 < 2 ^ 32 →
            ((tintMult ext color).get 0 : Int) = ext.roundToIntScaled color.r 0x100)
        ∧ (0 ≤ ext.roundToIntScaled color.g 0x100 ∧ ext.roundToIntScaled color.g 0x100 < 2 ^ 32 →
            ((tintMult ext color).get 1 : Int) = ext.roundToIntScaled color.g 0x100)
        ∧ (0 ≤ ext.roundToIntScaled color.b 0x100 ∧ ext.roundToIntScaled color.b 0x100 < 2 ^ 32 →
            ((tintMult ext color).get 2 : Int) = ext.roundToIntScaled color.b 0x100)
        ∧ (0 ≤ ext.roundToIntScaled color.a 0x100 ∧ ext.roundToIntScaled color.a 0x100 < 2 ^ 32 →
            ((tintMult ext color).get 3 : Int) = ext.roundToIntScaled color.a 0x100)
        ∧ (∀ x y : Int, 0 ≤ x → x < bitmap.mSize.x → 0 ≤ y → y < bitmap.mSize.y →
            ∃ p p', bitmap.getPixel x y = some p ∧ result.getPixel x y = some p'
              ∧ p' < 2 ^ 32
              ∧ ∀ k : Nat, k < 4 →
                  getByte p' k
                      = min ((getByte p k * (tintMult ext color).get k % 2 ^ 32) >>> 8) 255
                    ∧ ((tintMult ext color).get k ≤ 16843009 →
                        getByte p' k
                          = min ((getByte p k * (tintMult ext color).get k) >>> 8) 255)) := by
  obtain ⟨mem', hrun, hlen, hpix⟩ := stageRows_spec (tintPixel (tintMult ext color)) bitmap hst
  refine ⟨⟨mem', bitmap.mData, bitmap.mSize, bitmap.mStride⟩, ?_, rfl, rfl, rfl, hlen,
    rfl, rfl, rfl, rfl, ?_, ?_, ?_, ?_, ?_⟩
  · simp only [tintStage, hrun, Option.map_some']
  · intro h
    show (((ext.roundToIntScaled color.r 0x100 % 2 ^ 32).toNat : Nat) : Int) = _
    omega
  · intro h
    show (((ext.roundToIntScaled color.g 0x100 % 2 ^ 32).toNat : Nat) : Int) = _
    omega
  · intro h
    show (((ext.roundToIntScaled color.b 0x100 % 2 ^ 32).toNat : Nat) : Int) = _
    omega
  · intro h
    show (((ext.roundToIntScaled color.a 0x100 % 2 ^ 32).toNat : Nat) : Int) = _
    omega
  · intro x y hx0 hx hy0 hy
    obtain ⟨p, hp, hp'⟩ := hpix x y hx0 hx hy0 hy
    have hplt : p < 2 ^ 32 := hpx p (readAt_mem hp)
    refine ⟨p, tintPixel (tintMult ext color) p, hp, hp', tintPixel_lt _ p hplt, ?_⟩
    intro k hk
    refine ⟨tintPixel_byte _ p k hk, ?_⟩
    intro hm
    rw [tintPixel_byte _ p k hk]
    have hb : getByte p k < 256 := Nat.mod_lt _ (by decide)
    have hprod : getByte p k * (tintMult ext color).get k < 2 ^ 32 := by
      calc getByte p k * (tintMult ext color).get k ≤ 255 * 16843009 :=
            Nat.mul_le_mul (by omega) hm
        _ < 2 ^ 32 := by decide
    rw [Nat.mod_eq_of_lt hprod]

theorem tintMult_example_half :
    tintMult exampleExternal
        ⟨FloatVal.finite (1 / 2), FloatVal.finite 1, FloatVal.finite 1, FloatVal.finite 1⟩
      = ⟨128, 256, 256, 256⟩ := by
  simp only [tintMult, exampleExternal_round_tint_half, exampleExternal_round_tint_one]
  rfl

/-- The tint (0.5, 1, 1, 1), multipliers (128, 256, 256, 256), on the 1x1 staged
bitmap with the pixel 0xff000080: the red byte 128 becomes 64, the others stay. -/
theorem tintStage_bytes_witness :
    ∃ result : BitmapView,
      tintStage (tintMult exampleExternal
          ⟨FloatVal.finite (1 / 2), FloatVal.finite 1, FloatVal.finite 1, FloatVal.finite 1⟩)
        ⟨[0xff000080], 0, ⟨1, 1⟩, 1⟩ = some result
      ∧ result.mem = [0xff000040] := by
  obtain ⟨result, hres, _⟩ := tintStage_bytes exampleExternal
    ⟨FloatVal.finite (1 / 2), FloatVal.finite 1, FloatVal.finite 1, FloatVal.finite 1⟩
    ⟨[0xff000080], 0, ⟨1, 1⟩, 1⟩ (by decide) (by decide)
  refine ⟨result, hres, ?_⟩
  have h2 : tintStage ⟨128, 256, 256, 256⟩ ⟨[0xff000080], 0, ⟨1, 1⟩, 1⟩
      = some ⟨[0xff000040], 0, ⟨1, 1⟩, 1⟩ := rfl
  rw [tintMult_example_half, h2] at hres
  simp only [Option.some.injEq] at hres
  rw [← hres]

/-! ## Add stage -/

theorem addPixel_lt (add : AddAmount) (p : Nat) (hp : p < 2 ^ 32) : addPixel add p < 2 ^ 32 := by
  unfold addPixel
  exact setByte_lt _ _ 2 (by omega) (setByte_lt _ _ 1 (by omega) (setByte_lt _ _ 0 (by omega) hp))

theorem addPixel_byte (add : AddAmount) (p k : Nat) (hk : k < 3) :
    getByte (addPixel add p) k = min (getByte p k + add.get k) 255 := by
  have hm : ∀ a : Nat, min a 255 % 256 = min a 255 := fun a => by omega
  unfold addPixel
  interval_cases k <;>
    simp only [getByte_setByte _ _ _ _ (by omega : (0 : Nat) < 4) (by omega : (0 : Nat) < 4),
      getByte_setByte _ _ _ _ (by omega : (0 : Nat) < 4) (by omega : (1 : Nat) < 4),
      getByte_setByte _ _ _ _ (by omega : (0 : Nat) < 4) (by omega : (2 : Nat) < 4),
      getByte_setByte _ _ _ _ (by omega : (1 : Nat) < 4) (by omega : (0 : Nat) < 4),
      getByte_setByte _ _ _ _ (by omega : (1 : Nat) < 4) (by omega : (1 : Nat) < 4),
      getByte_setByte _ _ _ _ (by omega : (1 : Nat) < 4) (by omega : (2 : Nat) < 4),
      getByte_setByte _ _ _ _ (by omega : (2 : Nat) < 4) (by omega : (0 : Nat) < 4),
      getByte_setByte _ _ _ _ (by omega : (2 : Nat) < 4) (by omega : (1 : Nat) < 4),
      getByte_setByte _ _ _ _ (by omega : (2 : Nat) < 4) (by omega : (2 : Nat) < 4),
      AddAmount.get, hm] <;> simp

theorem addPixel_alpha (add : AddAmount) (p : Nat) :
    getByte (addPixel add p) 3 = getByte p 3 := by
  unfold addPixel
  simp only [getByte_setByte _ _ _ _ (by omega : (0 : Nat) < 4) (by omega : (3 : Nat) < 4),
      getByte_setByte _ _ _ _ (by omega : (1 : Nat) < 4) (by omega : (3 : Nat) < 4),
      getByte_setByte _ _ _ _ (by omega : (2 : Nat) < 4) (by omega : (3 : Nat) < 4)]
  simp


theorem exampleExternal_round_two :
    exampleExternal.roundToIntScaled (FloatVal.finite 2) 0xff = 510 := by
  show ⌊(2 : ℚ) * ((0xff : Nat) : ℚ) + 1 / 2⌋ = 510
  rw [Int.floor_eq_iff]
  norm_num

theorem addAmount_example_two :
    addAmount exampleExternal
        ⟨FloatVal.finite 2, FloatVal.finite 2, FloatVal.finite 2, FloatVal.finite 1⟩
      = ⟨254, 254, 254⟩ := by
  simp only [addAmount, exampleExternal_round_two]
  rfl

/-- Claim C11 fails when the amount does not fit the `uint8` it is stored in: for
the added colour (2.0, 2.0, 2.0) the amounts round(2.0 * 255) = 510 are stored
as 254, and the black pixel (0,0,0,255) becomes (254,254,254,255), while
min(0 + 510, 255) is 255. -/
theorem addStage_amount_wraps :
    exampleExternal.roundToIntScaled (FloatVal.finite 2) 0xff = 510
      ∧ addStage (addAmount exampleExternal
            ⟨FloatVal.finite 2, FloatVal.finite 2, FloatVal.finite 2, FloatVal.finite 1⟩)
          ⟨[0xff000000], 0, ⟨1, 1⟩, 1⟩
        = some ⟨[0xfffefefe], 0, ⟨1, 1⟩, 1⟩
      ∧ getByte 0xff000000 0 = 0
      ∧ getByte 0xfffefefe 0 = 254
      ∧ min (0 + 510) 255 = 255 := by
  refine ⟨exampleExternal_round_two, ?_, by decide, by decide, by decide⟩
  rw [addAmount_example_two]
  rfl

/-- Claim C11, amended.  For every staged bitmap of `uint32` pixels and every added
colour, the stored amounts are `round(addChannel * 255) mod 256`, which is
`round(addChannel * 255)` itself when that lies in 0..255; the add stage
succeeds, keeps the layout of the bitmap, replaces in every pixel the red, green
and blue bytes `c` by `min(c + a, 255)` for the stored amount `a` of the same
channel, and leaves the alpha byte unchanged. -/
theorem addStage_bytes (ext : External) (color : Color) (bitmap : BitmapView)
    (hst : IsStaged bitmap) (hpx : ∀ p ∈ bitmap.mem, p < 2 ^ 32) :
    ∃ result : BitmapView,
      addStage (addAmount ext color) bitmap = some result
        ∧ result.mData = bitmap.mData ∧ result.mSize = bitmap.mSize
        ∧ result.mStride = bitmap.mStride ∧ result.mem.length = bitmap.mem.length
        ∧ (addAmount ext color).get 0 = (ext.roundToIntScaled color.r 0xff % 256).toNat
        ∧ (addAmount ext color).get 1 = (ext.roundToIntScaled color.g 0xff % 256).toNat
        ∧ (addAmount ext color).get 2 = (ext.roundToIntScaled color.b 0xff % 256).toNat
        ∧ (0 ≤ ext.roundToIntScaled color.r 0xff ∧ ext.roundToIntScaled color.r 0xff ≤ 255 →
            ((addAmount ext color).get 0 : Int) = ext.roundToIntScaled color.r 0xff)
        ∧ (0 ≤ ext.roundToIntScaled color.g 0xff ∧ ext.roundToIntScaled color.g 0xff ≤ 255 →
            ((addAmount ext color).get 1 : Int) = ext.roundToIntScaled color.g 0xff)
        ∧ (0 ≤ ext.roundToIntScaled color.b 0xff ∧ ext.roundToIntScaled color.b 0xff ≤ 255 →
            ((addAmount ext color).get 2 : Int) = ext.roundToIntScaled color.b 0xff)
        ∧ (∀ x y : Int, 0 ≤ x → x < bitmap.mSize.x → 0 ≤ y → y < bitmap.mSize.y →
            ∃ p p', bitmap.getPixel x y = some p ∧ result.getPixel x y = some p'
              ∧ p' < 2 ^ 32
              ∧ (∀ k : Nat, k < 3 →
                  getByte p' k = min (getByte p k + (addAmount ext color).get k) 255)
              ∧ getByte p' 3 = getByte p 3) := by
  obtain ⟨mem', hrun, hlen, hpix⟩ := stageRows_spec (addPixel (addAmount ext color)) bitmap hst
  refine ⟨⟨mem', bitmap.mData, bitmap.mSize, bitmap.mStride⟩, ?_, rfl, rfl, rfl, hlen,
    rfl, rfl, rfl, ?_, ?_, ?_, ?_⟩
  · simp only [addStage, hrun, Option.map_some']
  · intro h
    show (((ext.roundToIntScaled color.r 0xff % 2 ^ 8).toNat : Nat) : Int) = _
    omega
  · intro h
    show (((ext.roundToIntScaled color.g 0xff % 2 ^ 8).toNat : Nat) : Int) = _
    omega
  · intro h
    show (((ext.roundToIntScaled color.b 0xff % 2 ^ 8).toNat : Nat) : Int) = _
    omega
  · intro x y hx0 hx hy0 hy
    obtain ⟨p, hp, hp'⟩ := hpix x y hx0 hx hy0 hy
    have hplt : p < 2 ^ 32 := hpx p (readAt_mem hp)
    exact ⟨p, addPixel (addAmount ext color) p, hp, hp', addPixel_lt _ p hplt,
      fun k hk => addPixel_byte _ p k hk, addPixel_alpha _ p⟩

theorem exampleExternal_round_zero :
    exampleExternal.roundToIntScaled (FloatVal.finite 0) 0xff = 0 := by
  show ⌊(0 : ℚ) * ((0xff : Nat) : ℚ) + 1 / 2⌋ = 0
  rw [Int.floor_eq_iff]
  norm_num

theorem exampleExternal_round_one :
    exampleExternal.roundToIntScaled (FloatVal.finite 1) 0xff = 255 := by
  show ⌊(1 : ℚ) * ((0xff : Nat) : ℚ) + 1 / 2⌋ = 255
  rw [Int.floor_eq_iff]
  norm_num

/-- The scenarios of claim C11: with addedColor (0,1,0) the opaque red pixel
(255,0,0,255) becomes (255,255,0,255). -/
theorem addStage_bytes_witness :
    ∃ result : BitmapView,
      addStage (addAmount exampleExternal
          ⟨FloatVal.finite 0, FloatVal.finite 1, FloatVal.finite 0, FloatVal.finite 1⟩)
        ⟨[0xff0000ff], 0, ⟨1, 1⟩, 1⟩ = some result
      ∧ result.mem = [0xff00ffff] := by
  obtain ⟨result, hres, _⟩ := addStage_bytes exampleExternal
    ⟨FloatVal.finite 0, FloatVal.finite 1, FloatVal.finite 0, FloatVal.finite 1⟩
    ⟨[0xff0000ff], 0, ⟨1, 1⟩, 1⟩ (by decide) (by decide)
  refine ⟨result, hres, ?_⟩
  have h1 : addAmount exampleExternal
      ⟨FloatVal.finite 0, FloatVal.finite 1, FloatVal.finite 0, FloatVal.finite 1⟩
        = ⟨0, 255, 0⟩ := by
    simp only [addAmount, exampleExternal_round_zero, exampleExternal_round_one]; rfl
  have h2 : addStage ⟨0, 255, 0⟩ ⟨[0xff0000ff], 0, ⟨1, 1⟩, 1⟩
      = some ⟨[0xff00ffff], 0, ⟨1, 1⟩, 1⟩ := rfl
  rw [h1, h2] at hres
  simp only [Option.some.injEq] at hres
  rw [← hres]

/-! ## Identity tint -/


theorem eq_of_bytes (p q : Nat) (hp : p < 2 ^ 32) (hq : q < 2 ^ 32)
    (h : ∀ k : Nat, k < 4 → getByte p k = getByte q k) : p = q := by
  have h0 := h 0 (by omega)
  have h1 := h 1 (by omega)
  have h2 := h 2 (by omega)
  have h3 := h 3 (by omega)
  simp only [getByte] at h0 h1 h2 h3
  norm_num at h0 h1 h2 h3
  omega

/-- An in-place stage that maps every pixel by `f` maps the whole staged memory. -/
theorem stageRows_map (f : Nat → Nat) (bitmap : BitmapView) (hst : IsStaged bitmap) :
    forRows (fun y mem =>
        modifyPixels f bitmap.getSize.x.toNat (bitmap.getLinePointer y) mem)
      bitmap.getSize.y.toNat 0 bitmap.mem = some (bitmap.mem.map f) := by
  obtain ⟨mem', hrun, hlen, hpix⟩ := stageRows_spec f bitmap hst
  obtain ⟨hd, hs, hx, hy, hL⟩ := hst
  rw [hrun]
  congr 1
  apply List.ext_getElem?
  intro n
  by_cases hn : n < bitmap.mem.length
  · have hwpos : 0 < bitmap.mSize.x := by
      rcases eq_or_lt_of_le hx with h0 | h0
      · have : bitmap.mem.length = 0 := by rw [hL, ← h0]; simp
        omega
      · exact h0
    obtain ⟨w, hw⟩ : ∃ w : Nat, (w : Int) = bitmap.mSize.x := ⟨bitmap.mSize.x.toNat, by omega⟩
    obtain ⟨ht, hht⟩ : ∃ ht : Nat, (ht : Int) = bitmap.mSize.y :=
      ⟨bitmap.mSize.y.toNat, by omega⟩
    have hw0 : 0 < w := by omega
    have hLn : bitmap.mem.length = w * ht := by
      rw [hL, ← hw, ← hht, ← Nat.cast_mul]; exact Int.toNat_natCast _
    obtain ⟨yy, xx, hxy, hxw, hyh⟩ : ∃ yy xx : Nat, w * yy + xx = n ∧ xx < w ∧ yy < ht := by
      refine ⟨n / w, n % w, Nat.div_add_mod n w, Nat.mod_lt _ hw0, ?_⟩
      rw [Nat.div_lt_iff_lt_mul hw0, Nat.mul_comm, ← hLn]; exact hn
    obtain ⟨p, hp, hp'⟩ := hpix (xx : Int) (yy : Int) (by omega) (by omega) (by omega) (by omega)
    have haddr : bitmap.getPixelPointer (xx : Int) (yy : Int) = ((n : Nat) : Int) := by
      simp only [BitmapView.getPixelPointer, hd, hs, ← hw]
      rw [← hxy]; push_cast; ring
    simp only [BitmapView.getPixel] at hp hp'
    rw [show (⟨mem', bitmap.mData, bitmap.mSize, bitmap.mStride⟩ : BitmapView).getPixelPointer
      (xx : Int) (yy : Int) = bitmap.getPixelPointer (xx : Int) (yy : Int) from rfl] at hp'
    rw [haddr] at hp hp'
    simp only [readAt, Int.natCast_nonneg, if_true, Int.toNat_natCast] at hp hp'
    rw [hp', List.getElem?_map, hp]
    rfl
  · have h1 : mem'.length ≤ n := by omega
    have h2 : (bitmap.mem.map f).length ≤ n := by simp; omega
    rw [List.getElem?_eq_none h1, List.getElem?_eq_none h2]

theorem tintPixel_identity (p : Nat) (hp : p < 2 ^ 32) : tintPixel ⟨256, 256, 256, 256⟩ p = p := by
  apply eq_of_bytes _ _ (tintPixel_lt _ p hp) hp
  intro k hk
  rw [tintPixel_byte _ p k hk]
  have hb : getByte p k < 256 := Nat.mod_lt _ (by decide)
  have hm : (⟨256, 256, 256, 256⟩ : TintMult).get k = 256 := by
    interval_cases k <;> rfl
  rw [hm, Nat.shiftRight_eq_div_pow]
  omega

theorem processIntermediateBitmap_tint_only (ext : External) (bitmap : BitmapView)
    (options : Options) (c : Color) (htint : options.mTintColor = some c)
    (hadd : options.mAddedColor = none) (hswap : options.mSwapRedBlueChannels = false) :
    processIntermediateBitmap ext bitmap options = tintStage (tintMult ext c) bitmap := by
  obtain ⟨bm, sm, tr, inv, tint, add, swap⟩ := options
  simp only at htint hadd hswap
  subst htint hadd hswap
  simp [processIntermediateBitmap]

/-- Claim C14.  For every staged bitmap of `uint32` pixels, `processIntermediateBitmap`
with only the tint colour (1,1,1,1) configured returns the bitmap unchanged,
given that `roundToInt(1.0 * 256)` is 256: each multiplier is 256 and
`(v * 256) >> 8 = v` for every byte `v`. -/
theorem tint_white_is_identity (ext : External) (bitmap : BitmapView) (options : Options)
    (hst : IsStaged bitmap) (hpx : ∀ p ∈ bitmap.mem, p < 2 ^ 32)
    (hround : ext.roundToIntScaled (FloatVal.finite 1) 0x100 = 256)
    (htint : options.mTintColor
      = some ⟨FloatVal.finite 1, FloatVal.finite 1, FloatVal.finite 1, FloatVal.finite 1⟩)
    (hadd : options.mAddedColor = none) (hswap : options.mSwapRedBlueChannels = false) :
    processIntermediateBitmap ext bitmap options = some bitmap
      ∧ tintMult ext ⟨FloatVal.finite 1, FloatVal.finite 1, FloatVal.finite 1, FloatVal.finite 1⟩
          = ⟨256, 256, 256, 256⟩
      ∧ (∀ v : Nat, v < 256 → min ((v * 256 % 2 ^ 32) >>> 8) 255 = v) := by
  have hm : tintMult ext
      ⟨FloatVal.finite 1, FloatVal.finite 1, FloatVal.finite 1, FloatVal.finite 1⟩
        = ⟨256, 256, 256, 256⟩ := by
    simp only [tintMult, hround]; rfl
  refine ⟨?_, hm, ?_⟩
  · rw [processIntermediateBitmap_tint_only ext bitmap options _ htint hadd hswap, hm]
    simp only [tintStage, stageRows_map _ bitmap hst, Option.map_some']
    have hmap : bitmap.mem.map (tintPixel ⟨256, 256, 256, 256⟩) = bitmap.mem := by
      conv_rhs => rw [← List.map_id bitmap.mem]
      apply List.map_congr_left
      intro p hp
      exact tintPixel_identity p (hpx p hp)
    rw [hmap]
  · intro v hv
    rw [Nat.shiftRight_eq_div_pow]
    omega

/-- The tint (1,1,1,1) on a 2x1 staged bitmap. -/
theorem tint_white_is_identity_witness :
    processIntermediateBitmap exampleExternal ⟨[0xff0000ff, 0x80402010], 0, ⟨2, 1⟩, 2⟩
        { plainOptions with
          mTintColor := some ⟨FloatVal.finite 1, FloatVal.finite 1, FloatVal.finite 1,
            FloatVal.finite 1⟩ }
      = some ⟨[0xff0000ff, 0x80402010], 0, ⟨2, 1⟩, 2⟩ :=
  (tint_white_is_identity exampleExternal ⟨[0xff0000ff, 0x80402010], 0, ⟨2, 1⟩, 2⟩
    { plainOptions with
      mTintColor := some ⟨FloatVal.finite 1, FloatVal.finite 1, FloatVal.finite 1,
        FloatVal.finite 1⟩ }
    (by decide) (by decide) exampleExternal_round_tint_one rfl rfl rfl).1

/-! ## Inner indent and the staged copy -/

theorem Vec2i.sub_x (a b : Vec2i) : (a - b).x = a.x - b.x := rfl

theorem Vec2i.sub_y (a b : Vec2i) : (a - b).y = a.y - b.y := rfl

theorem Vec2i.add_x (a b : Vec2i) : (a + b).x = a.x + b.x := rfl

theorem Vec2i.add_y (a b : Vec2i) : (a + b).y = a.y + b.y := rfl

theorem innerIndent_bounds (ext : External) (viewportRect : Recti)
    (spriteSize pivot position : Vec2i) (options : Options) (hnt : options.mTransform = none)
    (hne : (applyCropping ext viewportRect (Recti.ofPosSize (-pivot) spriteSize) position
      options).isEmpty = false) :
    0 ≤ (innerIndent (applyCropping ext viewportRect (Recti.ofPosSize (-pivot) spriteSize)
        position options) position pivot).x
      ∧ (innerIndent (applyCropping ext viewportRect (Recti.ofPosSize (-pivot) spriteSize)
          position options) position pivot).x
          + (applyCropping ext viewportRect (Recti.ofPosSize (-pivot) spriteSize) position
              options).width ≤ spriteSize.x
      ∧ 0 ≤ (innerIndent (applyCropping ext viewportRect (Recti.ofPosSize (-pivot) spriteSize)
          position options) position pivot).y
      ∧ (innerIndent (applyCropping ext viewportRect (Recti.ofPosSize (-pivot) spriteSize)
          position options) position pivot).y
          + (applyCropping ext viewportRect (Recti.ofPosSize (-pivot) spriteSize) position
              options).height ≤ spriteSize.y := by
  have hsize : 0 < spriteSize.x ∧ 0 < spriteSize.y := by
    by_contra hs
    have he : (Recti.ofPosSize (-pivot) spriteSize).isEmpty = true := by
      rw [isEmpty_eq_true_iff]
      simp only [Recti.ofPosSize]
      omega
    rw [applyCropping_of_empty _ _ _ _ _ he] at hne
    simp [Recti.zero, Recti.isEmpty] at hne
  rw [applyCropping_no_transform ext viewportRect spriteSize pivot position options hsize hnt]
  simp only [innerIndent, Vec2i.add_x, Vec2i.add_y, Vec2i.sub_x, Vec2i.sub_y, Recti.getPos,
    Recti.getIntersection, Recti.ofPosSize]
  omega

/-- Claim C18.  For every viewport, sprite view, pivot and position for which the
untransformed destination box is non-empty, the inner indent
`box.pos - position + pivot` satisfies `0 <= innerIndent.x`,
`innerIndent.x + box.width <= sprite.width`, `0 <= innerIndent.y` and
`innerIndent.y + box.height <= sprite.height`; so every pixel `(x, y)` of the box
maps to the sprite pixel `innerIndent + (x, y)` inside the sprite bitmap, which
is the pixel the zero-copy view exposes there, and on a sprite whose pixels can
all be read both overloads of `makeTempBitmapAsCopy` run without a fault. -/
theorem innerIndent_inside_sprite (ext : External) (self : Instance) (viewportRect : Recti)
    (view : BitmapView) (pivot position : Vec2i) (palette : PaletteWrapper) (options : Options)
    (hnt : options.mTransform = none)
    (hne : (applyCropping ext viewportRect (Recti.ofPosSize (-pivot) view.getSize) position
      options).isEmpty = false) :
    (0 ≤ (innerIndent (applyCropping ext viewportRect (Recti.ofPosSize (-pivot) view.getSize)
        position options) position pivot).x
      ∧ (innerIndent (applyCropping ext viewportRect (Recti.ofPosSize (-pivot) view.getSize)
          position options) position pivot).x
          + (applyCropping ext viewportRect (Recti.ofPosSize (-pivot) view.getSize) position
              options).width ≤ view.getSize.x
      ∧ 0 ≤ (innerIndent (applyCropping ext viewportRect (Recti.ofPosSize (-pivot) view.getSize)
          position options) position pivot).y
      ∧ (innerIndent (applyCropping ext viewportRect (Recti.ofPosSize (-pivot) view.getSize)
          position options) position pivot).y
          + (applyCropping ext viewportRect (Recti.ofPosSize (-pivot) view.getSize) position
              options).height ≤ view.getSize.y)
    ∧ (∀ x y : Int,
        0 ≤ x → x < (applyCropping ext viewportRect (Recti.ofPosSize (-pivot) view.getSize)
          position options).width →
        0 ≤ y → y < (applyCropping ext viewportRect (Recti.ofPosSize (-pivot) view.getSize)
          position options).height →
          (Recti.ofPosSize ⟨0, 0⟩ view.getSize).Contains
            ((innerIndent (applyCropping ext viewportRect (Recti.ofPosSize (-pivot) view.getSize)
              position options) position pivot).x + x)
            ((innerIndent (applyCropping ext viewportRect (Recti.ofPosSize (-pivot) view.getSize)
              position options) position pivot).y + y)
          ∧ (view.subView (Recti.ofPosSize
                (innerIndent (applyCropping ext viewportRect
                  (Recti.ofPosSize (-pivot) view.getSize) position options) position pivot)
                (applyCropping ext viewportRect (Recti.ofPosSize (-pivot) view.getSize) position
                  options).getSize)).getPixel x y
              = view.getPixel
                  ((innerIndent (applyCropping ext viewportRect
                    (Recti.ofPosSize (-pivot) view.getSize) position options) position pivot).x + x)
                  ((innerIndent (applyCropping ext viewportRect
                    (Recti.ofPosSize (-pivot) view.getSize) position options) position pivot).y + y))
    ∧ (view.Readable →
        (∃ staged, makeTempBitmapAsCopy self view
            (applyCropping ext viewportRect (Recti.ofPosSize (-pivot) view.getSize) position
              options).getSize
            (innerIndent (applyCropping ext viewportRect (Recti.ofPosSize (-pivot) view.getSize)
              position options) position pivot) = some staged)
        ∧ (palette.mNumEntries ≤ palette.mPalette.length →
            ∃ staged, makeTempBitmapAsCopyIndexed self view palette
              (applyCropping ext viewportRect (Recti.ofPosSize (-pivot) view.getSize) position
                options).getSize
              (innerIndent (applyCropping ext viewportRect (Recti.ofPosSize (-pivot) view.getSize)
                position options) position pivot) = some staged)) := by
  have hb := innerIndent_bounds ext viewportRect view.getSize pivot position options hnt hne
  generalize applyCropping ext viewportRect (Recti.ofPosSize (-pivot) view.getSize) position
    options = box at hb hne ⊢
  generalize innerIndent box position pivot = ii at hb ⊢
  have hin : ∀ x y : Int, 0 ≤ x → x < box.width → 0 ≤ y → y < box.height →
      0 ≤ ii.x + x ∧ ii.x + x < view.mSize.x ∧ 0 ≤ ii.y + y ∧ ii.y + y < view.mSize.y := by
    intro x y hx0 hx hy0 hy
    simp only [BitmapView.getSize] at hb
    omega
  refine ⟨hb, ?_, ?_⟩
  · intro x y hx0 hx hy0 hy
    constructor
    · have := hin x y hx0 hx hy0 hy
      simp only [Recti.Contains, Recti.ofPosSize, BitmapView.getSize]
      omega
    · simp only [BitmapView.getPixel, BitmapView.subView, BitmapView.getPixelPointer,
        Recti.ofPosSize]
      congr 1
      ring
  · intro hread
    constructor
    · obtain ⟨mem', hrun, _, _⟩ := copyRows_spec some self view box.getSize ii (by
        intro x y hx0 hx hy0 hy
        obtain ⟨h1, h2, h3, h4⟩ := hin x y hx0 hx hy0 hy
        obtain ⟨p, hp⟩ := hread _ _ h1 h2 h3 h4
        exact ⟨p, p, hp, rfl⟩)
      simp only [makeTempBitmapAsCopy, hrun, Option.map_some']
      exact ⟨_, rfl⟩
    · intro hpal
      obtain ⟨mem', hrun, _, _⟩ := copyRows_spec (paletteLookup palette) self view box.getSize ii
        (by
          intro x y hx0 hx hy0 hy
          obtain ⟨h1, h2, h3, h4⟩ := hin x y hx0 hx hy0 hy
          obtain ⟨p, hp⟩ := hread _ _ h1 h2 h3 h4
          exact ⟨p, _, hp, paletteLookup_of_le palette hpal p⟩)
      simp only [makeTempBitmapAsCopyIndexed, hrun, Option.map_some']
      exact ⟨_, rfl⟩

/-- A 3x3 sprite with pivot (1,1) at position (0,0) in the viewport (0,0,2,2): the
box is (0,0,2,2) and the inner indent is (1,1). -/
theorem innerIndent_inside_sprite_witness :
    innerIndent (applyCropping exampleExternal ⟨0, 0, 2, 2⟩
        (Recti.ofPosSize (-⟨1, 1⟩) (⟨[0, 1, 2, 3, 4, 5, 6, 7, 8], 0, ⟨3, 3⟩, 3⟩ : BitmapView).getSize)
        ⟨0, 0⟩ plainOptions) ⟨0, 0⟩ ⟨1, 1⟩ = ⟨1, 1⟩
      ∧ (0 ≤ (innerIndent (applyCropping exampleExternal ⟨0, 0, 2, 2⟩
          (Recti.ofPosSize (-⟨1, 1⟩)
            (⟨[0, 1, 2, 3, 4, 5, 6, 7, 8], 0, ⟨3, 3⟩, 3⟩ : BitmapView).getSize)
          ⟨0, 0⟩ plainOptions) ⟨0, 0⟩ ⟨1, 1⟩).x
        ∧ (innerIndent (applyCropping exampleExternal ⟨0, 0, 2, 2⟩
            (Recti.ofPosSize (-⟨1, 1⟩)
              (⟨[0, 1, 2, 3, 4, 5, 6, 7, 8], 0, ⟨3, 3⟩, 3⟩ : BitmapView).getSize)
            ⟨0, 0⟩ plainOptions) ⟨0, 0⟩ ⟨1, 1⟩).x
            + (applyCropping exampleExternal ⟨0, 0, 2, 2⟩
                (Recti.ofPosSize (-⟨1, 1⟩)
                  (⟨[0, 1, 2, 3, 4, 5, 6, 7, 8], 0, ⟨3, 3⟩, 3⟩ : BitmapView).getSize)
                ⟨0, 0⟩ plainOptions).width
            ≤ (⟨[0, 1, 2, 3, 4, 5, 6, 7, 8], 0, ⟨3, 3⟩, 3⟩ : BitmapView).getSize.x
        ∧ 0 ≤ (innerIndent (applyCropping exampleExternal ⟨0, 0, 2, 2⟩
            (Recti.ofPosSize (-⟨1, 1⟩)
              (⟨[0, 1, 2, 3, 4, 5, 6, 7, 8], 0, ⟨3, 3⟩, 3⟩ : BitmapView).getSize)
            ⟨0, 0⟩ plainOptions) ⟨0, 0⟩ ⟨1, 1⟩).y
        ∧ (innerIndent (applyCropping exampleExternal ⟨0, 0, 2, 2⟩
            (Recti.ofPosSize (-⟨1, 1⟩)
              (⟨[0, 1, 2, 3, 4, 5, 6, 7, 8], 0, ⟨3, 3⟩, 3⟩ : BitmapView).getSize)
            ⟨0, 0⟩ plainOptions) ⟨0, 0⟩ ⟨1, 1⟩).y
            + (applyCropping exampleExternal ⟨0, 0, 2, 2⟩
                (Recti.ofPosSize (-⟨1, 1⟩)
                  (⟨[0, 1, 2, 3, 4, 5, 6, 7, 8], 0, ⟨3, 3⟩, 3⟩ : BitmapView).getSize)
                ⟨0, 0⟩ plainOptions).height
            ≤ (⟨[0, 1, 2, 3, 4, 5, 6, 7, 8], 0, ⟨3, 3⟩, 3⟩ : BitmapView).getSize.y) :=
  ⟨by decide, (innerIndent_inside_sprite exampleExternal ⟨[]⟩ ⟨0, 0, 2, 2⟩
    ⟨[0, 1, 2, 3, 4, 5, 6, 7, 8], 0, ⟨3, 3⟩, 3⟩ ⟨1, 1⟩ ⟨0, 0⟩ ⟨[], 0⟩ plainOptions rfl
    (by decide)).1⟩

theorem processIntermediateBitmap_none (ext : External) (bitmap : BitmapView)
    (options : Options) (htint : options.mTintColor = none)
    (hadd : options.mAddedColor = none) (hswap : options.mSwapRedBlueChannels = false) :
    processIntermediateBitmap ext bitmap options = some bitmap := by
  obtain ⟨bm, sm, tr, inv, tint, add, swap⟩ := options
  simp only at htint hadd hswap
  subst htint hadd hswap
  rfl

/-- Claim C20.  For every direct-colour sprite whose pixels can all be read, every
position, viewport and option set without transform and without tint, add or
swap, the staged copy `makeTempBitmapAsCopy(source, box.size, innerIndent)` is
built without a fault, `processIntermediateBitmap` returns it unchanged, and at
every `(x, y)` of the destination box it holds the same pixel as the zero-copy
view `Recti(innerIndent, box.size)` of the source, namely the source pixel at
`(innerIndent.x + x, innerIndent.y + y)`. -/
theorem staged_copy_eq_zero_copy_view (ext : External) (self : Instance) (viewportRect : Recti)
    (source : BitmapView) (pivot position : Vec2i) (options : Options)
    (hread : source.Readable)
    (hnt : options.mTransform = none) (htint : options.mTintColor = none)
    (hadd : options.mAddedColor = none) (hswap : options.mSwapRedBlueChannels = false) :
    ∃ staged : BitmapView,
      makeTempBitmapAsCopy self source
          (applyCropping ext viewportRect (Recti.ofPosSize (-pivot) source.getSize) position
            options).getSize
          (innerIndent (applyCropping ext viewportRect (Recti.ofPosSize (-pivot) source.getSize)
            position options) position pivot) = some staged
        ∧ processIntermediateBitmap ext staged options = some staged
        ∧ (∀ x y : Int,
            0 ≤ x → x < (applyCropping ext viewportRect (Recti.ofPosSize (-pivot) source.getSize)
              position options).width →
            0 ≤ y → y < (applyCropping ext viewportRect (Recti.ofPosSize (-pivot) source.getSize)
              position options).height →
              ∃ p, staged.getPixel x y = some p
                ∧ (source.subView (Recti.ofPosSize
                      (innerIndent (applyCropping ext viewportRect
                        (Recti.ofPosSize (-pivot) source.getSize) position options) position pivot)
                      (applyCropping ext viewportRect (Recti.ofPosSize (-pivot) source.getSize)
                        position options).getSize)).getPixel x y = some p
                ∧ source.getPixel
                    ((innerIndent (applyCropping ext viewportRect
                      (Recti.ofPosSize (-pivot) source.getSize) position options) position
                        pivot).x + x)
                    ((innerIndent (applyCropping ext viewportRect
                      (Recti.ofPosSize (-pivot) source.getSize) position options) position
                        pivot).y + y) = some p) := by
  have hb : (applyCropping ext viewportRect (Recti.ofPosSize (-pivot) source.getSize) position
      options).isEmpty = false → _ :=
    innerIndent_bounds ext viewportRect source.getSize pivot position options hnt
  generalize applyCropping ext viewportRect (Recti.ofPosSize (-pivot) source.getSize) position
    options = box at hb ⊢
  generalize innerIndent box position pivot = ii at hb ⊢
  have hin : ∀ x y : Int, 0 ≤ x → x < box.width → 0 ≤ y → y < box.height →
      ∃ p, source.getPixel (ii.x + x) (ii.y + y) = some p := by
    intro x y hx0 hx hy0 hy
    have hb' := hb (by rw [isEmpty_eq_false_iff]; omega)
    simp only [BitmapView.getSize] at hb'
    exact hread _ _ (by omega) (by omega) (by omega) (by omega)
  obtain ⟨mem', hrun, hlen, hpix⟩ := copyRows_spec some self source box.getSize ii (by
    intro x y hx0 hx hy0 hy
    obtain ⟨p, hp⟩ := hin x y hx0 hx hy0 hy
    exact ⟨p, p, hp, rfl⟩)
  refine ⟨⟨mem', 0, box.getSize, box.getSize.x⟩, ?_, ?_, ?_⟩
  · simp only [makeTempBitmapAsCopy, hrun, Option.map_some']
    rfl
  · exact processIntermediateBitmap_none ext _ options htint hadd hswap
  · intro x y hx0 hx hy0 hy
    obtain ⟨p, hp⟩ := hin x y hx0 hx hy0 hy
    refine ⟨p, ?_, ?_, hp⟩
    · have := hpix x y hx0 hx hy0 hy
      rw [hp] at this
      simp only [BitmapView.getPixel, BitmapView.getPixelPointer]
      rw [show (0 : Int) + x + y * box.getSize.x = y * box.getSize.x + x by ring]
      exact this
    · rw [← hp]
      simp only [BitmapView.getPixel, BitmapView.subView, BitmapView.getPixelPointer,
        Recti.ofPosSize]
      congr 1
      ring

/-- A 2x1 sprite at (0,0) seen through the viewport (1,0,1,1): the box is (1,0,1,1),
the inner indent (1,0), and the staged copy holds the second source pixel. -/
theorem staged_copy_eq_zero_copy_view_witness :
    ∃ staged : BitmapView,
      makeTempBitmapAsCopy ⟨[]⟩ ⟨[5, 6], 0, ⟨2, 1⟩, 2⟩ ⟨1, 1⟩ ⟨1, 0⟩ = some staged
        ∧ staged.getPixel 0 0 = some 6 := by
  obtain ⟨staged, hcopy, _, hpix⟩ := staged_copy_eq_zero_copy_view exampleExternal ⟨[]⟩
    ⟨1, 0, 1, 1⟩ ⟨[5, 6], 0, ⟨2, 1⟩, 2⟩ ⟨0, 0⟩ ⟨0, 0⟩ plainOptions
    (by
      intro x y hx0 hx hy0 hy
      have hx' : x = 0 ∨ x = 1 := by change x < 2 at hx; omega
      have hy' : y = 0 := by change y < 1 at hy; omega
      subst hy'
      rcases hx' with rfl | rfl <;> exact ⟨_, rfl⟩)
    rfl rfl rfl rfl
  refine ⟨staged, hcopy, ?_⟩
  obtain ⟨p, hp, _, hsrc⟩ := hpix 0 0 (by decide) (by decide) (by decide) (by decide)
  have h6 : (⟨[5, 6], 0, ⟨2, 1⟩, 2⟩ : BitmapView).getPixel 1 0 = some 6 := rfl
  have hp6 : some p = some 6 := by rw [← hsrc]; exact h6
  rw [hp, hp6]

/-! ## Red/blue exchange of one pixel -/

theorem testBit_mask_red (i : Nat) : Nat.testBit 0x000000ff i = decide (i < 8) := by
  by_cases h : i < 32
  · interval_cases i <;> decide
  · rw [Nat.testBit_lt_two_pow (Nat.lt_of_lt_of_le (by decide : 0x000000ff < 2 ^ 32)
      (Nat.pow_le_pow_right (by decide) (by omega)))]
    simp; omega

theorem testBit_mask_blue (i : Nat) :
    Nat.testBit 0x00ff0000 i = (decide (16 ≤ i) && decide (i < 24)) := by
  by_cases h : i < 32
  · interval_cases i <;> decide
  · rw [Nat.testBit_lt_two_pow (Nat.lt_of_lt_of_le (by decide : 0x00ff0000 < 2 ^ 32)
      (Nat.pow_le_pow_right (by decide) (by omega)))]
    simp; omega

theorem testBit_mask_keep (i : Nat) :
    Nat.testBit 0xff00ff00 i
      = ((decide (8 ≤ i) && decide (i < 16)) || (decide (24 ≤ i) && decide (i < 32))) := by
  by_cases h : i < 32
  · interval_cases i <;> decide
  · rw [Nat.testBit_lt_two_pow (Nat.lt_of_lt_of_le (by decide : 0xff00ff00 < 2 ^ 32)
      (Nat.pow_le_pow_right (by decide) (by omega)))]
    simp; omega

theorem swapRedBlue32_testBit (p i : Nat) :
    Nat.testBit (swapRedBlue32 p) i = (decide (i < 32) && Nat.testBit p (laneSwap i)) := by
  simp only [swapRedBlue32, Nat.testBit_mod_two_pow, Nat.testBit_or, Nat.testBit_and,
    Nat.testBit_shiftRight, Nat.testBit_shiftLeft, testBit_mask_red, testBit_mask_blue,
    testBit_mask_keep, laneSwap]
  by_cases h1 : i < 8
  · have e1 : 16 + i = i + 16 := by omega
    have f1 : i < 32 := by omega
    have f2 : i + 16 < 24 := by omega
    have f3 : ¬ 8 ≤ i := by omega
    have f4 : ¬ 24 ≤ i := by omega
    have f5 : ¬ 16 ≤ i := by omega
    simp [h1, e1, f1, f2, f3, f4, f5]
  · by_cases h2 : i < 16
    · have f1 : i < 32 := by omega
      have f2 : ¬ 16 + i < 24 := by omega
      have f3 : 8 ≤ i := by omega
      have f5 : ¬ 16 ≤ i := by omega
      simp [h1, h2, f1, f2, f3, f5]
    · by_cases h3 : i < 24
      · have f1 : i < 32 := by omega
        have f2 : ¬ 16 + i < 24 := by omega
        have f4 : ¬ 24 ≤ i := by omega
        have f5 : 16 ≤ i := by omega
        have f6 : i - 16 < 8 := by omega
        simp [h1, h2, h3, f1, f2, f4, f5, f6]
      · by_cases h4 : i < 32
        · have f2 : ¬ 16 + i < 24 := by omega
          have f4 : 24 ≤ i := by omega
          have f6 : ¬ i - 16 < 8 := by omega
          simp [h1, h2, h3, h4, f2, f4, f6]
        · simp [h4]

theorem swapRedBlue32_lt (p : Nat) : swapRedBlue32 p < 2 ^ 32 :=
  Nat.mod_lt _ (by decide)

theorem laneSwap_lt (i : Nat) (h : i < 32) : laneSwap i < 32 := by
  unfold laneSwap; split_ifs <;> omega

theorem laneSwap_laneSwap (i : Nat) : laneSwap (laneSwap i) = i := by
  unfold laneSwap; split_ifs <;> omega

theorem swapRedBlue32_involutive (p : Nat) (hp : p < 2 ^ 32) :
    swapRedBlue32 (swapRedBlue32 p) = p := by
  apply Nat.eq_of_testBit_eq
  intro i
  rw [swapRedBlue32_testBit, swapRedBlue32_testBit, laneSwap_laneSwap]
  by_cases h : i < 32
  · simp [h, laneSwap_lt i h]
  · rw [Nat.testBit_lt_two_pow (Nat.lt_of_lt_of_le hp
      (Nat.pow_le_pow_right (by decide) (by omega)))]
    simp [h]
/-! ## Red/blue exchange of two pixels in one 64-bit word -/

theorem testBit_mask_red64 (i : Nat) :
    Nat.testBit 0x000000ff000000ff i
      = (decide (i < 8) || (decide (32 ≤ i) && decide (i < 40))) := by
  by_cases h : i < 64
  · interval_cases i <;> decide
  · rw [Nat.testBit_lt_two_pow (Nat.lt_of_lt_of_le (by decide : 0x000000ff000000ff < 2 ^ 64)
      (Nat.pow_le_pow_right (by decide) (by omega)))]
    simp; omega

theorem testBit_mask_blue64 (i : Nat) :
    Nat.testBit 0x00ff000000ff0000 i
      = ((decide (16 ≤ i) && decide (i < 24)) || (decide (48 ≤ i) && decide (i < 56))) := by
  by_cases h : i < 64
  · interval_cases i <;> decide
  · rw [Nat.testBit_lt_two_pow (Nat.lt_of_lt_of_le (by decide : 0x00ff000000ff0000 < 2 ^ 64)
      (Nat.pow_le_pow_right (by decide) (by omega)))]
    simp; omega

theorem testBit_mask_keep64 (i : Nat) :
    Nat.testBit 0xff00ff00ff00ff00 i
      = ((decide (8 ≤ i) && decide (i < 16)) || (decide (24 ≤ i) && decide (i < 32))
          || (decide (40 ≤ i) && decide (i < 48)) || (decide (56 ≤ i) && decide (i < 64))) := by
  by_cases h : i < 64
  · interval_cases i <;> decide
  · rw [Nat.testBit_lt_two_pow (Nat.lt_of_lt_of_le (by decide : 0xff00ff00ff00ff00 < 2 ^ 64)
      (Nat.pow_le_pow_right (by decide) (by omega)))]
    simp; omega

theorem swapRedBlue64_testBit (c i : Nat) :
    Nat.testBit (swapRedBlue64 c) i = (decide (i < 64) && Nat.testBit c (laneSwap64 i)) := by
  simp only [swapRedBlue64, Nat.testBit_mod_two_pow, Nat.testBit_or, Nat.testBit_and,
    Nat.testBit_shiftRight, Nat.testBit_shiftLeft, testBit_mask_red64, testBit_mask_blue64,
    testBit_mask_keep64, laneSwap64]
  have e1 : 16 + i = i + 16 := by omega
  by_cases h64 : i < 64
  · have hl : i / 8 < 8 := by omega
    by_cases l0 : i / 8 = 0
    ·
      have f0 : i < 64 := by omega
      have f1 : 16 + i < 24 := by omega
      have f2 : ¬ 48 ≤ 16 + i := by omega
      have f3 : 16 + i < 56 := by omega
      have f4 : ¬ 8 ≤ i := by omega
      have f5 : i < 16 := by omega
      have f6 : ¬ 24 ≤ i := by omega
      have f7 : i < 32 := by omega
      have f8 : ¬ 40 ≤ i := by omega
      have f9 : i < 48 := by omega
      have f10 : ¬ 56 ≤ i := by omega
      have f11 : ¬ 16 ≤ i := by omega
      have f12 : i - 16 < 8 := by omega
      have f13 : ¬ 32 ≤ i - 16 := by omega
      have f14 : i - 16 < 40 := by omega
      have f15 : i < 8 := by omega
      have f16 : i < 24 := by omega
      have f17 : i < 40 := by omega
      have f18 : i < 56 := by omega
      have g0 : i + 16 < 24 := by omega
      have g1 : ¬ 32 ≤ i := by omega
      have g2 : i + 16 < 56 := by omega
      have g3 : ¬ 48 ≤ i + 16 := by omega
      simp [e1, g0, g1, g2, g3, f0, f1, f2, f3, f4, f5, f6, f7, f8, f9, f10, f11, f12, f13, f14, f15, f16, f17, f18]
    by_cases l1 : i / 8 = 1
    ·
      have f0 : i < 64 := by omega
      have f1 : ¬ 16 + i < 24 := by omega
      have f2 : ¬ 48 ≤ 16 + i := by omega
      have f3 : 16 + i < 56 := by omega
      have f4 : 8 ≤ i := by omega
      have f5 : i < 16 := by omega
      have f6 : ¬ 24 ≤ i := by omega
      have f7 : i < 32 := by omega
      have f8 : ¬ 40 ≤ i := by omega
      have f9 : i < 48 := by omega
      have f10 : ¬ 56 ≤ i := by omega
      have f11 : ¬ 16 ≤ i := by omega
      have f12 : i - 16 < 8 := by omega
      have f13 : ¬ 32 ≤ i - 16 := by omega
      have f14 : i - 16 < 40 := by omega
      have f15 : ¬ i < 8 := by omega
      have f16 : i < 24 := by omega
      have f17 : i < 40 := by omega
      have f18 : i < 56 := by omega
      have g0 : ¬ i + 16 < 24 := by omega
      have g1 : ¬ 32 ≤ i := by omega
      have g2 : i + 16 < 56 := by omega
      have g3 : ¬ 48 ≤ i + 16 := by omega
      simp [e1, g0, g1, g2, g3, f0, f1, f2, f3, f4, f5, f6, f7, f8, f9, f10, f11, f12, f13, f14, f15, f16, f17, f18]
    by_cases l2 : i / 8 = 2
    ·
      have f0 : i < 64 := by omega
      have f1 : ¬ 16 + i < 24 := by omega
      have f2 : ¬ 48 ≤ 16 + i := by omega
      have f3 : 16 + i < 56 := by omega
      have f4 : 8 ≤ i := by omega
      have f5 : ¬ i < 16 := by omega
      have f6 : ¬ 24 ≤ i := by omega
      have f7 : i < 32 := by omega
      have f8 : ¬ 40 ≤ i := by omega
      have f9 : i < 48 := by omega
      have f10 : ¬ 56 ≤ i := by omega
      have f11 : 16 ≤ i := by omega
      have f12 : i - 16 < 8 := by omega
      have f13 : ¬ 32 ≤ i - 16 := by omega
      have f14 : i - 16 < 40 := by omega
      have f15 : ¬ i < 8 := by omega
      have f16 : i < 24 := by omega
      have f17 : i < 40 := by omega
      have f18 : i < 56 := by omega
      have g0 : ¬ i + 16 < 24 := by omega
      have g1 : ¬ 32 ≤ i := by omega
      have g2 : i + 16 < 56 := by omega
      have g3 : ¬ 48 ≤ i + 16 := by omega
      simp [e1, g0, g1, g2, g3, f0, f1, f2, f3, f4, f5, f6, f7, f8, f9, f10, f11, f12, f13, f14, f15, f16, f17, f18]
    by_cases l3 : i / 8 = 3
    ·
      have f0 : i < 64 := by omega
      have f1 : ¬ 16 + i < 24 := by omega
      have f2 : ¬ 48 ≤ 16 + i := by omega
      have f3 : 16 + i < 56 := by omega
      have f4 : 8 ≤ i := by omega
      have f5 : ¬ i < 16 := by omega
      have f6 : 24 ≤ i := by omega
      have f7 : i < 32 := by omega
      have f8 : ¬ 40 ≤ i := by omega
      have f9 : i < 48 := by omega
      have f10 : ¬ 56 ≤ i := by omega
      have f11 : 16 ≤ i := by omega
      have f12 : ¬ i - 16 < 8 := by omega
      have f13 : ¬ 32 ≤ i - 16 := by omega
      have f14 : i - 16 < 40 := by omega
      have f15 : ¬ i < 8 := by omega
      have f16 : ¬ i < 24 := by omega
      have f17 : i < 40 := by omega
      have f18 : i < 56 := by omega
      have g0 : ¬ i + 16 < 24 := by omega
      have g1 : ¬ 32 ≤ i := by omega
      have g2 : i + 16 < 56 := by omega
      have g3 : ¬ 48 ≤ i + 16 := by omega
      simp [e1, g0, g1, g2, g3, f0, f1, f2, f3, f4, f5, f6, f7, f8, f9, f10, f11, f12, f13, f14, f15, f16, f17, f18]
    by_cases l4 : i / 8 = 4
    ·
      have f0 : i < 64 := by omega
      have f1 : ¬ 16 + i < 24 := by omega
      have f2 : 48 ≤ 16 + i := by omega
      have f3 : 16 + i < 56 := by omega
      have f4 : 8 ≤ i := by omega
      have f5 : ¬ i < 16 := by omega
      have f6 : 24 ≤ i := by omega
      have f7 : ¬ i < 32 := by omega
      have f8 : ¬ 40 ≤ i := by omega
      have f9 : i < 48 := by omega
      have f10 : ¬ 56 ≤ i := by omega
      have f11 : 16 ≤ i := by omega
      have f12 : ¬ i - 16 < 8 := by omega
      have f13 : ¬ 32 ≤ i - 16 := by omega
      have f14 : i - 16 < 40 := by omega
      have f15 : ¬ i < 8 := by omega
      have f16 : ¬ i < 24 := by omega
      have f17 : i < 40 := by omega
      have f18 : i < 56 := by omega
      have g0 : ¬ i + 16 < 24 := by omega
      have g1 : 32 ≤ i := by omega
      have g2 : i + 16 < 56 := by omega
      have g3 : 48 ≤ i + 16 := by omega
      simp [e1, g0, g1, g2, g3, f0, f1, f2, f3, f4, f5, f6, f7, f8, f9, f10, f11, f12, f13, f14, f15, f16, f17, f18]
    by_cases l5 : i / 8 = 5
    ·
      have f0 : i < 64 := by omega
      have f1 : ¬ 16 + i < 24 := by omega
      have f2 : 48 ≤ 16 + i := by omega
      have f3 : ¬ 16 + i < 56 := by omega
      have f4 : 8 ≤ i := by omega
      have f5 : ¬ i < 16 := by omega
      have f6 : 24 ≤ i := by omega
      have f7 : ¬ i < 32 := by omega
      have f8 : 40 ≤ i := by omega
      have f9 : i < 48 := by omega
      have f10 : ¬ 56 ≤ i := by omega
      have f11 : 16 ≤ i := by omega
      have f12 : ¬ i - 16 < 8 := by omega
      have f13 : ¬ 32 ≤ i - 16 := by omega
      have f14 : i - 16 < 40 := by omega
      have f15 : ¬ i < 8 := by omega
      have f16 : ¬ i < 24 := by omega
      have f17 : ¬ i < 40 := by omega
      have f18 : i < 56 := by omega
      have g0 : ¬ i + 16 < 24 := by omega
      have g1 : 32 ≤ i := by omega
      have g2 : ¬ i + 16 < 56 := by omega
      have g3 : 48 ≤ i + 16 := by omega
      simp [e1, g0, g1, g2, g3, f0, f1, f2, f3, f4, f5, f6, f7, f8, f9, f10, f11, f12, f13, f14, f15, f16, f17, f18]
    by_cases l6 : i / 8 = 6
    ·
      have f0 : i < 64 := by omega
      have f1 : ¬ 16 + i < 24 := by omega
      have f2 : 48 ≤ 16 + i := by omega
      have f3 : ¬ 16 + i < 56 := by omega
      have f4 : 8 ≤ i := by omega
      have f5 : ¬ i < 16 := by omega
      have f6 : 24 ≤ i := by omega
      have f7 : ¬ i < 32 := by omega
      have f8 : 40 ≤ i := by omega
      have f9 : ¬ i < 48 := by omega
      have f10 : ¬ 56 ≤ i := by omega
      have f11 : 16 ≤ i := by omega
      have f12 : ¬ i - 16 < 8 := by omega
      have f13 : 32 ≤ i - 16 := by omega
      have f14 : i - 16 < 40 := by omega
      have f15 : ¬ i < 8 := by omega
      have f16 : ¬ i < 24 := by omega
      have f17 : ¬ i < 40 := by omega
      have f18 : i < 56 := by omega
      have g0 : ¬ i + 16 < 24 := by omega
      have g1 : 32 ≤ i := by omega
      have g2 : ¬ i + 16 < 56 := by omega
      have g3 : 48 ≤ i + 16 := by omega
      simp [e1, g0, g1, g2, g3, f0, f1, f2, f3, f4, f5, f6, f7, f8, f9, f10, f11, f12, f13, f14, f15, f16, f17, f18]
    by_cases l7 : i / 8 = 7
    ·
      have f0 : i < 64 := by omega
      have f1 : ¬ 16 + i < 24 := by omega
      have f2 : 48 ≤ 16 + i := by omega
      have f3 : ¬ 16 + i < 56 := by omega
      have f4 : 8 ≤ i := by omega
      have f5 : ¬ i < 16 := by omega
      have f6 : 24 ≤ i := by omega
      have f7 : ¬ i < 32 := by omega
      have f8 : 40 ≤ i := by omega
      have f9 : ¬ i < 48 := by omega
      have f10 : 56 ≤ i := by omega
      have f11 : 16 ≤ i := by omega
      have f12 : ¬ i - 16 < 8 := by omega
      have f13 : 32 ≤ i - 16 := by omega
      have f14 : ¬ i - 16 < 40 := by omega
      have f15 : ¬ i < 8 := by omega
      have f16 : ¬ i < 24 := by omega
      have f17 : ¬ i < 40 := by omega
      have f18 : ¬ i < 56 := by omega
      have g0 : ¬ i + 16 < 24 := by omega
      have g1 : 32 ≤ i := by omega
      have g2 : ¬ i + 16 < 56 := by omega
      have g3 : 48 ≤ i + 16 := by omega
      simp [e1, g0, g1, g2, g3, f0, f1, f2, f3, f4, f5, f6, f7, f8, f9, f10, f11, f12, f13, f14, f15, f16, f17, f18]
    omega
  · simp [h64]

theorem laneSwap64_low (i : Nat) (h : i < 32) : laneSwap64 i = laneSwap i := by
  unfold laneSwap64 laneSwap; split_ifs <;> omega

theorem laneSwap64_high (i : Nat) (h : i < 32) : laneSwap64 (32 + i) = 32 + laneSwap i := by
  unfold laneSwap64 laneSwap; split_ifs <;> omega

/-- The two-pixel exchange of a word is the one-pixel exchange of each half. -/
theorem swapRedBlue64_halves (lo hi : Nat) (hlo : lo < 2 ^ 32) :
    swapRedBlue64 (lo + hi * 2 ^ 32) % 2 ^ 32 = swapRedBlue32 lo
      ∧ swapRedBlue64 (lo + hi * 2 ^ 32) / 2 ^ 32 = swapRedBlue32 hi := by
  have hc : lo + hi * 2 ^ 32 = 2 ^ 32 * hi + lo := by ring
  rw [hc]
  constructor
  · apply Nat.eq_of_testBit_eq
    intro i
    rw [Nat.testBit_mod_two_pow, swapRedBlue64_testBit, swapRedBlue32_testBit,
      Nat.testBit_mul_pow_two_add _ hlo]
    by_cases h : i < 32
    · have h64 : i < 64 := by omega
      have hl := laneSwap_lt i h
      simp [h, h64, laneSwap64_low i h, hl]
    · simp [h]
  · apply Nat.eq_of_testBit_eq
    intro i
    rw [← Nat.shiftRight_eq_div_pow, Nat.testBit_shiftRight, swapRedBlue64_testBit,
      swapRedBlue32_testBit, Nat.testBit_mul_pow_two_add _ hlo]
    by_cases h : i < 32
    · have h64 : 32 + i < 64 := by omega
      have hl : ¬ 32 + laneSwap i < 32 := by omega
      simp [h, h64, laneSwap64_high i h, hl]
    · have h64 : ¬ 32 + i < 64 := by omega
      simp [h, h64]
/-! ## The swap loops -/

theorem forRows_inv_spec (body : Int → List Nat → Option (List Nat)) (w : Nat) (L : Nat) (H : Int)
    (Inv : List Nat → Prop) (V : Int → Int → Option Nat → Option Nat)
    (hrow : ∀ (y : Int) (mem : List Nat), 0 ≤ y → y < H → mem.length = L → Inv mem →
      y * w + w ≤ L →
      ∃ mem', body y mem = some mem' ∧ mem'.length = L ∧ Inv mem'
        ∧ (∀ x : Int, 0 ≤ x → x < w →
            readAt mem' (y * w + x) = V y x (readAt mem (y * w + x)))
        ∧ (∀ j : Int, j < y * w ∨ y * w + w ≤ j → readAt mem' j = readAt mem j)) :
    ∀ (n : Nat) (y0 : Int) (mem : List Nat), 0 ≤ y0 → y0 + n ≤ H → mem.length = L → Inv mem →
      (y0 + n) * w ≤ L →
      ∃ mem', forRows body n y0 mem = some mem' ∧ mem'.length = L ∧ Inv mem'
        ∧ (∀ y x : Int, y0 ≤ y → y < y0 + n → 0 ≤ x → x < w →
            readAt mem' (y * w + x) = V y x (readAt mem (y * w + x)))
        ∧ (∀ j : Int, j < y0 * w ∨ (y0 + n) * w ≤ j → readAt mem' j = readAt mem j) := by
  intro n
  induction n with
  | zero =>
    intro y0 mem _ _ hl hinv _
    exact ⟨mem, rfl, hl, hinv, fun y x h0 h1 => by simp at h1; omega, fun _ _ => rfl⟩
  | succ n ih =>
    intro y0 mem hy0 hH hl hinv hL
    have e1 : (y0 + ((n + 1 : Nat) : Int)) * w = y0 * w + w + n * w := by push_cast; ring
    have e2 : (y0 + 1 + (n : Int)) * w = y0 * w + w + n * w := by ring
    have hnw : (0 : Int) ≤ n * w := by positivity
    rw [e1] at hL
    obtain ⟨mem1, hb, hl1, hinv1, hin1, hout1⟩ := hrow y0 mem hy0 (by push_cast at hH; omega) hl
      hinv (by omega)
    obtain ⟨mem', hrun, hl', hinv', hin, hout⟩ := ih (y0 + 1) mem1 (by omega)
      (by push_cast at hH; omega) hl1 hinv1 (by rw [e2]; exact hL)
    refine ⟨mem', ?_, hl', hinv', ?_, ?_⟩
    · simp only [forRows, hb, Option.some_bind]
      exact hrun
    · intro y x hy hy' hx0 hx
      by_cases hyy : y = y0
      · subst hyy
        rw [hout (y * w + x) (Or.inl (by
          have : (y + 1) * w = y * w + w := by ring
          omega))]
        exact hin1 x hx0 hx
      · have hge : (y0 + 1) * w ≤ y * w :=
          mul_le_mul_of_nonneg_right (by omega) (by positivity)
        have e3 : (y0 + 1) * w = y0 * w + w := by ring
        rw [hin y x (by omega) (by push_cast at hy'; omega) hx0 hx,
          hout1 (y * w + x) (Or.inr (by omega))]
    · intro j hj
      have e3 : (y0 + 1) * w = y0 * w + w := by ring
      rw [e1] at hj
      rw [hout j (by rw [e2, e3]; omega), hout1 j (by omega)]

theorem readAt_eq_getElem {mem : List Nat} {i : Int} (h0 : 0 ≤ i) (h1 : i < mem.length) :
    ∃ p, readAt mem i = some p ∧ p ∈ mem := by
  obtain ⟨p, hp⟩ := readAt_of_lt mem i h0 h1
  exact ⟨p, hp, readAt_mem hp⟩

theorem pixels_set {mem : List Nat} {n v : Nat} (hm : ∀ p ∈ mem, p < 2 ^ 32) (hv : v < 2 ^ 32) :
    ∀ p ∈ mem.set n v, p < 2 ^ 32 := by
  intro p hp
  rcases List.mem_or_eq_of_mem_set hp with h | h
  · exact hm p h
  · rw [h]; exact hv

theorem swapWide_spec :
    ∀ (n : Nat) (dst : Int) (mem : List Nat), 0 ≤ dst → dst + 2 * n ≤ mem.length →
      (∀ p ∈ mem, p < 2 ^ 32) →
      ∃ mem', swapWide n dst mem = some mem' ∧ mem'.length = mem.length
        ∧ (∀ p ∈ mem', p < 2 ^ 32)
        ∧ (∀ k : Int, 0 ≤ k → k < 2 * n →
            readAt mem' (dst + k) = (readAt mem (dst + k)).map swapRedBlue32)
        ∧ (∀ j : Int, j < dst ∨ dst + 2 * n ≤ j → readAt mem' j = readAt mem j) := by
  intro n
  induction n with
  | zero =>
    intro dst mem _ _ hpx
    exact ⟨mem, rfl, rfl, hpx, fun k h0 h1 => by simp at h1; omega, fun _ _ => rfl⟩
  | succ n ih =>
    intro dst mem hd hlen hpx
    push_cast at hlen
    obtain ⟨lo, hlo, hlom⟩ := @readAt_eq_getElem mem dst hd (by omega)
    obtain ⟨hi, hhi, _⟩ := @readAt_eq_getElem mem (dst + 1) (by omega) (by omega)
    obtain ⟨e1, e2⟩ := swapRedBlue64_halves lo hi (hpx lo hlom)
    have hw1 := writeAt_of_lt mem dst (swapRedBlue32 lo) hd (by omega)
    have hl1 : (mem.set dst.toNat (swapRedBlue32 lo)).length = mem.length := by simp
    have hw2 := writeAt_of_lt (mem.set dst.toNat (swapRedBlue32 lo)) (dst + 1)
      (swapRedBlue32 hi) (by omega) (by rw [hl1]; omega)
    have hl2 : ((mem.set dst.toNat (swapRedBlue32 lo)).set (dst + 1).toNat
        (swapRedBlue32 hi)).length = mem.length := by simp
    have hpx2 : ∀ p ∈ (mem.set dst.toNat (swapRedBlue32 lo)).set (dst + 1).toNat
        (swapRedBlue32 hi), p < 2 ^ 32 :=
      pixels_set (pixels_set hpx (swapRedBlue32_lt lo)) (swapRedBlue32_lt hi)
    obtain ⟨mem', hrun, hlen', hpx', hin, hout⟩ := ih (dst + 2)
      ((mem.set dst.toNat (swapRedBlue32 lo)).set (dst + 1).toNat (swapRedBlue32 hi))
      (by omega) (by rw [hl2]; omega) hpx2
    refine ⟨mem', ?_, by rw [hlen', hl2], hpx', ?_, ?_⟩
    · simp only [swapWide, hlo, hhi, Option.some_bind, e1, e2, hw1, hw2]
      exact hrun
    · intro k h0 h1
      push_cast at h1
      by_cases hk0 : k = 0
      · subst hk0
        rw [add_zero, hlo, hout dst (Or.inl (by omega)),
          readAt_writeAt_other hw2 (by omega), readAt_writeAt_same hw1]
        rfl
      · by_cases hk1 : k = 1
        · subst hk1
          rw [hhi, hout (dst + 1) (Or.inl (by omega)), readAt_writeAt_same hw2]
          rfl
        · have := hin (k - 2) (by omega) (by omega)
          rw [show dst + 2 + (k - 2) = dst + k by ring] at this
          rw [this, readAt_writeAt_other hw2 (by omega), readAt_writeAt_other hw1 (by omega)]
    · intro j hj
      push_cast at hj
      rw [hout j (by omega), readAt_writeAt_other hw2 (by omega),
        readAt_writeAt_other hw1 (by omega)]

theorem modifyPixels_pixels (f : Nat → Nat) (hf : ∀ p, f p < 2 ^ 32) :
    ∀ (n : Nat) (dst : Int) (mem mem' : List Nat), (∀ p ∈ mem, p < 2 ^ 32) →
      modifyPixels f n dst mem = some mem' → ∀ p ∈ mem', p < 2 ^ 32 := by
  intro n
  induction n with
  | zero =>
    intro dst mem mem' hpx h
    simp only [modifyPixels, Option.some.injEq] at h
    subst h; exact hpx
  | succ n ih =>
    intro dst mem mem' hpx h
    simp only [modifyPixels, Option.bind_eq_some] at h
    obtain ⟨p, _, mem1, hw, hrest⟩ := h
    refine ih (dst + 1) mem1 mem' ?_ hrest
    unfold writeAt at hw
    split at hw
    · simp only [Option.some.injEq] at hw
      subst hw
      exact pixels_set hpx (hf p)
    · simp at hw

/-- One line of the swap stage, on a target without the two-pixel loop or for an
even number of pixels, exchanges red and blue in every pixel of the line. -/
theorem swapLine_spec (ext : External) (w : Nat) (dst : Int) (mem : List Nat)
    (hok : ext.sizeofPointer ≠ 8 ∨ w % 2 = 0) (hd : 0 ≤ dst) (hlen : dst + w ≤ mem.length)
    (hpx : ∀ p ∈ mem, p < 2 ^ 32) :
    ∃ mem', swapLine ext w dst mem = some mem' ∧ mem'.length = mem.length
      ∧ (∀ p ∈ mem', p < 2 ^ 32)
      ∧ (∀ k : Int, 0 ≤ k → k < w →
          readAt mem' (dst + k) = (readAt mem (dst + k)).map swapRedBlue32)
      ∧ (∀ j : Int, j < dst ∨ dst + w ≤ j → readAt mem' j = readAt mem j) := by
  by_cases h8 : ext.sizeofPointer = 8
  · have hev : w % 2 = 0 := by
      rcases hok with h | h
      · exact absurd h8 h
      · exact h
    have hr : 2 * ((w + 1) / 2) = w := by omega
    obtain ⟨mem', hrun, hl, hp, hin, hout⟩ := swapWide_spec ((w + 1) / 2) dst mem hd
      (by omega) hpx
    refine ⟨mem', ?_, hl, hp, ?_, ?_⟩
    · simp only [swapLine, h8, if_true, hrun, Option.some_bind, hr, Nat.sub_self]
      rfl
    · intro k h0 h1
      exact hin k h0 (by omega)
    · intro j hj
      exact hout j (by omega)
  · obtain ⟨mem', hrun, hl, hin, hout⟩ := modifyPixels_spec swapRedBlue32 w dst mem hd hlen
    refine ⟨mem', ?_, hl, ?_, hin, hout⟩
    · simp only [swapLine, h8, if_false]
      exact hrun
    · exact modifyPixels_pixels swapRedBlue32 swapRedBlue32_lt w dst mem mem' hpx hrun

/-- A memory that agrees, cell by cell over the rows of a staged bitmap, with the
image of the old memory under `f` is the mapped memory. -/
theorem staged_map_of_cells (f : Nat → Nat) (bitmap : BitmapView) (hst : IsStaged bitmap)
    (mem' : List Nat) (hlen : mem'.length = bitmap.mem.length)
    (hcell : ∀ y x : Int, 0 ≤ y → y < bitmap.mSize.y → 0 ≤ x → x < bitmap.mSize.x →
      readAt mem' (y * bitmap.mSize.x + x) = (readAt bitmap.mem (y * bitmap.mSize.x + x)).map f) :
    mem' = bitmap.mem.map f := by
  obtain ⟨hd, hs, hx, hy, hL⟩ := hst
  apply List.ext_getElem?
  intro n
  by_cases hn : n < bitmap.mem.length
  · have hwpos : 0 < bitmap.mSize.x := by
      rcases eq_or_lt_of_le hx with h0 | h0
      · have : bitmap.mem.length = 0 := by rw [hL, ← h0]; simp
        omega
      · exact h0
    obtain ⟨w, hw⟩ : ∃ w : Nat, (w : Int) = bitmap.mSize.x := ⟨bitmap.mSize.x.toNat, by omega⟩
    obtain ⟨ht, hht⟩ : ∃ ht : Nat, (ht : Int) = bitmap.mSize.y :=
      ⟨bitmap.mSize.y.toNat, by omega⟩
    have hw0 : 0 < w := by omega
    have hLn : bitmap.mem.length = w * ht := by
      rw [hL, ← hw, ← hht, ← Nat.cast_mul]; exact Int.toNat_natCast _
    obtain ⟨yy, xx, hxy, hxw, hyh⟩ : ∃ yy xx : Nat, w * yy + xx = n ∧ xx < w ∧ yy < ht := by
      refine ⟨n / w, n % w, Nat.div_add_mod n w, Nat.mod_lt _ hw0, ?_⟩
      rw [Nat.div_lt_iff_lt_mul hw0, Nat.mul_comm, ← hLn]; exact hn
    have hc := hcell (yy : Int) (xx : Int) (by omega) (by omega) (by omega) (by omega)
    have haddr : (yy : Int) * bitmap.mSize.x + (xx : Int) = ((n : Nat) : Int) := by
      rw [← hw, ← hxy]; push_cast; ring
    rw [haddr] at hc
    simp only [readAt, Int.natCast_nonneg, if_true, Int.toNat_natCast] at hc
    rw [hc, List.getElem?_map]
  · have h1 : mem'.length ≤ n := by omega
    have h2 : (bitmap.mem.map f).length ≤ n := by simp; omega
    rw [List.getElem?_eq_none h1, List.getElem?_eq_none h2]

/-- On a target without the two-pixel loop, or for an even width, the swap stage
exchanges red and blue in every pixel of a staged bitmap. -/
theorem swapStage_map (ext : External) (bitmap : BitmapView) (hst : IsStaged bitmap)
    (hpx : ∀ p ∈ bitmap.mem, p < 2 ^ 32)
    (hok : ext.sizeofPointer ≠ 8 ∨ bitmap.mSize.x % 2 = 0) :
    swapStage ext bitmap = some { bitmap with mem := bitmap.mem.map swapRedBlue32 } := by
  have hst' := hst
  obtain ⟨hd, hs, hx, hy, hL⟩ := hst
  have hwc : ((bitmap.mSize.x.toNat : Nat) : Int) = bitmap.mSize.x := by omega
  have hhc : ((bitmap.mSize.y.toNat : Nat) : Int) = bitmap.mSize.y := by omega
  have hLi : ((bitmap.mem.length : Nat) : Int) = bitmap.mSize.y * bitmap.mSize.x := by
    have : 0 ≤ bitmap.mSize.x * bitmap.mSize.y := by positivity
    rw [hL, Int.toNat_of_nonneg this]; ring
  have hlp : ∀ y : Int, bitmap.getLinePointer y = y * (bitmap.mSize.x.toNat : Int) := by
    intro y
    simp only [BitmapView.getLinePointer, hd, hs, hwc]; ring
  have hok' : ext.sizeofPointer ≠ 8 ∨ bitmap.mSize.x.toNat % 2 = 0 := by
    rcases hok with h | h
    · exact Or.inl h
    · exact Or.inr (by omega)
  obtain ⟨mem', hrun, hl', _, hin, _⟩ := forRows_inv_spec
    (fun y mem => swapLine ext bitmap.getSize.x.toNat (bitmap.getLinePointer y) mem)
    bitmap.mSize.x.toNat bitmap.mem.length bitmap.mSize.y
    (fun mem => ∀ p ∈ mem, p < 2 ^ 32)
    (fun _ _ old => old.map swapRedBlue32)
    (by
      intro y mem hy0 hyH hl hinv hfit
      have hy00 : 0 ≤ y * bitmap.mSize.x := by positivity
      obtain ⟨mem1, h1, h2, h3, h4, h5⟩ := swapLine_spec ext bitmap.mSize.x.toNat
        (bitmap.getLinePointer y) mem hok'
        (by rw [hlp, hwc]; exact hy00)
        (by rw [hlp, hl]; exact hfit) hinv
      rw [hlp] at h4 h5
      exact ⟨mem1, h1, by rw [h2, hl], h3, h4, h5⟩)
    bitmap.mSize.y.toNat 0 bitmap.mem (le_refl _) (by omega) rfl hpx
    (by rw [hLi, hwc, hhc, zero_add])
  have hmap : mem' = bitmap.mem.map swapRedBlue32 := by
    apply staged_map_of_cells swapRedBlue32 bitmap hst' mem' hl'
    intro y x hy0 hyh hx0 hxw
    have := hin y x hy0 (by omega) hx0 (by omega)
    rwa [hwc] at this
  simp only [swapStage, BitmapView.getSize] at hrun ⊢
  rw [hrun, hmap]
  rfl

theorem map_swapRedBlue32_twice (mem : List Nat) (hpx : ∀ p ∈ mem, p < 2 ^ 32) :
    (mem.map swapRedBlue32).map swapRedBlue32 = mem := by
  rw [List.map_map]
  conv_rhs => rw [← List.map_id mem]
  apply List.map_congr_left
  intro p hp
  exact swapRedBlue32_involutive p (hpx p hp)

/-- On a target without the two-pixel loop, or for an even width, two runs of the
swap stage restore a staged bitmap. -/
theorem swapStage_twice (ext : External) (bitmap : BitmapView) (hst : IsStaged bitmap)
    (hpx : ∀ p ∈ bitmap.mem, p < 2 ^ 32)
    (hok : ext.sizeofPointer ≠ 8 ∨ bitmap.mSize.x % 2 = 0) :
    (swapStage ext bitmap).bind (swapStage ext) = some bitmap := by
  rw [swapStage_map ext bitmap hst hpx hok, Option.some_bind]
  have hst2 : IsStaged { bitmap with mem := bitmap.mem.map swapRedBlue32 } := by
    obtain ⟨hd, hs, hx, hy, hL⟩ := hst
    exact ⟨hd, hs, hx, hy, by simpa using hL⟩
  have hpx2 : ∀ p ∈ bitmap.mem.map swapRedBlue32, p < 2 ^ 32 := by
    intro p hp
    obtain ⟨q, _, rfl⟩ := List.mem_map.1 hp
    exact swapRedBlue32_lt q
  rw [swapStage_map ext _ hst2 hpx2 hok]
  simp only [map_swapRedBlue32_twice bitmap.mem hpx]

/-! ## Memory accesses of the swap stage -/

theorem readAt_isSome_iff (mem : List Nat) (i : Int) :
    (readAt mem i).isSome = true ↔ 0 ≤ i ∧ i < mem.length := by
  unfold readAt
  split
  · rename_i h
    rw [Option.isSome_iff_exists]
    constructor
    · rintro ⟨a, ha⟩
      have := (List.getElem?_eq_some.1 ha).1
      omega
    · rintro ⟨_, h1⟩
      have : i.toNat < mem.length := by omega
      exact ⟨mem[i.toNat], List.getElem?_eq_getElem this⟩
  · rename_i h
    simp
    intro h0; exact absurd h0 h

theorem readAt_eq_none_of (mem : List Nat) (i : Int) (h : ¬ (0 ≤ i ∧ i < mem.length)) :
    readAt mem i = none := by
  cases hr : readAt mem i with
  | none => rfl
  | some v =>
    have : (readAt mem i).isSome = true := by rw [hr]; rfl
    exact absurd ((readAt_isSome_iff mem i).1 this) h

theorem modifyPixels_length (f : Nat → Nat) :
    ∀ (n : Nat) (dst : Int) (mem mem' : List Nat),
      modifyPixels f n dst mem = some mem' → mem'.length = mem.length := by
  intro n
  induction n with
  | zero =>
    intro dst mem mem' h
    simp only [modifyPixels, Option.some.injEq] at h
    rw [← h]
  | succ n ih =>
    intro dst mem mem' h
    simp only [modifyPixels, Option.bind_eq_some] at h
    obtain ⟨p, _, mem1, hw, hrest⟩ := h
    rw [ih (dst + 1) mem1 mem' hrest, writeAt_length hw]

theorem swapWide_length :
    ∀ (n : Nat) (dst : Int) (mem mem' : List Nat),
      swapWide n dst mem = some mem' → mem'.length = mem.length := by
  intro n
  induction n with
  | zero =>
    intro dst mem mem' h
    simp only [swapWide, Option.some.injEq] at h
    rw [← h]
  | succ n ih =>
    intro dst mem mem' h
    simp only [swapWide, Option.bind_eq_some] at h
    obtain ⟨lo, _, hi, _, mem1, hw1, mem2, hw2, hrest⟩ := h
    rw [ih (dst + 2) mem2 mem' hrest, writeAt_length hw2, writeAt_length hw1]

theorem swapLine_length (ext : External) (w : Nat) (dst : Int) (mem mem' : List Nat)
    (h : swapLine ext w dst mem = some mem') : mem'.length = mem.length := by
  unfold swapLine at h
  split at h
  · simp only [Option.bind_eq_some] at h
    obtain ⟨mem1, h1, h2⟩ := h
    rw [modifyPixels_length _ _ _ _ _ h2, swapWide_length _ _ _ _ h1]
  · exact modifyPixels_length _ _ _ _ _ h

theorem modifyPixels_isSome_iff (f : Nat → Nat) :
    ∀ (n : Nat) (dst : Int) (mem : List Nat),
      (modifyPixels f n dst mem).isSome = true
        ↔ ∀ i ∈ modifyPixelsAccesses n dst, 0 ≤ i ∧ i < mem.length := by
  intro n
  induction n with
  | zero =>
    intro dst mem
    simp [modifyPixels, modifyPixelsAccesses]
  | succ n ih =>
    intro dst mem
    simp only [modifyPixelsAccesses, List.mem_cons, forall_eq_or_imp]
    by_cases hb : 0 ≤ dst ∧ dst < mem.length
    · obtain ⟨p, hp⟩ := readAt_of_lt mem dst hb.1 hb.2
      have hw := writeAt_of_lt mem dst (f p) hb.1 hb.2
      simp only [modifyPixels, hp, hw, Option.some_bind]
      rw [ih (dst + 1) (mem.set dst.toNat (f p))]
      simp [hb]
    · have hr := readAt_eq_none_of mem dst hb
      simp only [modifyPixels, hr, Option.none_bind]
      simp
      intro h0 h1
      exact absurd ⟨h0, h1⟩ hb

theorem swapWide_isSome_iff :
    ∀ (n : Nat) (dst : Int) (mem : List Nat),
      (swapWide n dst mem).isSome = true
        ↔ ∀ i ∈ swapWideAccesses n dst, 0 ≤ i ∧ i < mem.length := by
  intro n
  induction n with
  | zero =>
    intro dst mem
    simp [swapWide, swapWideAccesses]
  | succ n ih =>
    intro dst mem
    simp only [swapWideAccesses, List.mem_cons, forall_eq_or_imp]
    by_cases hb : 0 ≤ dst ∧ dst < mem.length
    · by_cases hb1 : 0 ≤ dst + 1 ∧ dst + 1 < mem.length
      · obtain ⟨lo, hlo⟩ := readAt_of_lt mem dst hb.1 hb.2
        obtain ⟨hi, hhi⟩ := readAt_of_lt mem (dst + 1) hb1.1 hb1.2
        have hw1 := writeAt_of_lt mem dst (swapRedBlue64 (lo + hi * 2 ^ 32) % 2 ^ 32) hb.1 hb.2
        have hl1 : (mem.set dst.toNat (swapRedBlue64 (lo + hi * 2 ^ 32) % 2 ^ 32)).length
            = mem.length := by simp
        have hw2 := writeAt_of_lt (mem.set dst.toNat (swapRedBlue64 (lo + hi * 2 ^ 32) % 2 ^ 32))
          (dst + 1) (swapRedBlue64 (lo + hi * 2 ^ 32) / 2 ^ 32) hb1.1 (by rw [hl1]; exact hb1.2)
        simp only [swapWide, hlo, hhi, hw1, hw2, Option.some_bind]
        rw [ih (dst + 2) _]
        simp [hb, hb1]
      · have hr := readAt_eq_none_of mem (dst + 1) hb1
        obtain ⟨lo, hlo⟩ := readAt_of_lt mem dst hb.1 hb.2
        simp only [swapWide, hlo, hr, Option.some_bind, Option.none_bind]
        simp
        intro _ _ h0 h1
        exact absurd ⟨h0, h1⟩ hb1
    · have hr := readAt_eq_none_of mem dst hb
      simp only [swapWide, hr, Option.none_bind]
      simp
      intro h0 h1
      exact absurd ⟨h0, h1⟩ hb

/-- The swap of a line runs without a fault exactly when every cell of
`swapLineAccesses` lies in the memory. -/
theorem swapLine_isSome_iff (ext : External) (w : Nat) (dst : Int) (mem : List Nat) :
    (swapLine ext w dst mem).isSome = true
      ↔ ∀ i ∈ swapLineAccesses ext w dst, 0 ≤ i ∧ i < mem.length := by
  unfold swapLine swapLineAccesses
  split
  · simp only [List.mem_append]
    cases hw : swapWide ((w + 1) / 2) dst mem with
    | none =>
      have hn : ¬ (swapWide ((w + 1) / 2) dst mem).isSome = true := by rw [hw]; simp
      rw [swapWide_isSome_iff] at hn
      simp only [Option.none_bind, Option.isSome_none]
      constructor
      · intro h; exact absurd h (by simp)
      · intro h; exact absurd (fun i hi => h i (Or.inl hi)) hn
    | some mem1 =>
      have hs : (swapWide ((w + 1) / 2) dst mem).isSome = true := by rw [hw]; rfl
      rw [swapWide_isSome_iff] at hs
      have hl := swapWide_length _ _ _ _ hw
      simp only [Option.some_bind]
      rw [modifyPixels_isSome_iff, hl]
      constructor
      · intro h i hi
        rcases hi with hi | hi
        · exact hs i hi
        · exact h i hi
      · intro h i hi
        exact h i (Or.inr hi)
  · exact modifyPixels_isSome_iff _ _ _ _

theorem mem_modifyPixelsAccesses :
    ∀ (n : Nat) (dst i : Int), i ∈ modifyPixelsAccesses n dst ↔ dst ≤ i ∧ i < dst + n := by
  intro n
  induction n with
  | zero => intro dst i; simp [modifyPixelsAccesses]
  | succ n ih =>
    intro dst i
    simp only [modifyPixelsAccesses, List.mem_cons, ih]
    push_cast
    omega

theorem mem_swapWideAccesses :
    ∀ (n : Nat) (dst i : Int), i ∈ swapWideAccesses n dst ↔ dst ≤ i ∧ i < dst + 2 * n := by
  intro n
  induction n with
  | zero => intro dst i; simp [swapWideAccesses]
  | succ n ih =>
    intro dst i
    simp only [swapWideAccesses, List.mem_cons, ih]
    push_cast
    omega

/-- The cells a line of the swap stage touches: the `w` cells of the line, and on
a 64-bit target with odd `w` also the cell after the line. -/
theorem mem_swapLineAccesses (ext : External) (w : Nat) (dst i : Int) :
    i ∈ swapLineAccesses ext w dst
      ↔ dst ≤ i ∧ i < dst + (if ext.sizeofPointer = 8 then 2 * ((w + 1) / 2) else w : Nat) := by
  unfold swapLineAccesses
  split
  · simp only [List.mem_append, mem_swapWideAccesses, mem_modifyPixelsAccesses]
    push_cast
    omega
  · exact mem_modifyPixelsAccesses _ _ _

theorem forRows_none (body : Int → List Nat → Option (List Nat)) (L : Nat)
    (hlen : ∀ y mem mem', mem.length = L → body y mem = some mem' → mem'.length = L) :
    ∀ (n : Nat) (y0 : Int) (mem : List Nat), mem.length = L →
      (∀ m : List Nat, m.length = L → body (y0 + n) m = none) →
      forRows body (n + 1) y0 mem = none := by
  intro n
  induction n with
  | zero =>
    intro y0 mem hl hlast
    have := hlast mem hl
    simp only [Nat.cast_zero, add_zero] at this
    simp [forRows, this]
  | succ n ih =>
    intro y0 mem hl hlast
    cases hb : body y0 mem with
    | none => simp [forRows, hb]
    | some mem1 =>
      have h1 := hlen y0 mem mem1 hl hb
      have := ih (y0 + 1) mem1 h1 (by
        intro m hm
        have := hlast m hm
        rwa [show y0 + ((n + 1 : Nat) : Int) = y0 + 1 + (n : Int) by push_cast; ring] at this)
      rw [forRows, hb, Option.some_bind]
      exact this

/-- On a 64-bit target the swap stage faults on every staged bitmap of odd width
and at least one row: the last line touches the cell one past the buffer. -/
theorem swapStage_odd_width_faults (ext : External) (bitmap : BitmapView)
    (hst : IsStaged bitmap) (h8 : ext.sizeofPointer = 8) (hodd : bitmap.mSize.x % 2 = 1)
    (hrows : 0 < bitmap.mSize.y) : swapStage ext bitmap = none := by
  obtain ⟨hd, hs, hx, hy, hL⟩ := hst
  obtain ⟨w, hw⟩ : ∃ w : Nat, (w : Int) = bitmap.mSize.x := ⟨bitmap.mSize.x.toNat, by omega⟩
  obtain ⟨n, hn⟩ : ∃ n : Nat, ((n + 1 : Nat) : Int) = bitmap.mSize.y :=
    ⟨bitmap.mSize.y.toNat - 1, by omega⟩
  have hwt : bitmap.mSize.x.toNat = w := by omega
  have hht : bitmap.mSize.y.toNat = n + 1 := by omega
  have hLn : bitmap.mem.length = w * (n + 1) := by
    rw [hL, ← hw, ← hn, ← Nat.cast_mul]; exact Int.toNat_natCast _
  have hrun : forRows (fun y mem => swapLine ext w (bitmap.getLinePointer y) mem)
      (n + 1) 0 bitmap.mem = none := by
    apply forRows_none _ bitmap.mem.length
    · intro y mem mem' hl hb
      rw [swapLine_length ext w _ mem mem' hb, hl]
    · rfl
    · intro m hm
      cases hsl : swapLine ext w (bitmap.getLinePointer (0 + (n : Int))) m with
      | none => rfl
      | some m1 =>
        exfalso
        have hsome : (swapLine ext w (bitmap.getLinePointer (0 + (n : Int))) m).isSome = true := by
          rw [hsl]; rfl
        rw [swapLine_isSome_iff] at hsome
        have hacc : bitmap.getLinePointer (0 + (n : Int)) + w
            ∈ swapLineAccesses ext w (bitmap.getLinePointer (0 + (n : Int))) := by
          rw [mem_swapLineAccesses]
          simp only [h8, if_true]
          push_cast
          omega
        have := hsome _ hacc
        rw [hm, hLn] at this
        simp only [BitmapView.getLinePointer, hd, hs, ← hw] at this
        push_cast at this
        have e : (0 : Int) + (0 + (n : Int)) * w + w = w * (n + 1) := by ring
        rw [e] at this
        omega
  simp only [swapStage, BitmapView.getSize, hwt, hht, hrun, Option.map_none']

/-! ## The swap stage on a 64-bit target with an odd width -/

/-- Claim C12 fails on a 64-bit target for an odd width.  On the staged 3x1 bitmap
the two-pixel loop reaches the cell one past the buffer and the stage faults.
With one spare cell after a 3x2 bitmap the stage runs through, but the first
pixel of the second row (cell 3) is exchanged twice and keeps its value 4
instead of becoming 0x40000, and the spare cell 6 is overwritten. -/
theorem swapStage_odd_width_wide :
    swapStage exampleExternal ⟨[0x11223344, 0x55667788, 0x99aabbcc], 0, ⟨3, 1⟩, 3⟩ = none
      ∧ swapStage exampleExternal ⟨[1, 2, 3, 4, 5, 6, 7], 0, ⟨3, 2⟩, 3⟩
          = some ⟨[0x10000, 0x20000, 0x30000, 4, 0x50000, 0x60000, 0x70000], 0, ⟨3, 2⟩, 3⟩
      ∧ swapRedBlue32 4 = 0x40000 := by
  refine ⟨by rfl, by rfl, by rfl⟩

/-- Claim C13 fails on a 64-bit target for an odd width: on the staged 1x1 bitmap
the first run of the swap stage already faults, so two runs do not give the
bitmap back.  The defect is the access outside the buffer: with one spare cell
after the pixel, two runs give the pixel (and the spare cell) back. -/
theorem swapStage_twice_odd_width_wide :
    (swapStage exampleExternal ⟨[0xff0000ff], 0, ⟨1, 1⟩, 1⟩).bind (swapStage exampleExternal)
        = none
      ∧ (swapStage exampleExternal ⟨[0xff0000ff], 0, ⟨1, 1⟩, 1⟩).bind (swapStage exampleExternal)
        ≠ some ⟨[0xff0000ff], 0, ⟨1, 1⟩, 1⟩
      ∧ (swapStage exampleExternal ⟨[0xff0000ff, 7], 0, ⟨1, 1⟩, 1⟩).bind
          (swapStage exampleExternal) = some ⟨[0xff0000ff, 7], 0, ⟨1, 1⟩, 1⟩ := by
  have h : (swapStage exampleExternal ⟨[0xff0000ff], 0, ⟨1, 1⟩, 1⟩).bind
      (swapStage exampleExternal) = none := by rfl
  refine ⟨h, ?_, by rfl⟩
  rw [h]
  simp

/-- Claim C17 fails for an odd width: on the staged 3x2 bitmap the swap stage
through the two-pixel loop (64-bit target) faults, while the swap stage through
the single-pixel loop alone (32-bit target) exchanges red and blue in all six
pixels. -/
theorem swapStage_wide_differs_from_single :
    swapStage exampleExternal ⟨[1, 2, 3, 4, 5, 6], 0, ⟨3, 2⟩, 3⟩ = none
      ∧ swapStage exampleExternal32 ⟨[1, 2, 3, 4, 5, 6], 0, ⟨3, 2⟩, 3⟩
          = some ⟨[0x10000, 0x20000, 0x30000, 0x40000, 0x50000, 0x60000], 0, ⟨3, 2⟩, 3⟩ := by
  refine ⟨by rfl, by rfl⟩

/-- Claim C19 fails on a 64-bit target for an odd width: for the staged 3x2 bitmap
(6 cells) the swap of row 0 touches the cells 0..3, of which 3 belongs to row 1,
and the swap of row 1 touches the cells 3..6, of which 6 is one past the buffer;
the stage faults. -/
theorem swapLine_touches_cell_after_line :
    swapLineAccesses exampleExternal 3
        ((⟨[1, 2, 3, 4, 5, 6], 0, ⟨3, 2⟩, 3⟩ : BitmapView).getLinePointer 0) = [0, 1, 2, 3]
      ∧ swapLineAccesses exampleExternal 3
        ((⟨[1, 2, 3, 4, 5, 6], 0, ⟨3, 2⟩, 3⟩ : BitmapView).getLinePointer 1) = [3, 4, 5, 6]
      ∧ (⟨[1, 2, 3, 4, 5, 6], 0, ⟨3, 2⟩, 3⟩ : BitmapView).mem.length = 6
      ∧ readAt [1, 2, 3, 4, 5, 6] 6 = none
      ∧ swapStage exampleExternal ⟨[7, 8, 9, 10, 11, 12], 0, ⟨3, 2⟩, 3⟩ = none := by
  refine ⟨by rfl, by rfl, by rfl, by rfl, by rfl⟩

/-! ## Binary32 arithmetic: values that are not rounded -/

theorem roundNearestEven_intCast (z : Int) : roundNearestEven (z : ℚ) = z := by
  unfold roundNearestEven
  simp

theorem ulpExponent_lower (q : ℚ) : -149 ≤ ulpExponent q := le_max_right _ _

theorem ulpExponent_le_of_lt (q : ℚ) (k : Int) (hk : 1 ≤ k) (h : |q| < 2 ^ k) :
    ulpExponent q ≤ k - 24 := by
  unfold ulpExponent
  apply max_le
  · rcases eq_or_lt_of_le (abs_nonneg q) with h0 | h0
    · rw [← h0, Int.log_zero_right]
      omega
    · have h2 : |q| < ((2 : Nat) : ℚ) ^ k := by exact_mod_cast h
      have h3 : Int.log 2 |q| < k := (Int.lt_zpow_iff_log_lt (by norm_num) h0).1 h2
      omega
  · omega

/-- A multiple of the spacing of the binary32 numbers around it, below `2 ^ 128`
in magnitude, is a binary32 number: it is not rounded. -/
theorem toFloat32_of_multiple (q : ℚ) (z : Int) (hz : q / 2 ^ ulpExponent q = z)
    (hq : |q| < 2 ^ 128) : toFloat32 q = FloatVal.finite q := by
  have hr : ((roundNearestEven (q / 2 ^ ulpExponent q) : Int) : ℚ) * 2 ^ ulpExponent q = q := by
    rw [hz, roundNearestEven_intCast, ← hz]
    have : (2 : ℚ) ^ ulpExponent q ≠ 0 := zpow_ne_zero _ (by norm_num)
    field_simp
  unfold toFloat32
  simp only [hr]
  have h1 := (abs_lt.1 hq).1
  have h2 := (abs_lt.1 hq).2
  rw [if_neg (by linarith), if_neg (by linarith)]

/-- Halves of integers below `2 ^ 23` in magnitude are binary32 numbers. -/
theorem toFloat32_half_int (n : Int) (hn : |n| < 2 ^ 24) :
    toFloat32 ((n : ℚ) / 2) = FloatVal.finite ((n : ℚ) / 2) := by
  have habs : |(n : ℚ) / 2| < 2 ^ (23 : Int) := by
    rw [abs_div, abs_of_pos (by norm_num : (0 : ℚ) < 2)]
    have : |(n : ℚ)| < 2 ^ 24 := by exact_mod_cast hn
    norm_num at this ⊢
    linarith
  have he := ulpExponent_le_of_lt _ 23 (by norm_num) habs
  have hl := ulpExponent_lower ((n : ℚ) / 2)
  obtain ⟨k, hk⟩ : ∃ k : Nat, ulpExponent ((n : ℚ) / 2) = -((k : Int) + 1) :=
    ⟨(-ulpExponent ((n : ℚ) / 2) - 1).toNat, by omega⟩
  apply toFloat32_of_multiple _ (n * 2 ^ k)
  · rw [hk, zpow_neg, zpow_add₀ (by norm_num : (2 : ℚ) ≠ 0), zpow_natCast]
    push_cast
    field_simp
    ring
  · calc |(n : ℚ) / 2| < 2 ^ (23 : Int) := habs
      _ ≤ 2 ^ 128 := by norm_num

theorem toFloat32_intCast (n : Int) (hn : |n| < 2 ^ 23) :
    toFloat32 (n : ℚ) = FloatVal.finite (n : ℚ) := by
  have h := toFloat32_half_int (2 * n) (by rw [abs_mul]; norm_num; omega)
  have e : (((2 * n : Int) : ℚ)) / 2 = (n : ℚ) := by push_cast; ring
  rwa [e] at h

theorem toFloat32_intCast_add_half (n : Int) (hn : |n| < 2 ^ 22) :
    toFloat32 ((n : ℚ) + 1 / 2) = FloatVal.finite ((n : ℚ) + 1 / 2) := by
  have h := toFloat32_half_int (2 * n + 1) (by
    have := abs_add (2 * n) 1
    rw [abs_mul] at this
    norm_num at this ⊢
    omega)
  have e : (((2 * n + 1 : Int) : ℚ)) / 2 = (n : ℚ) + 1 / 2 := by push_cast; ring
  rwa [e] at h

theorem toFloat32_zero : toFloat32 0 = FloatVal.finite 0 := by
  have := toFloat32_intCast 0 (by norm_num)
  simpa using this

/-! ## Binary32 arithmetic: values that are rounded -/

theorem ulpExponent_eq (q : ℚ) (k : Int) (hk : -126 ≤ k) (h1 : 2 ^ k ≤ |q|)
    (h2 : |q| < 2 ^ (k + 1)) : ulpExponent q = k - 23 := by
  have h0 : 0 < |q| := lt_of_lt_of_le (zpow_pos (by norm_num) k) h1
  have h1' : ((2 : Nat) : ℚ) ^ k ≤ |q| := by exact_mod_cast h1
  have h2' : |q| < ((2 : Nat) : ℚ) ^ (k + 1) := by exact_mod_cast h2
  have h3 : k ≤ Int.log 2 |q| := (Int.zpow_le_iff_le_log (by norm_num) h0).1 h1'
  have h4 : Int.log 2 |q| < k + 1 := (Int.lt_zpow_iff_log_lt (by norm_num) h0).1 h2'
  unfold ulpExponent
  rw [max_eq_left (by omega)]
  omega

/-- The binary32 value of `q` in the binade `2 ^ k <= |q| < 2 ^ (k + 1)`: the
multiple of `2 ^ (k - 23)` nearest to `q`. -/
theorem toFloat32_eval (q : ℚ) (k m : Int) (hk : -126 ≤ k) (h1 : 2 ^ k ≤ |q|)
    (h2 : |q| < 2 ^ (k + 1)) (hm : roundNearestEven (q / 2 ^ (k - 23)) = m)
    (hfin : |(m : ℚ) * 2 ^ (k - 23)| < 2 ^ 128) :
    toFloat32 q = FloatVal.finite ((m : ℚ) * 2 ^ (k - 23)) := by
  unfold toFloat32
  simp only [ulpExponent_eq q k hk h1 h2, hm]
  have h3 := (abs_lt.1 hfin).1
  have h4 := (abs_lt.1 hfin).2
  rw [if_neg (by linarith), if_neg (by linarith)]

/-- The `int` 16777217 = 2^24 + 1 is no binary32 number: it converts to 2^24. -/
theorem toFloat32_16777217 : toFloat32 16777217 = FloatVal.finite 16777216 := by
  have h := toFloat32_eval 16777217 24 8388608 (by norm_num) (by norm_num) (by norm_num)
    (by unfold roundNearestEven; norm_num) (by norm_num [abs_lt])
  rw [h]
  norm_num

theorem toFloat32_16777216 : toFloat32 16777216 = FloatVal.finite 16777216 := by
  have h := toFloat32_eval 16777216 24 8388608 (by norm_num) (by norm_num) (by norm_num)
    (by unfold roundNearestEven; norm_num) (by norm_num [abs_lt])
  rw [h]
  norm_num

/-- The product 10 * 0.7f, exactly 6.99999988..., is rounded to 7. -/
theorem toFloat32_ten_times : toFloat32 (10 * (11744051 / 16777216)) = FloatVal.finite 7 := by
  have h := toFloat32_eval (10 * (11744051 / 16777216)) 2 14680064 (by norm_num)
    (by norm_num [abs_of_pos]) (by norm_num [abs_of_pos])
    (by unfold roundNearestEven; norm_num) (by norm_num [abs_lt])
  rw [h]
  norm_num

/-- The product 15 * 0.7f, exactly 10.49999982..., is rounded to 10.5. -/
theorem toFloat32_fifteen_times :
    toFloat32 (15 * (11744051 / 16777216)) = FloatVal.finite (21 / 2) := by
  have h := toFloat32_eval (15 * (11744051 / 16777216)) 3 11010048 (by norm_num)
    (by norm_num [abs_of_pos]) (by norm_num [abs_of_pos])
    (by unfold roundNearestEven; norm_num) (by norm_num [abs_lt])
  rw [h]
  norm_num

/-- The literal `0.7f`: 0.7 is rounded to 11744051 / 2^24. -/
theorem toFloat32_seven_tenths :
    toFloat32 (7 / 10) = FloatVal.finite (11744051 / 16777216) := by
  have h := toFloat32_eval (7 / 10) (-1) 11744051 (by norm_num)
    (by norm_num [abs_of_pos]) (by norm_num [abs_of_pos])
    (by unfold roundNearestEven; norm_num) (by norm_num [abs_lt])
  rw [h]
  norm_num

/-! ## The transformed bounding box -/

theorem toFloat32_exact_of (q : ℚ) (n : Int) (h : q = (n : ℚ) / 2) (hn : |n| < 2 ^ 24) :
    toFloat32 q = FloatVal.finite q := by
  subst h
  exact toFloat32_half_int n hn

theorem lt_truncToInt_add_one (v : ℚ) : v < ((truncToInt v + 1 : Int) : ℚ) := by
  unfold truncToInt
  split
  · push_cast; exact Int.lt_floor_add_one v
  · push_cast
    have := Int.le_ceil v
    linarith

theorem truncToInt_le (v : ℚ) (h : 0 ≤ v) : ((truncToInt v : Int) : ℚ) ≤ v := by
  unfold truncToInt
  rw [if_pos h]
  exact Int.floor_le v

theorem truncToInt_of_nonneg (v : ℚ) (h : 0 ≤ v) : truncToInt v = ⌊v⌋ := by
  unfold truncToInt
  rw [if_pos h]

theorem truncToInt_intCast (n : Int) : truncToInt (n : ℚ) = n := by
  unfold truncToInt
  split <;> simp

theorem truncToInt_nonpos_of_neg (v : ℚ) (h : v < 0) : truncToInt v ≤ 0 ∧ ⌊v⌋ ≤ 0 := by
  unfold truncToInt
  rw [if_neg (not_le.2 h)]
  constructor
  · rw [Int.ceil_le]; push_cast; exact le_of_lt h
  · have : ⌊v⌋ ≤ ⌈v⌉ := Int.floor_le_ceil v
    have h2 : ⌈v⌉ ≤ 0 := by rw [Int.ceil_le]; push_cast; exact le_of_lt h
    omega

theorem truncToInt_neg_half : truncToInt (-1 / 2) = 0 := by
  unfold truncToInt
  rw [if_neg (by norm_num), Int.ceil_eq_iff]
  norm_num

theorem truncToInt_half : truncToInt (1 / 2) = 0 := by
  unfold truncToInt
  rw [if_pos (by norm_num), Int.floor_eq_iff]
  norm_num

theorem floor_neg_half : ⌊(-1 / 2 : ℚ)⌋ = -1 := by
  rw [Int.floor_eq_iff]
  norm_num

/-- The truncation of a value below `2 ^ 30` in magnitude is an `int` of that range. -/
theorem truncToInt_bound (v : ℚ) (h : |v| < 2 ^ 30) :
    -2 ^ 30 < truncToInt v ∧ truncToInt v < 2 ^ 30 := by
  obtain ⟨h1, h2⟩ := abs_lt.1 h
  unfold truncToInt
  split
  · rename_i h0
    constructor
    · have : 0 ≤ ⌊v⌋ := Int.floor_nonneg.2 h0
      omega
    · have : ⌊v⌋ < 2 ^ 30 := by
        rw [Int.floor_lt]
        push_cast
        exact h2
      omega
  · rename_i h0
    constructor
    · have : (-2 ^ 30 : Int) < ⌈v⌉ := by
        rw [Int.lt_ceil]
        push_cast
        exact h1
      omega
    · have : ⌈v⌉ ≤ 0 := by
        rw [Int.ceil_le]
        push_cast
        exact le_of_lt (not_le.1 h0)
      omega

/-- The corner sums of a rectangle of coordinates below 2^30 in magnitude are
defined. -/
theorem cornersInRange_of_bounds (spriteRect : Recti)
    (hx : -1073741824 < spriteRect.x ∧ spriteRect.x < 1073741824)
    (hy : -1073741824 < spriteRect.y ∧ spriteRect.y < 1073741824)
    (hw : -1073741824 < spriteRect.width ∧ spriteRect.width < 1073741824)
    (hh : -1073741824 < spriteRect.height ∧ spriteRect.height < 1073741824) :
    cornersInRange spriteRect = true := by
  have h : ∀ v : Int, -2147483648 < v ∧ v < 2147483648 → (checkInt v).isSome = true := by
    intro v hv
    unfold checkInt
    rw [if_pos ⟨by omega, by omega⟩]
    rfl
  simp only [cornersInRange, cornersOf, Recti.getSize, List.all_cons, List.all_nil,
    Bool.and_true, Bool.and_eq_true]
  refine ⟨⟨h _ (by omega), h _ (by omega)⟩, ⟨h _ (by omega), h _ (by omega)⟩,
    ⟨h _ (by omega), h _ (by omega)⟩, h _ (by omega), h _ (by omega)⟩

theorem checkInt_of_range (v : Int) (h1 : -2 ^ 31 ≤ v) (h2 : v < 2 ^ 31) :
    checkInt v = some v := by
  unfold checkInt
  rw [if_pos ⟨h1, h2⟩]

theorem stdMin_finite (a b : ℚ) :
    stdMin (FloatVal.finite a) (FloatVal.finite b) = FloatVal.finite (min a b) := by
  unfold stdMin
  by_cases h : b < a
  · simp [FloatVal.lt, h, min_eq_right (le_of_lt h)]
  · simp [FloatVal.lt, h, min_eq_left (not_lt.1 h)]

theorem stdMax_finite (a b : ℚ) :
    stdMax (FloatVal.finite a) (FloatVal.finite b) = FloatVal.finite (max a b) := by
  unfold stdMax
  by_cases h : a < b
  · simp [FloatVal.lt, h, max_eq_right (le_of_lt h)]
  · simp [FloatVal.lt, h, max_eq_left (not_lt.1 h)]

theorem min4_mem (x0 x1 x2 x3 B : ℚ) (h : x0 ≤ B) :
    min x3 (min x2 (min x1 (min x0 B))) = x0 ∨ min x3 (min x2 (min x1 (min x0 B))) = x1
      ∨ min x3 (min x2 (min x1 (min x0 B))) = x2
      ∨ min x3 (min x2 (min x1 (min x0 B))) = x3 := by
  rw [min_eq_left h]
  rcases min_choice x3 (min x2 (min x1 x0)) with h3 | h3
  · exact Or.inr (Or.inr (Or.inr h3))
  · rw [h3]
    rcases min_choice x2 (min x1 x0) with h2 | h2
    · exact Or.inr (Or.inr (Or.inl h2))
    · rw [h2]
      rcases min_choice x1 x0 with h1 | h1
      · exact Or.inr (Or.inl h1)
      · exact Or.inl h1

theorem max4_mem (x0 x1 x2 x3 B : ℚ) (h : B ≤ x0) :
    max x3 (max x2 (max x1 (max x0 B))) = x0 ∨ max x3 (max x2 (max x1 (max x0 B))) = x1
      ∨ max x3 (max x2 (max x1 (max x0 B))) = x2
      ∨ max x3 (max x2 (max x1 (max x0 B))) = x3 := by
  rw [max_eq_left h]
  rcases max_choice x3 (max x2 (max x1 x0)) with h3 | h3
  · exact Or.inr (Or.inr (Or.inr h3))
  · rw [h3]
    rcases max_choice x2 (max x1 x0) with h2 | h2
    · exact Or.inr (Or.inr (Or.inl h2))
    · rw [h2]
      rcases max_choice x1 x0 with h1 | h1
      · exact Or.inr (Or.inl h1)
      · exact Or.inl h1

theorem min4_le (x0 x1 x2 x3 B : ℚ) :
    min x3 (min x2 (min x1 (min x0 B))) ≤ x0 ∧ min x3 (min x2 (min x1 (min x0 B))) ≤ x1
      ∧ min x3 (min x2 (min x1 (min x0 B))) ≤ x2
      ∧ min x3 (min x2 (min x1 (min x0 B))) ≤ x3 := by
  simp only [min_le_iff, le_refl, true_or, or_true, and_self]

theorem le_max4 (x0 x1 x2 x3 B : ℚ) :
    x0 ≤ max x3 (max x2 (max x1 (max x0 B))) ∧ x1 ≤ max x3 (max x2 (max x1 (max x0 B)))
      ∧ x2 ≤ max x3 (max x2 (max x1 (max x0 B)))
      ∧ x3 ≤ max x3 (max x2 (max x1 (max x0 B))) := by
  simp only [le_max_iff, le_refl, true_or, or_true, and_self]

theorem cornerBounds_eq (t : Transform) (spriteRect : Recti) (position : Vec2i) :
    cornerBounds t spriteRect position
      = ((stdMin (screenCorner t spriteRect position spriteRect.getSize).1
            (stdMin (screenCorner t spriteRect position ⟨0, spriteRect.getSize.y⟩).1
              (stdMin (screenCorner t spriteRect position ⟨spriteRect.getSize.x, 0⟩).1
                (stdMin (screenCorner t spriteRect position ⟨0, 0⟩).1
                  (FloatVal.finite 10000000000)))),
          stdMin (screenCorner t spriteRect position spriteRect.getSize).2
            (stdMin (screenCorner t spriteRect position ⟨0, spriteRect.getSize.y⟩).2
              (stdMin (screenCorner t spriteRect position ⟨spriteRect.getSize.x, 0⟩).2
                (stdMin (screenCorner t spriteRect position ⟨0, 0⟩).2
                  (FloatVal.finite 10000000000))))),
         (stdMax (screenCorner t spriteRect position spriteRect.getSize).1
            (stdMax (screenCorner t spriteRect position ⟨0, spriteRect.getSize.y⟩).1
              (stdMax (screenCorner t spriteRect position ⟨spriteRect.getSize.x, 0⟩).1
                (stdMax (screenCorner t spriteRect position ⟨0, 0⟩).1
                  (FloatVal.finite (-10000000000))))),
          stdMax (screenCorner t spriteRect position spriteRect.getSize).2
            (stdMax (screenCorner t spriteRect position ⟨0, spriteRect.getSize.y⟩).2
              (stdMax (screenCorner t spriteRect position ⟨spriteRect.getSize.x, 0⟩).2
                (stdMax (screenCorner t spriteRect position ⟨0, 0⟩).2
                  (FloatVal.finite (-10000000000))))))) := by
  simp only [cornerBounds, cornersOf, List.foldl]

/-- The running minimum and maximum when the four computed corners are finite. -/
theorem cornerBounds_finite (t : Transform) (spriteRect : Recti) (position : Vec2i)
    (x0 y0 x1 y1 x2 y2 x3 y3 : ℚ)
    (e0 : screenCorner t spriteRect position ⟨0, 0⟩ = (FloatVal.finite x0, FloatVal.finite y0))
    (e1 : screenCorner t spriteRect position ⟨spriteRect.getSize.x, 0⟩
      = (FloatVal.finite x1, FloatVal.finite y1))
    (e2 : screenCorner t spriteRect position ⟨0, spriteRect.getSize.y⟩
      = (FloatVal.finite x2, FloatVal.finite y2))
    (e3 : screenCorner t spriteRect position spriteRect.getSize
      = (FloatVal.finite x3, FloatVal.finite y3)) :
    cornerBounds t spriteRect position
      = ((FloatVal.finite (min x3 (min x2 (min x1 (min x0 10000000000)))),
          FloatVal.finite (min y3 (min y2 (min y1 (min y0 10000000000))))),
         (FloatVal.finite (max x3 (max x2 (max x1 (max x0 (-10000000000))))),
          FloatVal.finite (max y3 (max y2 (max y1 (max y0 (-10000000000))))))) := by
  rw [cornerBounds_eq, e0, e1, e2, e3]
  simp only [stdMin_finite, stdMax_finite]

/-- The box of lines 266-269 for finite bounds below `2 ^ 30` in magnitude: every
conversion and `int` operation is defined. -/
theorem transformedBoundingBox_of_bounds (t : Transform) (spriteRect : Recti)
    (position : Vec2i) (a b c d : ℚ) (hr : cornersInRange spriteRect = true)
    (hb : cornerBounds t spriteRect position
      = ((FloatVal.finite a, FloatVal.finite b), (FloatVal.finite c, FloatVal.finite d)))
    (ha : |a| < 2 ^ 30) (hb' : |b| < 2 ^ 30) (hc : |c| < 2 ^ 30) (hd : |d| < 2 ^ 30) :
    transformedBoundingBox t spriteRect position
      = some ⟨truncToInt a, truncToInt b, truncToInt c + 1 - truncToInt a,
          truncToInt d + 1 - truncToInt b⟩ := by
  obtain ⟨a1, a2⟩ := truncToInt_bound a ha
  obtain ⟨b1, b2⟩ := truncToInt_bound b hb'
  obtain ⟨c1, c2⟩ := truncToInt_bound c hc
  obtain ⟨d1, d2⟩ := truncToInt_bound d hd
  unfold transformedBoundingBox
  simp only [hr, if_true, hb, floatToInt]
  rw [checkInt_of_range (truncToInt a) (by omega) (by omega),
    checkInt_of_range (truncToInt b) (by omega) (by omega),
    checkInt_of_range (truncToInt c) (by omega) (by omega),
    checkInt_of_range (truncToInt d) (by omega) (by omega)]
  simp only [Option.some_bind]
  rw [checkInt_of_range (truncToInt c + 1) (by omega) (by omega),
    checkInt_of_range (truncToInt d + 1) (by omega) (by omega)]
  simp only [Option.some_bind]
  rw [checkInt_of_range (truncToInt c + 1 - truncToInt a) (by omega) (by omega),
    checkInt_of_range (truncToInt d + 1 - truncToInt b) (by omega) (by omega)]
  simp only [Option.some_bind]

/-- Lines 257-259 for a matrix of finite entries, given the binary32 value of
every intermediate result. -/
theorem screenCorner_of_values (m0 m1 m2 m3 : ℚ) (spriteRect : Recti) (position corner : Vec2i)
    (px py lx ly a0 a1 a2 a3 s0 s1 u0 u1 : ℚ)
    (hpx : toFloat32 (position.x : ℚ) = FloatVal.finite px)
    (hpy : toFloat32 (position.y : ℚ) = FloatVal.finite py)
    (hlx : toFloat32 ((corner.x + spriteRect.x : Int) : ℚ) = FloatVal.finite lx)
    (hly : toFloat32 ((corner.y + spriteRect.y : Int) : ℚ) = FloatVal.finite ly)
    (h0 : toFloat32 (lx * m0) = FloatVal.finite a0)
    (h1 : toFloat32 (ly * m1) = FloatVal.finite a1)
    (h2 : toFloat32 (lx * m2) = FloatVal.finite a2)
    (h3 : toFloat32 (ly * m3) = FloatVal.finite a3)
    (hs0 : toFloat32 (px + a0) = FloatVal.finite s0)
    (hs1 : toFloat32 (s0 + a1) = FloatVal.finite s1)
    (hu0 : toFloat32 (py + a2) = FloatVal.finite u0)
    (hu1 : toFloat32 (u0 + a3) = FloatVal.finite u1) :
    screenCorner ⟨FloatVal.finite m0, FloatVal.finite m1, FloatVal.finite m2, FloatVal.finite m3⟩
        spriteRect position corner
      = (FloatVal.finite s1, FloatVal.finite u1) := by
  simp only [screenCorner, intToFloat, Recti.getPos, Vec2i.add_x, Vec2i.add_y, hpx, hpy, hlx, hly,
    FloatVal.mul, h0, h1, h2, h3, FloatVal.add, hs0, hs1, hu0, hu1]

theorem toFloat32_eq_of (q v : ℚ) (n : Int) (hq : q = v) (hv : v = (n : ℚ) / 2)
    (hn : |n| < 2 ^ 24) : toFloat32 q = FloatVal.finite v := by
  subst hq
  subst hv
  exact toFloat32_half_int n hn

theorem float32External_box (t : Transform) (spriteRect : Recti) (position : Vec2i)
    (box : Recti) (h : transformedBoundingBox t spriteRect position = some box)
    (viewportRect : Recti) (options : Options) (hne : spriteRect.isEmpty = false)
    (hT : options.mTransform = some t) :
    applyCropping float32External viewportRect spriteRect position options
      = Recti.getIntersection box viewportRect := by
  rw [applyCropping_of_not_empty _ _ _ _ _ hne, hT]
  show Recti.getIntersection ((transformedBoundingBox t spriteRect position).getD Recti.zero)
    viewportRect = _
  rw [h]
  rfl

theorem truncToInt_seven : truncToInt 7 = 7 := by
  have := truncToInt_intCast 7
  simpa using this

theorem truncToInt_twenty_one_halves : truncToInt (21 / 2) = 10 := by
  unfold truncToInt
  rw [if_pos (by norm_num), Int.floor_eq_iff]
  norm_num

/-- Claim C16 fails in two ways.  (1) For the matrix (0.5, 0, 0, 0.5), the sprite
rectangle (-1,-1,2,2) and the position (0,0), where every float operation is
exact, the corners lie at (-0.5,-0.5) .. (0.5,0.5); the cast `(int)(-0.5)` is 0,
so the box is (0,0,1,1): its `x = 0` is not the floor -1 of the minimum corner,
and the corner (-0.5,-0.5) does not satisfy `box.x <= cx`.  (2) For the matrix
(0.7f, 0, 0, 0.7f), the sprite rectangle (10,10,5,5) and the position (0,0), the
product 10 * 0.7f, exactly 6.99999988..., is rounded to 7, so the box is
(7,7,4,4), while the exact corner lies left of `box.x = 7` and has the floor 6. -/
theorem transformedBoundingBox_misses_corner :
    transformedBoundingBox
        ⟨FloatVal.finite (1 / 2), FloatVal.finite 0, FloatVal.finite 0, FloatVal.finite (1 / 2)⟩
        ⟨-1, -1, 2, 2⟩ ⟨0, 0⟩ = some ⟨0, 0, 1, 1⟩
      ∧ screenCorner
          ⟨FloatVal.finite (1 / 2), FloatVal.finite 0, FloatVal.finite 0, FloatVal.finite (1 / 2)⟩
          ⟨-1, -1, 2, 2⟩ ⟨0, 0⟩ ⟨0, 0⟩ = (FloatVal.finite (-1 / 2), FloatVal.finite (-1 / 2))
      ∧ ¬ (((0 : Int) : ℚ) ≤ (-1 / 2 : ℚ))
      ∧ ⌊(-1 / 2 : ℚ)⌋ = -1
      ∧ toFloat32 (7 / 10) = FloatVal.finite (11744051 / 16777216)
      ∧ transformedBoundingBox
          ⟨FloatVal.finite (11744051 / 16777216), FloatVal.finite 0, FloatVal.finite 0,
            FloatVal.finite (11744051 / 16777216)⟩
          ⟨10, 10, 5, 5⟩ ⟨0, 0⟩ = some ⟨7, 7, 4, 4⟩
      ∧ screenCorner
          ⟨FloatVal.finite (11744051 / 16777216), FloatVal.finite 0, FloatVal.finite 0,
            FloatVal.finite (11744051 / 16777216)⟩
          ⟨10, 10, 5, 5⟩ ⟨0, 0⟩ ⟨0, 0⟩ = (FloatVal.finite 7, FloatVal.finite 7)
      ∧ ¬ (((7 : Int) : ℚ) ≤ (10 : ℚ) * (11744051 / 16777216))
      ∧ ⌊(10 : ℚ) * (11744051 / 16777216)⌋ = 6 := by
  have z : toFloat32 0 = FloatVal.finite 0 := toFloat32_zero
  -- part 1
  have a0 : screenCorner
      ⟨FloatVal.finite (1 / 2), FloatVal.finite 0, FloatVal.finite 0, FloatVal.finite (1 / 2)⟩
      ⟨-1, -1, 2, 2⟩ ⟨0, 0⟩ ⟨0, 0⟩ = (FloatVal.finite (-1 / 2), FloatVal.finite (-1 / 2)) :=
    screenCorner_of_values (1 / 2) 0 0 (1 / 2) ⟨-1, -1, 2, 2⟩ ⟨0, 0⟩ ⟨0, 0⟩
      0 0 (-1) (-1) (-1 / 2) 0 0 (-1 / 2) (-1 / 2) (-1 / 2) 0 (-1 / 2)
      (toFloat32_eq_of _ _ (0) (by norm_num) (by norm_num) (by norm_num))
      (toFloat32_eq_of _ _ (0) (by norm_num) (by norm_num) (by norm_num))
      (toFloat32_eq_of _ _ (-2) (by norm_num) (by norm_num) (by norm_num))
      (toFloat32_eq_of _ _ (-2) (by norm_num) (by norm_num) (by norm_num))
      (toFloat32_eq_of _ _ (-1) (by norm_num) (by norm_num) (by norm_num))
      (toFloat32_eq_of _ _ (0) (by norm_num) (by norm_num) (by norm_num))
      (toFloat32_eq_of _ _ (0) (by norm_num) (by norm_num) (by norm_num))
      (toFloat32_eq_of _ _ (-1) (by norm_num) (by norm_num) (by norm_num))
      (toFloat32_eq_of _ _ (-1) (by norm_num) (by norm_num) (by norm_num))
      (toFloat32_eq_of _ _ (-1) (by norm_num) (by norm_num) (by norm_num))
      (toFloat32_eq_of _ _ (0) (by norm_num) (by norm_num) (by norm_num))
      (toFloat32_eq_of _ _ (-1) (by norm_num) (by norm_num) (by norm_num))
  have a1 : screenCorner
      ⟨FloatVal.finite (1 / 2), FloatVal.finite 0, FloatVal.finite 0, FloatVal.finite (1 / 2)⟩
      ⟨-1, -1, 2, 2⟩ ⟨0, 0⟩ ⟨2, 0⟩ = (FloatVal.finite (1 / 2), FloatVal.finite (-1 / 2)) :=
    screenCorner_of_values (1 / 2) 0 0 (1 / 2) ⟨-1, -1, 2, 2⟩ ⟨0, 0⟩ ⟨2, 0⟩
      0 0 1 (-1) (1 / 2) 0 0 (-1 / 2) (1 / 2) (1 / 2) 0 (-1 / 2)
      (toFloat32_eq_of _ _ (0) (by norm_num) (by norm_num) (by norm_num))
      (toFloat32_eq_of _ _ (0) (by norm_num) (by norm_num) (by norm_num))
      (toFloat32_eq_of _ _ (2) (by norm_num) (by norm_num) (by norm_num))
      (toFloat32_eq_of _ _ (-2) (by norm_num) (by norm_num) (by norm_num))
      (toFloat32_eq_of _ _ (1) (by norm_num) (by norm_num) (by norm_num))
      (toFloat32_eq_of _ _ (0) (by norm_num) (by norm_num) (by norm_num))
      (toFloat32_eq_of _ _ (0) (by norm_num) (by norm_num) (by norm_num))
      (toFloat32_eq_of _ _ (-1) (by norm_num) (by norm_num) (by norm_num))
      (toFloat32_eq_of _ _ (1) (by norm_num) (by norm_num) (by norm_num))
      (toFloat32_eq_of _ _ (1) (by norm_num) (by norm_num) (by norm_num))
      (toFloat32_eq_of _ _ (0) (by norm_num) (by norm_num) (by norm_num))
      (toFloat32_eq_of _ _ (-1) (by norm_num) (by norm_num) (by norm_num))
  have a2 : screenCorner
      ⟨FloatVal.finite (1 / 2), FloatVal.finite 0, FloatVal.finite 0, FloatVal.finite (1 / 2)⟩
      ⟨-1, -1, 2, 2⟩ ⟨0, 0⟩ ⟨0, 2⟩ = (FloatVal.finite (-1 / 2), FloatVal.finite (1 / 2)) :=
    screenCorner_of_values (1 / 2) 0 0 (1 / 2) ⟨-1, -1, 2, 2⟩ ⟨0, 0⟩ ⟨0, 2⟩
      0 0 (-1) 1 (-1 / 2) 0 0 (1 / 2) (-1 / 2) (-1 / 2) 0 (1 / 2)
      (toFloat32_eq_of _ _ (0) (by norm_num) (by norm_num) (by norm_num))
      (toFloat32_eq_of _ _ (0) (by norm_num) (by norm_num) (by norm_num))
      (toFloat32_eq_of _ _ (-2) (by norm_num) (by norm_num) (by norm_num))
      (toFloat32_eq_of _ _ (2) (by norm_num) (by norm_num) (by norm_num))
      (toFloat32_eq_of _ _ (-1) (by norm_num) (by norm_num) (by norm_num))
      (toFloat32_eq_of _ _ (0) (by norm_num) (by norm_num) (by norm_num))
      (toFloat32_eq_of _ _ (0) (by norm_num) (by norm_num) (by norm_num))
      (toFloat32_eq_of _ _ (1) (by norm_num) (by norm_num) (by norm_num))
      (toFloat32_eq_of _ _ (-1) (by norm_num) (by norm_num) (by norm_num))
      (toFloat32_eq_of _ _ (-1) (by norm_num) (by norm_num) (by norm_num))
      (toFloat32_eq_of _ _ (0) (by norm_num) (by norm_num) (by norm_num))
      (toFloat32_eq_of _ _ (1) (by norm_num) (by norm_num) (by norm_num))
  have a3 : screenCorner
      ⟨FloatVal.finite (1 / 2), FloatVal.finite 0, FloatVal.finite 0, FloatVal.finite (1 / 2)⟩
      ⟨-1, -1, 2, 2⟩ ⟨0, 0⟩ ⟨2, 2⟩ = (FloatVal.finite (1 / 2), FloatVal.finite (1 / 2)) :=
    screenCorner_of_values (1 / 2) 0 0 (1 / 2) ⟨-1, -1, 2, 2⟩ ⟨0, 0⟩ ⟨2, 2⟩
      0 0 1 1 (1 / 2) 0 0 (1 / 2) (1 / 2) (1 / 2) 0 (1 / 2)
      (toFloat32_eq_of _ _ (0) (by norm_num) (by norm_num) (by norm_num))
      (toFloat32_eq_of _ _ (0) (by norm_num) (by norm_num) (by norm_num))
      (toFloat32_eq_of _ _ (2) (by norm_num) (by norm_num) (by norm_num))
      (toFloat32_eq_of _ _ (2) (by norm_num) (by norm_num) (by norm_num))
      (toFloat32_eq_of _ _ (1) (by norm_num) (by norm_num) (by norm_num))
      (toFloat32_eq_of _ _ (0) (by norm_num) (by norm_num) (by norm_num))
      (toFloat32_eq_of _ _ (0) (by norm_num) (by norm_num) (by norm_num))
      (toFloat32_eq_of _ _ (1) (by norm_num) (by norm_num) (by norm_num))
      (toFloat32_eq_of _ _ (1) (by norm_num) (by norm_num) (by norm_num))
      (toFloat32_eq_of _ _ (1) (by norm_num) (by norm_num) (by norm_num))
      (toFloat32_eq_of _ _ (0) (by norm_num) (by norm_num) (by norm_num))
      (toFloat32_eq_of _ _ (1) (by norm_num) (by norm_num) (by norm_num))
  have ab := cornerBounds_finite _ ⟨-1, -1, 2, 2⟩ ⟨0, 0⟩ _ _ _ _ _ _ _ _ a0 a1 a2 a3
  have ab' : cornerBounds
      ⟨FloatVal.finite (1 / 2), FloatVal.finite 0, FloatVal.finite 0, FloatVal.finite (1 / 2)⟩
      ⟨-1, -1, 2, 2⟩ ⟨0, 0⟩
      = ((FloatVal.finite (-1 / 2), FloatVal.finite (-1 / 2)),
         (FloatVal.finite (1 / 2), FloatVal.finite (1 / 2))) := by
    rw [ab]
    norm_num
  have abox := transformedBoundingBox_of_bounds _ _ _ _ _ _ _ (by decide) ab' (by norm_num [abs_lt])
    (by norm_num [abs_lt]) (by norm_num [abs_lt]) (by norm_num [abs_lt])
  rw [truncToInt_neg_half, truncToInt_half] at abox
  -- part 2
  have t10 := toFloat32_ten_times
  have t15 := toFloat32_fifteen_times
  have i10 : toFloat32 (((0 + 10 : Int) : Int) : ℚ) = FloatVal.finite 10 :=
    toFloat32_eq_of _ _ (20) (by norm_num) (by norm_num) (by norm_num)
  have i15 : toFloat32 (((5 + 10 : Int) : Int) : ℚ) = FloatVal.finite 15 :=
    toFloat32_eq_of _ _ (30) (by norm_num) (by norm_num) (by norm_num)
  have s7 : toFloat32 (0 + 7) = FloatVal.finite 7 :=
    toFloat32_eq_of _ _ (14) (by norm_num) (by norm_num) (by norm_num)
  have s7' : toFloat32 (7 + 0) = FloatVal.finite 7 :=
    toFloat32_eq_of _ _ (14) (by norm_num) (by norm_num) (by norm_num)
  have s21 : toFloat32 (0 + 21 / 2) = FloatVal.finite (21 / 2) :=
    toFloat32_eq_of _ _ (21) (by norm_num) (by norm_num) (by norm_num)
  have s21' : toFloat32 (21 / 2 + 0) = FloatVal.finite (21 / 2) :=
    toFloat32_eq_of _ _ (21) (by norm_num) (by norm_num) (by norm_num)
  have z10 : toFloat32 (10 * 0) = FloatVal.finite 0 :=
    toFloat32_eq_of _ _ (0) (by norm_num) (by norm_num) (by norm_num)
  have z15 : toFloat32 (15 * 0) = FloatVal.finite 0 :=
    toFloat32_eq_of _ _ (0) (by norm_num) (by norm_num) (by norm_num)
  have z00 : toFloat32 (0 + 0) = FloatVal.finite 0 :=
    toFloat32_eq_of _ _ (0) (by norm_num) (by norm_num) (by norm_num)
  have zc : toFloat32 (((0 : Int) : Int) : ℚ) = FloatVal.finite 0 :=
    toFloat32_eq_of _ _ (0) (by norm_num) (by norm_num) (by norm_num)
  have b0 : screenCorner
      ⟨FloatVal.finite (11744051 / 16777216), FloatVal.finite 0, FloatVal.finite 0,
        FloatVal.finite (11744051 / 16777216)⟩
      ⟨10, 10, 5, 5⟩ ⟨0, 0⟩ ⟨0, 0⟩ = (FloatVal.finite 7, FloatVal.finite 7) :=
    screenCorner_of_values (11744051 / 16777216) 0 0 (11744051 / 16777216) ⟨10, 10, 5, 5⟩
      ⟨0, 0⟩ ⟨0, 0⟩ 0 0 10 10 7 0 0 7 7 7 0 7 zc zc i10 i10 t10 z10 z10 t10 s7 s7' z00 s7
  have b1 : screenCorner
      ⟨FloatVal.finite (11744051 / 16777216), FloatVal.finite 0, FloatVal.finite 0,
        FloatVal.finite (11744051 / 16777216)⟩
      ⟨10, 10, 5, 5⟩ ⟨0, 0⟩ ⟨5, 0⟩ = (FloatVal.finite (21 / 2), FloatVal.finite 7) :=
    screenCorner_of_values (11744051 / 16777216) 0 0 (11744051 / 16777216) ⟨10, 10, 5, 5⟩
      ⟨0, 0⟩ ⟨5, 0⟩ 0 0 15 10 (21 / 2) 0 0 7 (21 / 2) (21 / 2) 0 7
      zc zc i15 i10 t15 z10 z15 t10 s21 s21' z00 s7
  have b2 : screenCorner
      ⟨FloatVal.finite (11744051 / 16777216), FloatVal.finite 0, FloatVal.finite 0,
        FloatVal.finite (11744051 / 16777216)⟩
      ⟨10, 10, 5, 5⟩ ⟨0, 0⟩ ⟨0, 5⟩ = (FloatVal.finite 7, FloatVal.finite (21 / 2)) :=
    screenCorner_of_values (11744051 / 16777216) 0 0 (11744051 / 16777216) ⟨10, 10, 5, 5⟩
      ⟨0, 0⟩ ⟨0, 5⟩ 0 0 10 15 7 0 0 (21 / 2) 7 7 0 (21 / 2)
      zc zc i10 i15 t10 z15 z10 t15 s7 s7' z00 s21
  have b3 : screenCorner
      ⟨FloatVal.finite (11744051 / 16777216), FloatVal.finite 0, FloatVal.finite 0,
        FloatVal.finite (11744051 / 16777216)⟩
      ⟨10, 10, 5, 5⟩ ⟨0, 0⟩ ⟨5, 5⟩ = (FloatVal.finite (21 / 2), FloatVal.finite (21 / 2)) :=
    screenCorner_of_values (11744051 / 16777216) 0 0 (11744051 / 16777216) ⟨10, 10, 5, 5⟩
      ⟨0, 0⟩ ⟨5, 5⟩ 0 0 15 15 (21 / 2) 0 0 (21 / 2) (21 / 2) (21 / 2) 0 (21 / 2)
      zc zc i15 i15 t15 z15 z15 t15 s21 s21' z00 s21
  have bb := cornerBounds_finite _ ⟨10, 10, 5, 5⟩ ⟨0, 0⟩ _ _ _ _ _ _ _ _ b0 b1 b2 b3
  have bb' : cornerBounds
      ⟨FloatVal.finite (11744051 / 16777216), FloatVal.finite 0, FloatVal.finite 0,
        FloatVal.finite (11744051 / 16777216)⟩
      ⟨10, 10, 5, 5⟩ ⟨0, 0⟩
      = ((FloatVal.finite 7, FloatVal.finite 7),
         (FloatVal.finite (21 / 2), FloatVal.finite (21 / 2))) := by
    rw [bb]
    norm_num
  have bbox := transformedBoundingBox_of_bounds _ _ _ _ _ _ _ (by decide) bb' (by norm_num [abs_lt])
    (by norm_num [abs_lt]) (by norm_num [abs_lt]) (by norm_num [abs_lt])
  rw [truncToInt_seven, truncToInt_twenty_one_halves] at bbox
  refine ⟨abox, a0, by norm_num, floor_neg_half, toFloat32_seven_tenths, bbox, b0, by norm_num,
    ?_⟩
  rw [Int.floor_eq_iff]
  norm_num

/-- Claim C16, amended.  For every 2x2 matrix, sprite rectangle and position for
which the four corners computed by lines 257-259 are finite and below 2^30 in
magnitude, the box of lines 266-269 is computed without an undefined conversion,
and every computed corner `(cx, cy)` satisfies `cx < box.x + box.width` and
`cy < box.y + box.height`; `box.x`, `box.y` are the minimum computed corner
coordinates truncated toward zero, which is the floor, with `box.x <= cx`
(`box.y <= cy`), whenever that minimum is non-negative; cropped to a viewport
with non-negative `x`, `y` the box equals the cropped box that starts at the
floor; and `applyCropping` returns the box cropped to the viewport. -/
theorem transformedBoundingBox_covers (t : Transform) (spriteRect : Recti) (position : Vec2i)
    (cx cy : Vec2i → ℚ) (hint : cornersInRange spriteRect = true)
    (hfin : ∀ c ∈ cornersOf spriteRect,
      screenCorner t spriteRect position c = (FloatVal.finite (cx c), FloatVal.finite (cy c))
        ∧ |cx c| < 2 ^ 30 ∧ |cy c| < 2 ^ 30) :
    ∃ (box : Recti) (minX minY maxX maxY : ℚ),
      transformedBoundingBox t spriteRect position = some box
        ∧ cornerBounds t spriteRect position
            = ((FloatVal.finite minX, FloatVal.finite minY),
               (FloatVal.finite maxX, FloatVal.finite maxY))
        ∧ (∃ c ∈ cornersOf spriteRect, minX = cx c)
        ∧ (∃ c ∈ cornersOf spriteRect, minY = cy c)
        ∧ box.x = truncToInt minX ∧ box.y = truncToInt minY
        ∧ (0 ≤ minX → box.x = ⌊minX⌋) ∧ (0 ≤ minY → box.y = ⌊minY⌋)
        ∧ (∀ c ∈ cornersOf spriteRect,
            cx c < ((box.x + box.width : Int) : ℚ) ∧ cy c < ((box.y + box.height : Int) : ℚ)
              ∧ (0 ≤ minX → ((box.x : Int) : ℚ) ≤ cx c)
              ∧ (0 ≤ minY → ((box.y : Int) : ℚ) ≤ cy c))
        ∧ (∀ viewportRect : Recti, 0 ≤ viewportRect.x → 0 ≤ viewportRect.y →
            Recti.getIntersection box viewportRect
              = Recti.getIntersection
                  ⟨⌊minX⌋, ⌊minY⌋, truncToInt maxX + 1 - ⌊minX⌋, truncToInt maxY + 1 - ⌊minY⌋⟩
                  viewportRect)
        ∧ (∀ (viewportRect : Recti) (options : Options), spriteRect.isEmpty = false →
            options.mTransform = some t →
            applyCropping float32External viewportRect spriteRect position options
              = Recti.getIntersection box viewportRect) := by
  have m0 : (⟨0, 0⟩ : Vec2i) ∈ cornersOf spriteRect := by simp [cornersOf]
  have m1 : (⟨spriteRect.getSize.x, 0⟩ : Vec2i) ∈ cornersOf spriteRect := by simp [cornersOf]
  have m2 : (⟨0, spriteRect.getSize.y⟩ : Vec2i) ∈ cornersOf spriteRect := by simp [cornersOf]
  have m3 : spriteRect.getSize ∈ cornersOf spriteRect := by simp [cornersOf]
  obtain ⟨e0, x0b, y0b⟩ := hfin _ m0
  obtain ⟨e1, x1b, y1b⟩ := hfin _ m1
  obtain ⟨e2, x2b, y2b⟩ := hfin _ m2
  obtain ⟨e3, x3b, y3b⟩ := hfin _ m3
  have hb := cornerBounds_finite t spriteRect position _ _ _ _ _ _ _ _ e0 e1 e2 e3
  have hx0 := abs_lt.1 x0b
  have hy0 := abs_lt.1 y0b
  have hminX := min4_mem (cx ⟨0, 0⟩) (cx ⟨spriteRect.getSize.x, 0⟩) (cx ⟨0, spriteRect.getSize.y⟩)
    (cx spriteRect.getSize) 10000000000 (by norm_num at hx0; linarith)
  have hminY := min4_mem (cy ⟨0, 0⟩) (cy ⟨spriteRect.getSize.x, 0⟩) (cy ⟨0, spriteRect.getSize.y⟩)
    (cy spriteRect.getSize) 10000000000 (by norm_num at hy0; linarith)
  have hmaxX := max4_mem (cx ⟨0, 0⟩) (cx ⟨spriteRect.getSize.x, 0⟩) (cx ⟨0, spriteRect.getSize.y⟩)
    (cx spriteRect.getSize) (-10000000000) (by norm_num at hx0; linarith)
  have hmaxY := max4_mem (cy ⟨0, 0⟩) (cy ⟨spriteRect.getSize.x, 0⟩) (cy ⟨0, spriteRect.getSize.y⟩)
    (cy spriteRect.getSize) (-10000000000) (by norm_num at hy0; linarith)
  have hleX := min4_le (cx ⟨0, 0⟩) (cx ⟨spriteRect.getSize.x, 0⟩) (cx ⟨0, spriteRect.getSize.y⟩)
    (cx spriteRect.getSize) 10000000000
  have hleY := min4_le (cy ⟨0, 0⟩) (cy ⟨spriteRect.getSize.x, 0⟩) (cy ⟨0, spriteRect.getSize.y⟩)
    (cy spriteRect.getSize) 10000000000
  have hgeX := le_max4 (cx ⟨0, 0⟩) (cx ⟨spriteRect.getSize.x, 0⟩) (cx ⟨0, spriteRect.getSize.y⟩)
    (cx spriteRect.getSize) (-10000000000)
  have hgeY := le_max4 (cy ⟨0, 0⟩) (cy ⟨spriteRect.getSize.x, 0⟩) (cy ⟨0, spriteRect.getSize.y⟩)
    (cy spriteRect.getSize) (-10000000000)
  generalize min (cx spriteRect.getSize) (min (cx ⟨0, spriteRect.getSize.y⟩)
    (min (cx ⟨spriteRect.getSize.x, 0⟩) (min (cx ⟨0, 0⟩) 10000000000))) = minX
    at hb hminX hleX
  generalize min (cy spriteRect.getSize) (min (cy ⟨0, spriteRect.getSize.y⟩)
    (min (cy ⟨spriteRect.getSize.x, 0⟩) (min (cy ⟨0, 0⟩) 10000000000))) = minY
    at hb hminY hleY
  generalize max (cx spriteRect.getSize) (max (cx ⟨0, spriteRect.getSize.y⟩)
    (max (cx ⟨spriteRect.getSize.x, 0⟩) (max (cx ⟨0, 0⟩) (-10000000000)))) = maxX
    at hb hmaxX hgeX
  generalize max (cy spriteRect.getSize) (max (cy ⟨0, spriteRect.getSize.y⟩)
    (max (cy ⟨spriteRect.getSize.x, 0⟩) (max (cy ⟨0, 0⟩) (-10000000000)))) = maxY
    at hb hmaxY hgeY
  have hminXb : |minX| < 2 ^ 30 := by
    rcases hminX with h | h | h | h <;> rw [h] <;> assumption
  have hminYb : |minY| < 2 ^ 30 := by
    rcases hminY with h | h | h | h <;> rw [h] <;> assumption
  have hmaxXb : |maxX| < 2 ^ 30 := by
    rcases hmaxX with h | h | h | h <;> rw [h] <;> assumption
  have hmaxYb : |maxY| < 2 ^ 30 := by
    rcases hmaxY with h | h | h | h <;> rw [h] <;> assumption
  have hbox := transformedBoundingBox_of_bounds t spriteRect position minX minY maxX maxY hint hb
    hminXb hminYb hmaxXb hmaxYb
  have hbound : ∀ c ∈ cornersOf spriteRect,
      minX ≤ cx c ∧ minY ≤ cy c ∧ cx c ≤ maxX ∧ cy c ≤ maxY := by
    intro c hc
    simp only [cornersOf, List.mem_cons, List.mem_singleton, List.not_mem_nil, or_false] at hc
    rcases hc with rfl | rfl | rfl | rfl
    · exact ⟨hleX.1, hleY.1, hgeX.1, hgeY.1⟩
    · exact ⟨hleX.2.1, hleY.2.1, hgeX.2.1, hgeY.2.1⟩
    · exact ⟨hleX.2.2.1, hleY.2.2.1, hgeX.2.2.1, hgeY.2.2.1⟩
    · exact ⟨hleX.2.2.2, hleY.2.2.2, hgeX.2.2.2, hgeY.2.2.2⟩
  refine ⟨_, minX, minY, maxX, maxY, hbox, hb, ?_, ?_, rfl, rfl,
    fun h => truncToInt_of_nonneg _ h, fun h => truncToInt_of_nonneg _ h, ?_, ?_, ?_⟩
  · rcases hminX with h | h | h | h
    · exact ⟨_, m0, h⟩
    · exact ⟨_, m1, h⟩
    · exact ⟨_, m2, h⟩
    · exact ⟨_, m3, h⟩
  · rcases hminY with h | h | h | h
    · exact ⟨_, m0, h⟩
    · exact ⟨_, m1, h⟩
    · exact ⟨_, m2, h⟩
    · exact ⟨_, m3, h⟩
  · intro c hc
    obtain ⟨h1, h2, h3, h4⟩ := hbound c hc
    have ex : truncToInt minX + (truncToInt maxX + 1 - truncToInt minX) = truncToInt maxX + 1 := by
      ring
    have ey : truncToInt minY + (truncToInt maxY + 1 - truncToInt minY) = truncToInt maxY + 1 := by
      ring
    refine ⟨?_, ?_, ?_, ?_⟩
    · show cx c < ((truncToInt minX + (truncToInt maxX + 1 - truncToInt minX) : Int) : ℚ)
      rw [ex]
      exact lt_of_le_of_lt h3 (lt_truncToInt_add_one _)
    · show cy c < ((truncToInt minY + (truncToInt maxY + 1 - truncToInt minY) : Int) : ℚ)
      rw [ey]
      exact lt_of_le_of_lt h4 (lt_truncToInt_add_one _)
    · intro h0
      exact le_trans (truncToInt_le _ h0) h1
    · intro h0
      exact le_trans (truncToInt_le _ h0) h2
  · intro viewportRect hvx hvy
    simp only [Recti.getIntersection, Recti.mk.injEq]
    have hxx : truncToInt minX = ⌊minX⌋ ∨ (truncToInt minX ≤ 0 ∧ ⌊minX⌋ ≤ 0) := by
      rcases le_or_lt 0 minX with h | h
      · exact Or.inl (truncToInt_of_nonneg _ h)
      · exact Or.inr (truncToInt_nonpos_of_neg _ h)
    have hyy : truncToInt minY = ⌊minY⌋ ∨ (truncToInt minY ≤ 0 ∧ ⌊minY⌋ ≤ 0) := by
      rcases le_or_lt 0 minY with h | h
      · exact Or.inl (truncToInt_of_nonneg _ h)
      · exact Or.inr (truncToInt_nonpos_of_neg _ h)
    generalize truncToInt minX = tx at hxx ⊢
    generalize truncToInt minY = ty at hyy ⊢
    generalize ⌊minX⌋ = fx at hxx ⊢
    generalize ⌊minY⌋ = fy at hyy ⊢
    omega
  · intro viewportRect options hne hT
    exact float32External_box t spriteRect position _ hbox viewportRect options hne hT

/-- The identity matrix on the rectangle (0,0,4,4) at position (10,10): the four
corners lie at (10,10) .. (14,14), the box is (10,10,5,5). -/
theorem transformedBoundingBox_covers_witness :
    ∃ (box : Recti) (minX minY maxX maxY : ℚ),
      transformedBoundingBox identityTransform ⟨0, 0, 4, 4⟩ ⟨10, 10⟩ = some box
        ∧ cornerBounds identityTransform ⟨0, 0, 4, 4⟩ ⟨10, 10⟩
            = ((FloatVal.finite minX, FloatVal.finite minY),
               (FloatVal.finite maxX, FloatVal.finite maxY))
        ∧ (∀ c ∈ cornersOf ⟨0, 0, 4, 4⟩,
            ((10 + c.x : Int) : ℚ) < ((box.x + box.width : Int) : ℚ)
              ∧ ((10 + c.y : Int) : ℚ) < ((box.y + box.height : Int) : ℚ)) := by
  obtain ⟨box, minX, minY, maxX, maxY, hbox, hb, _, _, _, _, _, _, hcov, _⟩ :=
    transformedBoundingBox_covers identityTransform ⟨0, 0, 4, 4⟩ ⟨10, 10⟩
      (fun c => ((10 + c.x : Int) : ℚ)) (fun c => ((10 + c.y : Int) : ℚ)) (by decide)
      (by
        intro c hc
        simp only [cornersOf, Recti.getSize, List.mem_cons, List.mem_singleton,
          List.not_mem_nil, or_false] at hc
        rcases hc with rfl | rfl | rfl | rfl
        · exact ⟨screenCorner_of_values 1 0 0 1 ⟨0, 0, 4, 4⟩ ⟨10, 10⟩ ⟨0, 0⟩
            10 10 0 0 0 0 0 0 10 _ 10 _
            (toFloat32_eq_of _ _ 20 (by norm_num) (by norm_num) (by norm_num))
            (toFloat32_eq_of _ _ 20 (by norm_num) (by norm_num) (by norm_num))
            (toFloat32_eq_of _ _ 0 (by norm_num) (by norm_num) (by norm_num))
            (toFloat32_eq_of _ _ 0 (by norm_num) (by norm_num) (by norm_num))
            (toFloat32_eq_of _ _ 0 (by norm_num) (by norm_num) (by norm_num))
            (toFloat32_eq_of _ _ 0 (by norm_num) (by norm_num) (by norm_num))
            (toFloat32_eq_of _ _ 0 (by norm_num) (by norm_num) (by norm_num))
            (toFloat32_eq_of _ _ 0 (by norm_num) (by norm_num) (by norm_num))
            (toFloat32_eq_of _ _ 20 (by norm_num) (by norm_num) (by norm_num))
            (toFloat32_eq_of _ _ 20 (by norm_num) (by norm_num) (by norm_num))
            (toFloat32_eq_of _ _ 20 (by norm_num) (by norm_num) (by norm_num))
            (toFloat32_eq_of _ _ 20 (by norm_num) (by norm_num) (by norm_num)),
            by norm_num [abs_lt], by norm_num [abs_lt]⟩
        · exact ⟨screenCorner_of_values 1 0 0 1 ⟨0, 0, 4, 4⟩ ⟨10, 10⟩ ⟨4, 0⟩
            10 10 4 0 4 0 0 0 14 _ 10 _
            (toFloat32_eq_of _ _ 20 (by norm_num) (by norm_num) (by norm_num))
            (toFloat32_eq_of _ _ 20 (by norm_num) (by norm_num) (by norm_num))
            (toFloat32_eq_of _ _ 8 (by norm_num) (by norm_num) (by norm_num))
            (toFloat32_eq_of _ _ 0 (by norm_num) (by norm_num) (by norm_num))
            (toFloat32_eq_of _ _ 8 (by norm_num) (by norm_num) (by norm_num))
            (toFloat32_eq_of _ _ 0 (by norm_num) (by norm_num) (by norm_num))
            (toFloat32_eq_of _ _ 0 (by norm_num) (by norm_num) (by norm_num))
            (toFloat32_eq_of _ _ 0 (by norm_num) (by norm_num) (by norm_num))
            (toFloat32_eq_of _ _ 28 (by norm_num) (by norm_num) (by norm_num))
            (toFloat32_eq_of _ _ 28 (by norm_num) (by norm_num) (by norm_num))
            (toFloat32_eq_of _ _ 20 (by norm_num) (by norm_num) (by norm_num))
            (toFloat32_eq_of _ _ 20 (by norm_num) (by norm_num) (by norm_num)),
            by norm_num [abs_lt], by norm_num [abs_lt]⟩
        · exact ⟨screenCorner_of_values 1 0 0 1 ⟨0, 0, 4, 4⟩ ⟨10, 10⟩ ⟨0, 4⟩
            10 10 0 4 0 0 0 4 10 _ 10 _
            (toFloat32_eq_of _ _ 20 (by norm_num) (by norm_num) (by norm_num))
            (toFloat32_eq_of _ _ 20 (by norm_num) (by norm_num) (by norm_num))
            (toFloat32_eq_of _ _ 0 (by norm_num) (by norm_num) (by norm_num))
            (toFloat32_eq_of _ _ 8 (by norm_num) (by norm_num) (by norm_num))
            (toFloat32_eq_of _ _ 0 (by norm_num) (by norm_num) (by norm_num))
            (toFloat32_eq_of _ _ 0 (by norm_num) (by norm_num) (by norm_num))
            (toFloat32_eq_of _ _ 0 (by norm_num) (by norm_num) (by norm_num))
            (toFloat32_eq_of _ _ 8 (by norm_num) (by norm_num) (by norm_num))
            (toFloat32_eq_of _ _ 20 (by norm_num) (by norm_num) (by norm_num))
            (toFloat32_eq_of _ _ 20 (by norm_num) (by norm_num) (by norm_num))
            (toFloat32_eq_of _ _ 20 (by norm_num) (by norm_num) (by norm_num))
            (toFloat32_eq_of _ _ 28 (by norm_num) (by norm_num) (by norm_num)),
            by norm_num [abs_lt], by norm_num [abs_lt]⟩
        · exact ⟨screenCorner_of_values 1 0 0 1 ⟨0, 0, 4, 4⟩ ⟨10, 10⟩ ⟨4, 4⟩
            10 10 4 4 4 0 0 4 14 _ 10 _
            (toFloat32_eq_of _ _ 20 (by norm_num) (by norm_num) (by norm_num))
            (toFloat32_eq_of _ _ 20 (by norm_num) (by norm_num) (by norm_num))
            (toFloat32_eq_of _ _ 8 (by norm_num) (by norm_num) (by norm_num))
            (toFloat32_eq_of _ _ 8 (by norm_num) (by norm_num) (by norm_num))
            (toFloat32_eq_of _ _ 8 (by norm_num) (by norm_num) (by norm_num))
            (toFloat32_eq_of _ _ 0 (by norm_num) (by norm_num) (by norm_num))
            (toFloat32_eq_of _ _ 0 (by norm_num) (by norm_num) (by norm_num))
            (toFloat32_eq_of _ _ 8 (by norm_num) (by norm_num) (by norm_num))
            (toFloat32_eq_of _ _ 28 (by norm_num) (by norm_num) (by norm_num))
            (toFloat32_eq_of _ _ 28 (by norm_num) (by norm_num) (by norm_num))
            (toFloat32_eq_of _ _ 20 (by norm_num) (by norm_num) (by norm_num))
            (toFloat32_eq_of _ _ 28 (by norm_num) (by norm_num) (by norm_num)),
            by norm_num [abs_lt], by norm_num [abs_lt]⟩)
  exact ⟨box, minX, minY, maxX, maxY, hbox, hb, fun c hc => ⟨(hcov c hc).1, (hcov c hc).2.1⟩⟩

/-! ## The identity transform -/

theorem toFloat32_eq_of_int (q v : ℚ) (n : Int) (hq : q = v) (hv : v = (n : ℚ) / 2)
    (hn : -16777216 < n ∧ n < 16777216) : toFloat32 q = FloatVal.finite v :=
  toFloat32_eq_of q v n hq hv (abs_lt.2 ⟨by norm_num; omega, by norm_num; omega⟩)

theorem abs_intCast_lt (n : Int) (h : -1073741824 < n ∧ n < 1073741824) :
    |(n : ℚ)| < 2 ^ 30 := by
  rw [abs_lt]
  constructor
  · have : ((-1073741824 : Int) : ℚ) < (n : ℚ) := by exact_mod_cast h.1
    norm_num at this ⊢
    exact this
  · have : (n : ℚ) < ((1073741824 : Int) : ℚ) := by exact_mod_cast h.2
    norm_num at this ⊢
    exact this

/-- Lines 257-259 under the identity matrix, for coordinates below 2^22 in
magnitude: no operation is rounded, the corner lands at
`position + corner + spriteRect.getPos()`. -/
theorem screenCorner_identity (spriteRect : Recti) (position corner : Vec2i)
    (hpx : -4194304 < position.x ∧ position.x < 4194304)
    (hpy : -4194304 < position.y ∧ position.y < 4194304)
    (hlx : -4194304 < corner.x + spriteRect.x ∧ corner.x + spriteRect.x < 4194304)
    (hly : -4194304 < corner.y + spriteRect.y ∧ corner.y + spriteRect.y < 4194304) :
    screenCorner identityTransform spriteRect position corner
      = (FloatVal.finite ((position.x + (corner.x + spriteRect.x) : Int) : ℚ),
         FloatVal.finite ((position.y + (corner.y + spriteRect.y) : Int) : ℚ)) :=
  screenCorner_of_values 1 0 0 1 spriteRect position corner
    (position.x : ℚ) (position.y : ℚ) ((corner.x + spriteRect.x : Int) : ℚ)
    ((corner.y + spriteRect.y : Int) : ℚ)
    ((corner.x + spriteRect.x : Int) : ℚ) 0 0 ((corner.y + spriteRect.y : Int) : ℚ)
    ((position.x + (corner.x + spriteRect.x) : Int) : ℚ)
    ((position.x + (corner.x + spriteRect.x) : Int) : ℚ)
    (position.y : ℚ) ((position.y + (corner.y + spriteRect.y) : Int) : ℚ)
    (toFloat32_eq_of_int _ _ (2 * position.x) rfl (by push_cast; ring) (by omega))
    (toFloat32_eq_of_int _ _ (2 * position.y) rfl (by push_cast; ring) (by omega))
    (toFloat32_eq_of_int _ _ (2 * (corner.x + spriteRect.x)) rfl (by push_cast; ring) (by omega))
    (toFloat32_eq_of_int _ _ (2 * (corner.y + spriteRect.y)) rfl (by push_cast; ring) (by omega))
    (toFloat32_eq_of_int _ _ (2 * (corner.x + spriteRect.x)) (mul_one _) (by push_cast; ring)
      (by omega))
    (toFloat32_eq_of_int _ _ 0 (mul_zero _) (by norm_num) (by omega))
    (toFloat32_eq_of_int _ _ 0 (mul_zero _) (by norm_num) (by omega))
    (toFloat32_eq_of_int _ _ (2 * (corner.y + spriteRect.y)) (mul_one _) (by push_cast; ring)
      (by omega))
    (toFloat32_eq_of_int _ _ (2 * (position.x + (corner.x + spriteRect.x))) (by push_cast; ring)
      (by push_cast; ring) (by omega))
    (toFloat32_eq_of_int _ _ (2 * (position.x + (corner.x + spriteRect.x))) (add_zero _)
      (by push_cast; ring) (by omega))
    (toFloat32_eq_of_int _ _ (2 * position.y) (add_zero _) (by push_cast; ring) (by omega))
    (toFloat32_eq_of_int _ _ (2 * (position.y + (corner.y + spriteRect.y))) (by push_cast; ring)
      (by push_cast; ring) (by omega))

/-- Lines 251-269 under the identity matrix, for coordinates below 2^22 in
magnitude: the box is the sprite rectangle moved to the position, one pixel wider
and taller. -/
theorem transformedBoundingBox_identity (spriteRect : Recti) (position : Vec2i)
    (hw : 0 ≤ spriteRect.width) (hh : 0 ≤ spriteRect.height)
    (hpx : -4194304 < position.x ∧ position.x < 4194304)
    (hpy : -4194304 < position.y ∧ position.y < 4194304)
    (hrx : -4194304 < spriteRect.x ∧ spriteRect.x + spriteRect.width < 4194304)
    (hry : -4194304 < spriteRect.y ∧ spriteRect.y + spriteRect.height < 4194304) :
    transformedBoundingBox identityTransform spriteRect position
      = some ⟨position.x + spriteRect.x, position.y + spriteRect.y, spriteRect.width + 1,
          spriteRect.height + 1⟩ := by
  have e0 := screenCorner_identity spriteRect position ⟨0, 0⟩ hpx hpy
    (by simp only []; omega) (by simp only []; omega)
  have e1 := screenCorner_identity spriteRect position ⟨spriteRect.getSize.x, 0⟩ hpx hpy
    (by simp only [Recti.getSize]; omega) (by simp only []; omega)
  have e2 := screenCorner_identity spriteRect position ⟨0, spriteRect.getSize.y⟩ hpx hpy
    (by simp only []; omega) (by simp only [Recti.getSize]; omega)
  have e3 := screenCorner_identity spriteRect position spriteRect.getSize hpx hpy
    (by simp only [Recti.getSize]; omega) (by simp only [Recti.getSize]; omega)
  have hb := cornerBounds_finite identityTransform spriteRect position _ _ _ _ _ _ _ _ e0 e1 e2 e3
  have hb' : cornerBounds identityTransform spriteRect position
      = ((FloatVal.finite ((position.x + spriteRect.x : Int) : ℚ),
          FloatVal.finite ((position.y + spriteRect.y : Int) : ℚ)),
         (FloatVal.finite ((position.x + spriteRect.x + spriteRect.width : Int) : ℚ),
          FloatVal.finite ((position.y + spriteRect.y + spriteRect.height : Int) : ℚ))) := by
    rw [hb]
    simp only [Recti.getSize]
    have c1 : (10000000000 : ℚ) = ((10000000000 : Int) : ℚ) := by norm_num
    rw [c1]
    simp only [← Int.cast_neg, ← Int.cast_min, ← Int.cast_max]
    refine Prod.ext (Prod.ext ?_ ?_) (Prod.ext ?_ ?_) <;> dsimp only <;> congr 2 <;> omega
  have hbox := transformedBoundingBox_of_bounds identityTransform spriteRect position _ _ _ _
    (cornersInRange_of_bounds spriteRect (by omega) (by omega) (by omega) (by omega)) hb'
    (abs_intCast_lt _ (by omega)) (abs_intCast_lt _ (by omega)) (abs_intCast_lt _ (by omega))
    (abs_intCast_lt _ (by omega))
  rw [hbox]
  simp only [truncToInt_intCast, Option.some.injEq, Recti.mk.injEq]
  refine ⟨trivial, trivial, ?_, ?_⟩ <;> omega

/-- The cropped box of `applyCropping` under the identity matrix for a sprite
with zero pivot. -/
theorem applyCropping_identity (viewportRect : Recti) (size position : Vec2i)
    (options : Options) (hT : options.mTransform = some identityTransform)
    (hw : 0 < size.x) (hh : 0 < size.y)
    (hpx : -4194304 < position.x ∧ position.x < 4194304)
    (hpy : -4194304 < position.y ∧ position.y < 4194304)
    (hsx : size.x < 4194304) (hsy : size.y < 4194304) :
    applyCropping float32External viewportRect (Recti.ofPosSize (-(⟨0, 0⟩ : Vec2i)) size)
        position options
      = Recti.getIntersection ⟨position.x, position.y, size.x + 1, size.y + 1⟩ viewportRect := by
  have hr : Recti.ofPosSize (-(⟨0, 0⟩ : Vec2i)) size = ⟨0, 0, size.x, size.y⟩ := by
    show (⟨-0, -0, size.x, size.y⟩ : Recti) = _
    simp
  have hne : (Recti.ofPosSize (-(⟨0, 0⟩ : Vec2i)) size).isEmpty = false := by
    rw [isEmpty_eq_false_iff]; exact ⟨hw, hh⟩
  have hbox := transformedBoundingBox_identity ⟨0, 0, size.x, size.y⟩ position
    (by simp only []; omega) (by simp only []; omega) hpx hpy
    (by simp only []; omega) (by simp only []; omega)
  rw [hr] at hne ⊢
  rw [float32External_box identityTransform _ position _ hbox viewportRect options hne hT]
  simp only [add_zero]

/-- Lines 156-160 for an inverse matrix of finite entries, given the binary32
value of every intermediate result. -/
theorem pointSample_of_values (options : Options) (sprite : SpriteWrapper) (position : Vec2i)
    (sx sy : Int) (i0 i1 i2 i3 dxi dyi dx dy a0 a1 a2 a3 s0 s1 u0 u1 : ℚ)
    (hinv : options.mInvTransform
      = ⟨FloatVal.finite i0, FloatVal.finite i1, FloatVal.finite i2, FloatVal.finite i3⟩)
    (hdxi : toFloat32 ((sx - position.x : Int) : ℚ) = FloatVal.finite dxi)
    (hdyi : toFloat32 ((sy - position.y : Int) : ℚ) = FloatVal.finite dyi)
    (hdx : toFloat32 (dxi + 1 / 2) = FloatVal.finite dx)
    (hdy : toFloat32 (dyi + 1 / 2) = FloatVal.finite dy)
    (h0 : toFloat32 (dx * i0) = FloatVal.finite a0)
    (h1 : toFloat32 (dy * i1) = FloatVal.finite a1)
    (h2 : toFloat32 (dx * i2) = FloatVal.finite a2)
    (h3 : toFloat32 (dy * i3) = FloatVal.finite a3)
    (hs0 : toFloat32 (a0 + a1) = FloatVal.finite s0)
    (hs1 : toFloat32 (s0 + -(1 / 2)) = FloatVal.finite s1)
    (hu0 : toFloat32 (a2 + a3) = FloatVal.finite u0)
    (hu1 : toFloat32 (u0 + -(1 / 2)) = FloatVal.finite u1) :
    pointSample options sprite position sx sy
      = pointSampling sprite.mBitmapView (roundToInt s1 + sprite.mPivot.x)
          (roundToInt u1 + sprite.mPivot.y) := by
  simp only [pointSample, intToFloat, hinv, hdxi, hdyi, FloatVal.add, hdx, hdy, FloatVal.mul, h0,
    h1, h2, h3, hs0, hu0, FloatVal.sub, FloatVal.neg, hs1, hu1, roundToIntFloat]

theorem roundToInt_intCast (n : Int) : roundToInt (n : ℚ) = n := by
  unfold roundToInt
  rw [Int.floor_eq_iff]
  constructor <;> linarith

theorem fillPixels_spec (val : Int → Nat) :
    ∀ (n : Nat) (ix dst : Int) (mem : List Nat), 0 ≤ dst → dst + n ≤ mem.length →
      ∃ mem', fillPixels val n ix dst mem = some mem' ∧ mem'.length = mem.length
        ∧ (∀ k : Int, 0 ≤ k → k < n → readAt mem' (dst + k) = some (val (ix + k)))
        ∧ (∀ j : Int, j < dst ∨ dst + n ≤ j → readAt mem' j = readAt mem j) := by
  intro n
  induction n with
  | zero =>
    intro ix dst mem _ _
    exact ⟨mem, rfl, rfl, fun k h0 h1 => by simp at h1; omega, fun _ _ => rfl⟩
  | succ n ih =>
    intro ix dst mem hd hlen
    have hw := writeAt_of_lt mem dst (val ix) hd (by push_cast at hlen; omega)
    have hl1 : (mem.set dst.toNat (val ix)).length = mem.length := by simp
    obtain ⟨mem', hrun, hlen', hin, hout⟩ := ih (ix + 1) (dst + 1) (mem.set dst.toNat (val ix))
      (by omega) (by rw [hl1]; push_cast at hlen; omega)
    refine ⟨mem', ?_, by rw [hlen', hl1], ?_, ?_⟩
    · simp only [fillPixels, hw, Option.some_bind]
      exact hrun
    · intro k h0 h1
      by_cases hk : k = 0
      · subst hk
        rw [add_zero, add_zero, hout dst (Or.inl (by omega))]
        exact readAt_writeAt_same hw
      · have := hin (k - 1) (by omega) (by push_cast at h1; omega)
        rwa [show dst + 1 + (k - 1) = dst + k by ring,
          show ix + 1 + (k - 1) = ix + k by ring] at this
    · intro j hj
      rw [hout j (by push_cast at hj; omega)]
      exact readAt_writeAt_other hw (by push_cast at hj; omega)

/-- The point-sampled transformed copy of lines 143-165: every pixel of the box is
the sample for its output pixel. -/
theorem transformedCopy_point (ext : External) (self : Instance) (box : Recti)
    (sprite : SpriteWrapper) (position : Vec2i) (options : Options)
    (hmode : options.mSamplingMode = SamplingMode.POINT)
    (hw : 0 ≤ box.width) (hh : 0 ≤ box.height) :
    ∃ mem', makeTempBitmapAsTransformedCopy ext self box sprite position options
        = some ⟨mem', 0, box.getSize, box.width⟩
      ∧ mem'.length = (box.width * box.height).toNat
      ∧ (∀ x y : Int, 0 ≤ x → x < box.width → 0 ≤ y → y < box.height →
          readAt mem' (y * box.width + x)
            = some (ext.pointSample options sprite position (box.x + x) (box.y + y))) := by
  have hwc : ((box.width.toNat : Nat) : Int) = box.width := by omega
  have hhc : ((box.height.toNat : Nat) : Int) = box.height := by omega
  have hlen : (makeTempBitmap self box.getSize).mem.length = (box.width * box.height).toNat := by
    simp [makeTempBitmap, resize_length, Recti.getSize]
  have hL : (((box.width * box.height).toNat : Nat) : Int) = box.height * box.width := by
    have : 0 ≤ box.width * box.height := by positivity
    rw [Int.toNat_of_nonneg this]; ring
  obtain ⟨mem', hrun, hl', hin, _⟩ := forRows_spec
    (fun iy mem =>
      fillPixels (fun ix => ext.pointSample options sprite position (box.x + ix) (box.y + iy))
        box.width.toNat 0 ((makeTempBitmap self box.getSize).getPixelPointer 0 iy) mem)
    box.width.toNat (box.width * box.height).toNat box.height
    (fun y x _ => some (ext.pointSample options sprite position (box.x + x) (box.y + y)))
    (by
      intro y mem hy0 hyH hl hfit
      have hy00 : 0 ≤ y * box.width := by positivity
      have hlp : (makeTempBitmap self box.getSize).getPixelPointer 0 y
          = y * (box.width.toNat : Int) := by
        simp only [makeTempBitmap, BitmapView.getPixelPointer, Recti.getSize, hwc]; ring
      obtain ⟨mem1, h1, h2, h3, h4⟩ := fillPixels_spec
        (fun ix => ext.pointSample options sprite position (box.x + ix) (box.y + y))
        box.width.toNat 0 ((makeTempBitmap self box.getSize).getPixelPointer 0 y) mem
        (by rw [hlp, hwc]; exact hy00)
        (by rw [hlp, hl]; exact hfit)
      rw [hlp] at h3 h4
      refine ⟨mem1, h1, by rw [h2, hl], ?_, h4⟩
      intro x hx0 hxw
      rw [h3 x hx0 hxw, zero_add])
    box.height.toNat 0 (makeTempBitmap self box.getSize).mem (le_refl _) (by omega) hlen
    (by rw [hL, hwc, hhc, zero_add])
  refine ⟨mem', ?_, hl', ?_⟩
  · simp only [makeTempBitmapAsTransformedCopy, hmode, Recti.getSize] at hrun ⊢
    rw [hrun]
    rfl
  · intro x y hx0 hxw hy0 hyh
    have := hin y x hy0 (by omega) hx0 (by omega)
    rwa [hwc] at this

theorem applyCropping_plain_zero_pivot (ext : External) (viewportRect : Recti)
    (size position : Vec2i) (options : Options) (hT : options.mTransform = none)
    (hw : 0 < size.x) (hh : 0 < size.y) :
    applyCropping ext viewportRect (Recti.ofPosSize (-(⟨0, 0⟩ : Vec2i)) size) position options
      = Recti.getIntersection ⟨position.x, position.y, size.x, size.y⟩ viewportRect := by
  rw [applyCropping_no_transform ext viewportRect size ⟨0, 0⟩ position options ⟨hw, hh⟩ hT]
  simp [Recti.ofPosSize, Vec2i.sub_x, Vec2i.sub_y]

/-- Lines 156-160 under the identity inverse matrix, for an output pixel within
2^22 of the position: no operation is rounded, the sample is the sprite pixel at
`(sx, sy) - position + pivot`. -/
theorem pointSample_identity (options : Options) (sprite : SpriteWrapper) (position : Vec2i)
    (sx sy : Int) (hI : options.mInvTransform = identityTransform)
    (hx : -4194304 < sx - position.x ∧ sx - position.x < 4194304)
    (hy : -4194304 < sy - position.y ∧ sy - position.y < 4194304) :
    pointSample options sprite position sx sy
      = pointSampling sprite.mBitmapView (sx - position.x + sprite.mPivot.x)
          (sy - position.y + sprite.mPivot.y) := by
  have h := pointSample_of_values options sprite position sx sy 1 0 0 1
    ((sx - position.x : Int) : ℚ) ((sy - position.y : Int) : ℚ)
    (((sx - position.x : Int) : ℚ) + 1 / 2) (((sy - position.y : Int) : ℚ) + 1 / 2)
    (((sx - position.x : Int) : ℚ) + 1 / 2) 0 0 (((sy - position.y : Int) : ℚ) + 1 / 2)
    (((sx - position.x : Int) : ℚ) + 1 / 2) ((sx - position.x : Int) : ℚ)
    (((sy - position.y : Int) : ℚ) + 1 / 2) ((sy - position.y : Int) : ℚ)
    hI
    (toFloat32_eq_of_int _ _ (2 * (sx - position.x)) rfl (by push_cast; ring) (by omega))
    (toFloat32_eq_of_int _ _ (2 * (sy - position.y)) rfl (by push_cast; ring) (by omega))
    (toFloat32_eq_of_int _ _ (2 * (sx - position.x) + 1) rfl (by push_cast; ring) (by omega))
    (toFloat32_eq_of_int _ _ (2 * (sy - position.y) + 1) rfl (by push_cast; ring) (by omega))
    (toFloat32_eq_of_int _ _ (2 * (sx - position.x) + 1) (mul_one _) (by push_cast; ring)
      (by omega))
    (toFloat32_eq_of_int _ _ 0 (mul_zero _) (by norm_num) (by omega))
    (toFloat32_eq_of_int _ _ 0 (mul_zero _) (by norm_num) (by omega))
    (toFloat32_eq_of_int _ _ (2 * (sy - position.y) + 1) (mul_one _) (by push_cast; ring)
      (by omega))
    (toFloat32_eq_of_int _ _ (2 * (sx - position.x) + 1) (add_zero _) (by push_cast; ring)
      (by omega))
    (toFloat32_eq_of_int _ _ (2 * (sx - position.x)) (by ring) (by push_cast; ring) (by omega))
    (toFloat32_eq_of_int _ _ (2 * (sy - position.y) + 1) (zero_add _) (by push_cast; ring)
      (by omega))
    (toFloat32_eq_of_int _ _ (2 * (sy - position.y)) (by ring) (by push_cast; ring) (by omega))
  rw [h, roundToInt_intCast, roundToInt_intCast]

/-! ## `blitSprite` with a transform -/

theorem blitSprite_of_empty (ext : External) (self : Instance) (output : OutputWrapper)
    (sprite : SpriteWrapper) (position : Vec2i) (options : Options)
    (h : (applyCropping ext output.mViewportRect
      (Recti.ofPosSize (-sprite.mPivot) sprite.mBitmapView.getSize) position options).isEmpty
        = true) :
    blitSprite ext self output sprite position options = some (self, none) := by
  unfold blitSprite
  simp only [h, if_true]

theorem blitSprite_transformed (ext : External) (self : Instance) (output : OutputWrapper)
    (sprite : SpriteWrapper) (position : Vec2i) (options : Options) (t : Transform)
    (hT : options.mTransform = some t)
    (h : (applyCropping ext output.mViewportRect
      (Recti.ofPosSize (-sprite.mPivot) sprite.mBitmapView.getSize) position options).isEmpty
        = false) :
    blitSprite ext self output sprite position options
      = (makeTempBitmapAsTransformedCopy ext self
          (applyCropping ext output.mViewportRect
            (Recti.ofPosSize (-sprite.mPivot) sprite.mBitmapView.getSize) position options)
          sprite position options).bind
          fun copied => (processIntermediateBitmap ext copied options).bind
            fun intermediate =>
              some (⟨intermediate.mem⟩,
                some ⟨output, applyCropping ext output.mViewportRect
                  (Recti.ofPosSize (-sprite.mPivot) sprite.mBitmapView.getSize) position options,
                  intermediate, options⟩) := by
  unfold blitSprite
  simp only [h, hT, Bool.false_eq_true, if_false]

theorem blitSprite_untransformed (ext : External) (self : Instance) (output : OutputWrapper)
    (sprite : SpriteWrapper) (position : Vec2i) (options : Options)
    (hT : options.mTransform = none)
    (h : (applyCropping ext output.mViewportRect
      (Recti.ofPosSize (-sprite.mPivot) sprite.mBitmapView.getSize) position options).isEmpty
        = false) :
    blitSprite ext self output sprite position options
      = if needsIntermediateProcessing options = true then
          (makeTempBitmapAsCopy self sprite.mBitmapView
            (applyCropping ext output.mViewportRect
              (Recti.ofPosSize (-sprite.mPivot) sprite.mBitmapView.getSize) position
              options).getSize
            (innerIndent (applyCropping ext output.mViewportRect
              (Recti.ofPosSize (-sprite.mPivot) sprite.mBitmapView.getSize) position options)
              position sprite.mPivot)).bind
            fun copied => (processIntermediateBitmap ext copied options).bind
              fun intermediate =>
                some (⟨intermediate.mem⟩,
                  some ⟨output, applyCropping ext output.mViewportRect
                    (Recti.ofPosSize (-sprite.mPivot) sprite.mBitmapView.getSize) position options,
                    intermediate, options⟩)
        else
          some (self,
            some ⟨output, applyCropping ext output.mViewportRect
              (Recti.ofPosSize (-sprite.mPivot) sprite.mBitmapView.getSize) position options,
              sprite.mBitmapView.subView (Recti.ofPosSize
                (innerIndent (applyCropping ext output.mViewportRect
                  (Recti.ofPosSize (-sprite.mPivot) sprite.mBitmapView.getSize) position options)
                  position sprite.mPivot)
                (applyCropping ext output.mViewportRect
                  (Recti.ofPosSize (-sprite.mPivot) sprite.mBitmapView.getSize) position
                  options).getSize),
              options⟩) := by
  unfold blitSprite
  simp only [h, hT, Bool.false_eq_true, if_false, innerIndent]

theorem needsIntermediateProcessing_false (options : Options)
    (h : needsIntermediateProcessing options = false) :
    options.mTintColor = none ∧ options.mAddedColor = none
      ∧ options.mSwapRedBlueChannels = false := by
  obtain ⟨bm, sm, tr, inv, tint, add, swap⟩ := options
  cases tint <;> cases add <;> cases swap <;> simp_all [needsIntermediateProcessing]

/-- A memory is the list of its cells. -/
theorem eq_of_readAt (mem l : List Nat) (hlen : mem.length = l.length)
    (h : ∀ i : Nat, i < l.length → readAt mem (i : Int) = l[i]?) : mem = l := by
  apply List.ext_getElem?
  intro n
  by_cases hn : n < l.length
  · have := h n hn
    unfold readAt at this
    rw [if_pos (by omega)] at this
    simpa using this
  · rw [List.getElem?_eq_none (by omega), List.getElem?_eq_none (by omega)]

/-- The staged copy of the point-sampled transformed branch under the identity
matrix, for a box inside the widened footprint: the sprite pixel at
`box.pos - position + (x, y)` where that lies in the sprite, 0 elsewhere. -/
theorem transformedCopy_identity (self : Instance) (box : Recti) (view : BitmapView)
    (position : Vec2i) (options : Options)
    (hI : options.mInvTransform = identityTransform)
    (hS : options.mSamplingMode = SamplingMode.POINT)
    (hw : 0 ≤ box.width) (hh : 0 ≤ box.height)
    (hx : -4194304 < box.x - position.x ∧ box.x + box.width - position.x ≤ 4194304)
    (hy : -4194304 < box.y - position.y ∧ box.y + box.height - position.y ≤ 4194304) :
    ∃ mem', makeTempBitmapAsTransformedCopy float32External self box ⟨view, ⟨0, 0⟩⟩ position
        options = some ⟨mem', 0, box.getSize, box.width⟩
      ∧ mem'.length = (box.width * box.height).toNat
      ∧ (∀ x y : Int, 0 ≤ x → x < box.width → 0 ≤ y → y < box.height →
          readAt mem' (y * box.width + x)
            = some (pointSampling view (box.x + x - position.x) (box.y + y - position.y))) := by
  obtain ⟨mem', hrun, hlen, hpix⟩ := transformedCopy_point float32External self box
    ⟨view, ⟨0, 0⟩⟩ position options hS hw hh
  refine ⟨mem', hrun, hlen, ?_⟩
  intro x y hx0 hxw hy0 hyh
  rw [hpix x y hx0 hxw hy0 hyh]
  show some (pointSample options ⟨view, ⟨0, 0⟩⟩ position (box.x + x) (box.y + y)) = _
  rw [pointSample_identity options ⟨view, ⟨0, 0⟩⟩ position (box.x + x) (box.y + y) hI
    (by omega) (by omega)]
  simp only [add_zero]

/-- Claim C15 fails in two ways.  (1) For the 1x1 sprite at (0,0) in the viewport
(0,0,4,4), `blitSprite` with the identity transform and point sampling merges
the box (0,0,2,2) with the staged pixels [source, 0, 0, 0], while `blitSprite`
without a transform merges the box (0,0,1,1) with the source view: the `+ 1` of
lines 268-269 makes the transformed box one pixel wider and taller.  (2) At the
position (16777217, 0) the conversion of `position.x` to float is rounded to
16777216, so the transformed box is (16777216,0,1,2), while the box without a
transform is (16777217,0,1,1): the two boxes share no pixel. -/
theorem identity_transform_box_is_larger :
    blitSprite float32External ⟨[]⟩ ⟨⟨List.replicate 16 0, 0, ⟨4, 4⟩, 4⟩, ⟨0, 0, 4, 4⟩⟩
        ⟨⟨[0xff0000ff], 0, ⟨1, 1⟩, 1⟩, ⟨0, 0⟩⟩ ⟨0, 0⟩ identityOptions
      = some (⟨[0xff0000ff, 0, 0, 0]⟩,
          some ⟨⟨⟨List.replicate 16 0, 0, ⟨4, 4⟩, 4⟩, ⟨0, 0, 4, 4⟩⟩, ⟨0, 0, 2, 2⟩,
            ⟨[0xff0000ff, 0, 0, 0], 0, ⟨2, 2⟩, 2⟩, identityOptions⟩)
    ∧ blitSprite float32External ⟨[]⟩ ⟨⟨List.replicate 16 0, 0, ⟨4, 4⟩, 4⟩, ⟨0, 0, 4, 4⟩⟩
        ⟨⟨[0xff0000ff], 0, ⟨1, 1⟩, 1⟩, ⟨0, 0⟩⟩ ⟨0, 0⟩ plainOptions
      = some (⟨[]⟩,
          some ⟨⟨⟨List.replicate 16 0, 0, ⟨4, 4⟩, 4⟩, ⟨0, 0, 4, 4⟩⟩, ⟨0, 0, 1, 1⟩,
            ⟨[0xff0000ff], 0, ⟨1, 1⟩, 1⟩, plainOptions⟩)
    ∧ (⟨0, 0, 2, 2⟩ : Recti) ≠ ⟨0, 0, 1, 1⟩
    ∧ intToFloat 16777217 = FloatVal.finite 16777216
    ∧ applyCropping float32External ⟨16777200, 0, 100, 100⟩
        (Recti.ofPosSize (-(⟨0, 0⟩ : Vec2i)) ⟨1, 1⟩) ⟨16777217, 0⟩ identityOptions
      = ⟨16777216, 0, 1, 2⟩
    ∧ applyCropping float32External ⟨16777200, 0, 100, 100⟩
        (Recti.ofPosSize (-(⟨0, 0⟩ : Vec2i)) ⟨1, 1⟩) ⟨16777217, 0⟩ plainOptions
      = ⟨16777217, 0, 1, 1⟩ := by
  have i17 : intToFloat 16777217 = FloatVal.finite 16777216 := by
    show toFloat32 ((16777217 : Int) : ℚ) = _
    rw [show ((16777217 : Int) : ℚ) = 16777217 by norm_num]
    exact toFloat32_16777217
  refine ⟨?_, by rfl, by decide, i17, ?_, by rfl⟩
  · -- part 1
    have hbox : applyCropping float32External ⟨0, 0, 4, 4⟩
        (Recti.ofPosSize (-(⟨0, 0⟩ : Vec2i)) (⟨[0xff0000ff], 0, ⟨1, 1⟩, 1⟩ : BitmapView).getSize)
        ⟨0, 0⟩ identityOptions = ⟨0, 0, 2, 2⟩ := by
      show applyCropping float32External ⟨0, 0, 4, 4⟩
        (Recti.ofPosSize (-(⟨0, 0⟩ : Vec2i)) ⟨1, 1⟩) ⟨0, 0⟩ identityOptions = _
      rw [applyCropping_identity ⟨0, 0, 4, 4⟩ ⟨1, 1⟩ ⟨0, 0⟩ identityOptions rfl (by decide)
        (by decide) (by decide) (by decide) (by decide) (by decide)]
      decide
    obtain ⟨mem', hrun, hlen, hpix⟩ := transformedCopy_identity ⟨[]⟩ ⟨0, 0, 2, 2⟩
      ⟨[0xff0000ff], 0, ⟨1, 1⟩, 1⟩ ⟨0, 0⟩ identityOptions rfl rfl (by decide) (by decide)
      (by decide) (by decide)
    have hmem : mem' = [0xff0000ff, 0, 0, 0] := by
      apply eq_of_readAt mem' [0xff0000ff, 0, 0, 0] (by rw [hlen]; rfl)
      intro i hi
      have hi4 : i < 4 := hi
      interval_cases i
      · exact hpix 0 0 (by decide) (by decide) (by decide) (by decide)
      · exact hpix 1 0 (by decide) (by decide) (by decide) (by decide)
      · exact hpix 0 1 (by decide) (by decide) (by decide) (by decide)
      · exact hpix 1 1 (by decide) (by decide) (by decide) (by decide)
    rw [hmem] at hrun
    have hproc : processIntermediateBitmap float32External ⟨[0xff0000ff, 0, 0, 0], 0, ⟨2, 2⟩, 2⟩
        identityOptions = some ⟨[0xff0000ff, 0, 0, 0], 0, ⟨2, 2⟩, 2⟩ := rfl
    rw [blitSprite_transformed float32External _ _ _ _ identityOptions identityTransform rfl
      (by rw [hbox]; decide)]
    simp only [hbox]
    rw [hrun]
    simp only [Option.some_bind, Recti.getSize]
    rw [hproc]
    rfl
  · -- part 2
    have z : ∀ q : ℚ, q = 0 → toFloat32 q = FloatVal.finite 0 := fun q h =>
      toFloat32_eq_of q 0 0 h (by norm_num) (by norm_num)
    have o : ∀ q : ℚ, q = 1 → toFloat32 q = FloatVal.finite 1 := fun q h =>
      toFloat32_eq_of q 1 2 h (by norm_num) (by norm_num)
    have b : ∀ q : ℚ, q = 16777216 → toFloat32 q = FloatVal.finite 16777216 := fun q h => by
      rw [h]; exact toFloat32_16777216
    have r : ∀ q : ℚ, q = 16777217 → toFloat32 q = FloatVal.finite 16777216 := fun q h => by
      rw [h]; exact toFloat32_16777217
    have c0 : screenCorner identityTransform ⟨0, 0, 1, 1⟩ ⟨16777217, 0⟩ ⟨0, 0⟩
        = (FloatVal.finite 16777216, FloatVal.finite 0) :=
      screenCorner_of_values 1 0 0 1 ⟨0, 0, 1, 1⟩ ⟨16777217, 0⟩ ⟨0, 0⟩
        16777216 0 0 0 0 0 0 0 16777216 16777216 0 0
        (r _ (by norm_num)) (z _ (by norm_num)) (z _ (by norm_num)) (z _ (by norm_num))
        (z _ (by norm_num)) (z _ (by norm_num)) (z _ (by norm_num)) (z _ (by norm_num))
        (b _ (by norm_num)) (b _ (by norm_num)) (z _ (by norm_num)) (z _ (by norm_num))
    have c1 : screenCorner identityTransform ⟨0, 0, 1, 1⟩ ⟨16777217, 0⟩ ⟨1, 0⟩
        = (FloatVal.finite 16777216, FloatVal.finite 0) :=
      screenCorner_of_values 1 0 0 1 ⟨0, 0, 1, 1⟩ ⟨16777217, 0⟩ ⟨1, 0⟩
        16777216 0 1 0 1 0 0 0 16777216 16777216 0 0
        (r _ (by norm_num)) (z _ (by norm_num)) (o _ (by norm_num)) (z _ (by norm_num))
        (o _ (by norm_num)) (z _ (by norm_num)) (z _ (by norm_num)) (z _ (by norm_num))
        (r _ (by norm_num)) (b _ (by norm_num)) (z _ (by norm_num)) (z _ (by norm_num))
    have c2 : screenCorner identityTransform ⟨0, 0, 1, 1⟩ ⟨16777217, 0⟩ ⟨0, 1⟩
        = (FloatVal.finite 16777216, FloatVal.finite 1) :=
      screenCorner_of_values 1 0 0 1 ⟨0, 0, 1, 1⟩ ⟨16777217, 0⟩ ⟨0, 1⟩
        16777216 0 0 1 0 0 0 1 16777216 16777216 0 1
        (r _ (by norm_num)) (z _ (by norm_num)) (z _ (by norm_num)) (o _ (by norm_num))
        (z _ (by norm_num)) (z _ (by norm_num)) (z _ (by norm_num)) (o _ (by norm_num))
        (b _ (by norm_num)) (b _ (by norm_num)) (z _ (by norm_num)) (o _ (by norm_num))
    have c3 : screenCorner identityTransform ⟨0, 0, 1, 1⟩ ⟨16777217, 0⟩ ⟨1, 1⟩
        = (FloatVal.finite 16777216, FloatVal.finite 1) :=
      screenCorner_of_values 1 0 0 1 ⟨0, 0, 1, 1⟩ ⟨16777217, 0⟩ ⟨1, 1⟩
        16777216 0 1 1 1 0 0 1 16777216 16777216 0 1
        (r _ (by norm_num)) (z _ (by norm_num)) (o _ (by norm_num)) (o _ (by norm_num))
        (o _ (by norm_num)) (z _ (by norm_num)) (z _ (by norm_num)) (o _ (by norm_num))
        (r _ (by norm_num)) (b _ (by norm_num)) (z _ (by norm_num)) (o _ (by norm_num))
    have cb := cornerBounds_finite identityTransform ⟨0, 0, 1, 1⟩ ⟨16777217, 0⟩
      _ _ _ _ _ _ _ _ c0 c1 c2 c3
    have cb' : cornerBounds identityTransform ⟨0, 0, 1, 1⟩ ⟨16777217, 0⟩
        = ((FloatVal.finite ((16777216 : Int) : ℚ), FloatVal.finite ((0 : Int) : ℚ)),
           (FloatVal.finite ((16777216 : Int) : ℚ), FloatVal.finite ((1 : Int) : ℚ))) := by
      rw [cb]
      norm_num
    have cbox := transformedBoundingBox_of_bounds _ _ _ _ _ _ _ (by decide) cb'
      (by norm_num [abs_lt]) (by norm_num [abs_lt]) (by norm_num [abs_lt]) (by norm_num [abs_lt])
    simp only [truncToInt_intCast] at cbox
    have hr : Recti.ofPosSize (-(⟨0, 0⟩ : Vec2i)) ⟨1, 1⟩ = ⟨0, 0, 1, 1⟩ := by decide
    rw [hr, float32External_box identityTransform _ _ _ cbox ⟨16777200, 0, 100, 100⟩
      identityOptions (by decide) rfl]
    decide

/-- Claim C15, amended.  For every non-empty direct-colour sprite with zero pivot
whose pixels can all be read, every position and sprite size below 2^22 in
magnitude (where no float operation of the transformed branch is rounded) and
every output, under point sampling and the identity transform: `blitSprite`
uses the destination box of the footprint widened by one pixel in width and
height, cropped to the viewport, where `blitSprite` without a transform uses
the cropped footprint itself; the two boxes have the same min corner and the
transformed one is at most one pixel wider and taller.  With an empty box either
call does nothing.  Otherwise the transformed call stages a copy that holds, at
every pixel of the untransformed box, the source pixel `innerIndent + (x, y)`
and 0 at the pixels beyond it, runs `processIntermediateBitmap` on it and
merges the result with the widened box; the untransformed call hands the merge
the box of the footprint and a source (the staged copy when an adjustment is
configured, the zero-copy view otherwise) that holds the same source pixel
`innerIndent + (x, y)` at every pixel of its box. -/
theorem identity_transform_vs_untransformed (self : Instance) (output : OutputWrapper)
    (view : BitmapView) (position : Vec2i) (options : Options)
    (hT : options.mTransform = some identityTransform)
    (hI : options.mInvTransform = identityTransform)
    (hS : options.mSamplingMode = SamplingMode.POINT)
    (hw : 0 < view.mSize.x) (hh : 0 < view.mSize.y) (hread : view.Readable)
    (hpx : -4194304 < position.x ∧ position.x < 4194304)
    (hpy : -4194304 < position.y ∧ position.y < 4194304)
    (hsx : view.mSize.x < 4194304) (hsy : view.mSize.y < 4194304) :
    ∃ boxT boxU : Recti,
      boxT = Recti.getIntersection ⟨position.x, position.y, view.mSize.x + 1, view.mSize.y + 1⟩
          output.mViewportRect
      ∧ boxU = Recti.getIntersection ⟨position.x, position.y, view.mSize.x, view.mSize.y⟩
          output.mViewportRect
      ∧ applyCropping float32External output.mViewportRect
          (Recti.ofPosSize (-(⟨0, 0⟩ : Vec2i)) view.getSize) position options = boxT
      ∧ applyCropping float32External output.mViewportRect
          (Recti.ofPosSize (-(⟨0, 0⟩ : Vec2i)) view.getSize) position
          { options with mTransform := none } = boxU
      ∧ boxT.getPos = boxU.getPos
      ∧ boxU.width ≤ boxT.width ∧ boxT.width ≤ boxU.width + 1
      ∧ boxU.height ≤ boxT.height ∧ boxT.height ≤ boxU.height + 1
      ∧ (boxT.isEmpty = true →
          blitSprite float32External self output ⟨view, ⟨0, 0⟩⟩ position options
            = some (self, none))
      ∧ (boxT.isEmpty = false →
          ∃ staged : BitmapView,
            makeTempBitmapAsTransformedCopy float32External self boxT ⟨view, ⟨0, 0⟩⟩ position
                options = some staged
              ∧ staged.mSize = boxT.getSize
              ∧ blitSprite float32External self output ⟨view, ⟨0, 0⟩⟩ position options
                  = (processIntermediateBitmap float32External staged options).bind
                      (fun intermediate =>
                        some (⟨intermediate.mem⟩, some ⟨output, boxT, intermediate, options⟩))
              ∧ (needsIntermediateProcessing options = false →
                  blitSprite float32External self output ⟨view, ⟨0, 0⟩⟩ position options
                    = some (⟨staged.mem⟩, some ⟨output, boxT, staged, options⟩))
              ∧ ∀ x y : Int, 0 ≤ x → x < boxT.width → 0 ≤ y → y < boxT.height →
                  ((x < boxU.width ∧ y < boxU.height) →
                    ∃ p, staged.getPixel x y = some p
                      ∧ view.getPixel ((innerIndent boxU position ⟨0, 0⟩).x + x)
                          ((innerIndent boxU position ⟨0, 0⟩).y + y) = some p)
                  ∧ (¬ (x < boxU.width ∧ y < boxU.height) → staged.getPixel x y = some 0))
      ∧ (boxU.isEmpty = true →
          blitSprite float32External self output ⟨view, ⟨0, 0⟩⟩ position
              { options with mTransform := none } = some (self, none))
      ∧ (boxU.isEmpty = false →
          ∃ source : BitmapView,
            (if needsIntermediateProcessing options = true then
                makeTempBitmapAsCopy self view boxU.getSize (innerIndent boxU position ⟨0, 0⟩)
                  = some source
              else
                source = view.subView
                  (Recti.ofPosSize (innerIndent boxU position ⟨0, 0⟩) boxU.getSize))
              ∧ blitSprite float32External self output ⟨view, ⟨0, 0⟩⟩ position
                    { options with mTransform := none }
                  = (if needsIntermediateProcessing options = true then
                      (processIntermediateBitmap float32External source
                          { options with mTransform := none }).bind
                        (fun intermediate =>
                          some (⟨intermediate.mem⟩,
                            some ⟨output, boxU, intermediate,
                              { options with mTransform := none }⟩))
                    else
                      some (self,
                        some ⟨output, boxU, source, { options with mTransform := none }⟩))
              ∧ ∀ x y : Int, 0 ≤ x → x < boxU.width → 0 ≤ y → y < boxU.height →
                  ∃ p, source.getPixel x y = some p
                    ∧ view.getPixel ((innerIndent boxU position ⟨0, 0⟩).x + x)
                        ((innerIndent boxU position ⟨0, 0⟩).y + y) = some p) := by
  have hcT := applyCropping_identity output.mViewportRect view.getSize position options hT hw hh
    hpx hpy hsx hsy
  have hcU := applyCropping_plain_zero_pivot float32External output.mViewportRect view.getSize
    position { options with mTransform := none } rfl hw hh
  simp only [BitmapView.getSize] at hcT hcU
  refine ⟨_, _, rfl, rfl, hcT, hcU, rfl, ?_, ?_, ?_, ?_, ?_, ?_, ?_, ?_⟩
  · simp only [Recti.getIntersection]; omega
  · simp only [Recti.getIntersection]; omega
  · simp only [Recti.getIntersection]; omega
  · simp only [Recti.getIntersection]; omega
  · intro hemp
    exact blitSprite_of_empty float32External self output ⟨view, ⟨0, 0⟩⟩ position options
      (by simp only [BitmapView.getSize]; rw [hcT]; exact hemp)
  · intro hne
    have hpos := (isEmpty_eq_false_iff _).1 hne
    obtain ⟨mem', hrun, hlen, hpix⟩ := transformedCopy_identity self
      (Recti.getIntersection ⟨position.x, position.y, view.mSize.x + 1, view.mSize.y + 1⟩
        output.mViewportRect) view position options hI hS (le_of_lt hpos.1) (le_of_lt hpos.2)
      (by simp only [Recti.getIntersection] at hpos ⊢; omega)
      (by simp only [Recti.getIntersection] at hpos ⊢; omega)
    have hblit := blitSprite_transformed float32External self output ⟨view, ⟨0, 0⟩⟩ position
      options identityTransform hT (by simp only [BitmapView.getSize]; rw [hcT]; exact hne)
    simp only [BitmapView.getSize] at hblit
    rw [hcT, hrun, Option.some_bind] at hblit
    refine ⟨_, hrun, rfl, hblit, ?_, ?_⟩
    · intro hneeds
      obtain ⟨h1, h2, h3⟩ := needsIntermediateProcessing_false options hneeds
      rw [hblit, processIntermediateBitmap_none float32External _ options h1 h2 h3]
      rfl
    · intro x y hx0' hxw hy0' hyh
      have hp := hpix x y hx0' hxw hy0' hyh
      have hget : (⟨mem', 0, (Recti.getIntersection
          ⟨position.x, position.y, view.mSize.x + 1, view.mSize.y + 1⟩
          output.mViewportRect).getSize,
          (Recti.getIntersection ⟨position.x, position.y, view.mSize.x + 1, view.mSize.y + 1⟩
            output.mViewportRect).width⟩ : BitmapView).getPixel x y
          = readAt mem' (y * (Recti.getIntersection
              ⟨position.x, position.y, view.mSize.x + 1, view.mSize.y + 1⟩
              output.mViewportRect).width + x) := by
        simp only [BitmapView.getPixel, BitmapView.getPixelPointer]
        congr 1
        ring
      rw [hget, hp]
      simp only [Recti.getIntersection, innerIndent, Recti.getPos, Vec2i.add_x, Vec2i.add_y,
        Vec2i.sub_x, Vec2i.sub_y] at hxw hyh ⊢
      constructor
      · rintro ⟨hxu, hyu⟩
        have hbx : 0 ≤ max position.x output.mViewportRect.x + x - position.x
            ∧ max position.x output.mViewportRect.x + x - position.x < view.mSize.x := by omega
        have hby : 0 ≤ max position.y output.mViewportRect.y + y - position.y
            ∧ max position.y output.mViewportRect.y + y - position.y < view.mSize.y := by omega
        obtain ⟨p, hpv⟩ := hread _ _ hbx.1 hbx.2 hby.1 hby.2
        refine ⟨p, ?_, ?_⟩
        · simp only [pointSampling, hbx.1, hbx.2, hby.1, hby.2, and_self, if_true, hpv,
            Option.getD_some]
        · rw [← hpv]
          congr 1 <;> ring
      · intro hnot
        have hout : ¬ (0 ≤ max position.x output.mViewportRect.x + x - position.x
            ∧ max position.x output.mViewportRect.x + x - position.x < view.mSize.x
            ∧ 0 ≤ max position.y output.mViewportRect.y + y - position.y
            ∧ max position.y output.mViewportRect.y + y - position.y < view.mSize.y) := by omega
        simp only [pointSampling, hout, if_false]
  · intro hemp
    exact blitSprite_of_empty float32External self output ⟨view, ⟨0, 0⟩⟩ position _
      (by simp only [BitmapView.getSize]; rw [hcU]; exact hemp)
  · intro hne
    have hpos := (isEmpty_eq_false_iff _).1 hne
    have hblit := blitSprite_untransformed float32External self output ⟨view, ⟨0, 0⟩⟩ position
      { options with mTransform := none } rfl
      (by simp only [BitmapView.getSize]; rw [hcU]; exact hne)
    simp only [BitmapView.getSize] at hblit
    rw [hcU] at hblit
    have hneeds : needsIntermediateProcessing { options with mTransform := none }
        = needsIntermediateProcessing options := rfl
    rw [hneeds] at hblit
    have hin : ∀ x y : Int,
        0 ≤ x → x < (Recti.getIntersection ⟨position.x, position.y, view.mSize.x, view.mSize.y⟩
          output.mViewportRect).width →
        0 ≤ y → y < (Recti.getIntersection ⟨position.x, position.y, view.mSize.x, view.mSize.y⟩
          output.mViewportRect).height →
        ∃ p, view.getPixel
          ((innerIndent (Recti.getIntersection
            ⟨position.x, position.y, view.mSize.x, view.mSize.y⟩ output.mViewportRect)
            position ⟨0, 0⟩).x + x)
          ((innerIndent (Recti.getIntersection
            ⟨position.x, position.y, view.mSize.x, view.mSize.y⟩ output.mViewportRect)
            position ⟨0, 0⟩).y + y) = some p := by
      intro x y hx0 hx hy0 hy
      simp only [Recti.getIntersection, innerIndent, Recti.getPos, Vec2i.add_x, Vec2i.add_y,
        Vec2i.sub_x, Vec2i.sub_y] at hx hy ⊢
      exact hread _ _ (by omega) (by omega) (by omega) (by omega)
    by_cases hn : needsIntermediateProcessing options = true
    · obtain ⟨mem', hrun, hlen, hpix⟩ := copyRows_spec some self view
        (Recti.getIntersection ⟨position.x, position.y, view.mSize.x, view.mSize.y⟩
          output.mViewportRect).getSize
        (innerIndent (Recti.getIntersection
          ⟨position.x, position.y, view.mSize.x, view.mSize.y⟩ output.mViewportRect)
          position ⟨0, 0⟩)
        (by
          intro x y hx0 hx hy0 hy
          obtain ⟨p, hp⟩ := hin x y hx0 hx hy0 hy
          exact ⟨p, p, hp, rfl⟩)
      have hcopy : makeTempBitmapAsCopy self view
          (Recti.getIntersection ⟨position.x, position.y, view.mSize.x, view.mSize.y⟩
            output.mViewportRect).getSize
          (innerIndent (Recti.getIntersection
            ⟨position.x, position.y, view.mSize.x, view.mSize.y⟩ output.mViewportRect)
            position ⟨0, 0⟩)
          = some ⟨mem', 0, (Recti.getIntersection
              ⟨position.x, position.y, view.mSize.x, view.mSize.y⟩
              output.mViewportRect).getSize,
              (Recti.getIntersection ⟨position.x, position.y, view.mSize.x, view.mSize.y⟩
                output.mViewportRect).getSize.x⟩ := by
        simp only [makeTempBitmapAsCopy, hrun, Option.map_some']
        rfl
      refine ⟨⟨mem', 0, (Recti.getIntersection
          ⟨position.x, position.y, view.mSize.x, view.mSize.y⟩ output.mViewportRect).getSize,
          (Recti.getIntersection ⟨position.x, position.y, view.mSize.x, view.mSize.y⟩
            output.mViewportRect).getSize.x⟩, ?_, ?_, ?_⟩
      · rw [if_pos hn]
        exact hcopy
      · rw [hblit, if_pos hn, if_pos hn, hcopy, Option.some_bind]
      · intro x y hx0 hx hy0 hy
        obtain ⟨p, hp⟩ := hin x y hx0 hx hy0 hy
        refine ⟨p, ?_, hp⟩
        have := hpix x y hx0 hx hy0 hy
        rw [hp] at this
        simp only [BitmapView.getPixel, BitmapView.getPixelPointer]
        rw [show (0 : Int) + x + y * (Recti.getIntersection
            ⟨position.x, position.y, view.mSize.x, view.mSize.y⟩
            output.mViewportRect).getSize.x
          = y * (Recti.getIntersection ⟨position.x, position.y, view.mSize.x, view.mSize.y⟩
            output.mViewportRect).getSize.x + x by ring]
        exact this
    · refine ⟨view.subView (Recti.ofPosSize
          (innerIndent (Recti.getIntersection
            ⟨position.x, position.y, view.mSize.x, view.mSize.y⟩ output.mViewportRect)
            position ⟨0, 0⟩)
          (Recti.getIntersection ⟨position.x, position.y, view.mSize.x, view.mSize.y⟩
            output.mViewportRect).getSize), ?_, ?_, ?_⟩
      · rw [if_neg hn]
      · rw [hblit, if_neg hn, if_neg hn]
      · intro x y hx0 hx hy0 hy
        obtain ⟨p, hp⟩ := hin x y hx0 hx hy0 hy
        refine ⟨p, ?_, hp⟩
        rw [← hp]
        simp only [BitmapView.getPixel, BitmapView.subView, BitmapView.getPixelPointer,
          Recti.ofPosSize]
        congr 1
        ring

/-- The 1x1 sprite at (0,0) in the viewport (0,0,4,4) under the identity transform:
the transformed call uses the box (0,0,2,2), the untransformed one (0,0,1,1). -/
theorem identity_transform_vs_untransformed_witness :
    ∃ boxT boxU : Recti,
      boxT = Recti.getIntersection ⟨0, 0, 1 + 1, 1 + 1⟩ ⟨0, 0, 4, 4⟩
      ∧ boxU = Recti.getIntersection ⟨0, 0, 1, 1⟩ ⟨0, 0, 4, 4⟩
      ∧ applyCropping float32External ⟨0, 0, 4, 4⟩
          (Recti.ofPosSize (-(⟨0, 0⟩ : Vec2i)) (⟨[0xff0000ff], 0, ⟨1, 1⟩, 1⟩ : BitmapView).getSize)
          ⟨0, 0⟩ identityOptions = boxT
      ∧ applyCropping float32External ⟨0, 0, 4, 4⟩
          (Recti.ofPosSize (-(⟨0, 0⟩ : Vec2i)) (⟨[0xff0000ff], 0, ⟨1, 1⟩, 1⟩ : BitmapView).getSize)
          ⟨0, 0⟩ { identityOptions with mTransform := none } = boxU := by
  obtain ⟨boxT, boxU, h1, h2, h3, h4, _⟩ := identity_transform_vs_untransformed ⟨[]⟩
    ⟨⟨List.replicate 16 0, 0, ⟨4, 4⟩, 4⟩, ⟨0, 0, 4, 4⟩⟩ ⟨[0xff0000ff], 0, ⟨1, 1⟩, 1⟩ ⟨0, 0⟩
    identityOptions rfl rfl rfl (by decide) (by decide)
    (by
      intro x y hx0 hx hy0 hy
      have hx' : x = 0 := by change x < 1 at hx; omega
      have hy' : y = 0 := by change y < 1 at hy; omega
      subst hx' hy'
      exact ⟨_, rfl⟩)
    (by decide) (by decide) (by decide) (by decide)
  exact ⟨boxT, boxU, h1, h2, h3, h4⟩

/-! ## A transformed call outside the untransformed footprint -/

theorem roundToInt_zero : roundToInt 0 = 0 := by
  have := roundToInt_intCast 0
  simpa using this

/-- Claim C3 fails for a call with a transform, for which `applyCropping` crops
the transformed box and not the footprint `(position - pivot, spriteSize)`.  The
1x1 sprite with zero pivot at position (2,2) has the footprint (2,2,1,1), which
shares no pixel with the viewport (0,0,2,2); under the half turn
(-1, 0, 0, -1) the corners lie at (1,1) .. (2,2), the box is (1,1,2,2), cropped
to (1,1,1,1), which is not empty, and `blitSprite` overwrites the scratch cell
(5 becomes the sprite pixel 7) and issues a merge. -/
theorem blitSprite_merges_outside_footprint :
    Recti.ofPosSize ((⟨2, 2⟩ : Vec2i) - ⟨0, 0⟩) ⟨1, 1⟩ = ⟨2, 2, 1, 1⟩
      ∧ (Recti.getIntersection ⟨2, 2, 1, 1⟩ ⟨0, 0, 2, 2⟩).isEmpty = true
      ∧ (∀ px py : Int,
          ¬ ((Recti.ofPosSize ((⟨2, 2⟩ : Vec2i) - ⟨0, 0⟩) ⟨1, 1⟩).Contains px py
              ∧ (⟨0, 0, 2, 2⟩ : Recti).Contains px py))
      ∧ transformedBoundingBox halfTurn ⟨0, 0, 1, 1⟩ ⟨2, 2⟩ = some ⟨1, 1, 2, 2⟩
      ∧ applyCropping float32External ⟨0, 0, 2, 2⟩
          (Recti.ofPosSize (-(⟨0, 0⟩ : Vec2i)) (⟨[7], 0, ⟨1, 1⟩, 1⟩ : BitmapView).getSize)
          ⟨2, 2⟩ halfTurnOptions = ⟨1, 1, 1, 1⟩
      ∧ (⟨1, 1, 1, 1⟩ : Recti).isEmpty = false
      ∧ blitSprite float32External ⟨[5]⟩ ⟨⟨[0, 0, 0, 0], 0, ⟨2, 2⟩, 2⟩, ⟨0, 0, 2, 2⟩⟩
          ⟨⟨[7], 0, ⟨1, 1⟩, 1⟩, ⟨0, 0⟩⟩ ⟨2, 2⟩ halfTurnOptions
        = some (⟨[7]⟩,
            some ⟨⟨⟨[0, 0, 0, 0], 0, ⟨2, 2⟩, 2⟩, ⟨0, 0, 2, 2⟩⟩, ⟨1, 1, 1, 1⟩,
              ⟨[7], 0, ⟨1, 1⟩, 1⟩, halfTurnOptions⟩) := by
  have e : ∀ (q v : ℚ) (n : Int), q = v → v = (n : ℚ) / 2 → |n| < 2 ^ 24 →
      toFloat32 q = FloatVal.finite v := toFloat32_eq_of
  have c0 : screenCorner halfTurn ⟨0, 0, 1, 1⟩ ⟨2, 2⟩ ⟨0, 0⟩
      = (FloatVal.finite 2, FloatVal.finite 2) :=
    screenCorner_of_values (-1) 0 0 (-1) ⟨0, 0, 1, 1⟩ ⟨2, 2⟩ ⟨0, 0⟩
      2 2 0 0 0 0 0 0 2 2 2 2
      (e _ _ 4 (by norm_num) (by norm_num) (by norm_num))
      (e _ _ 4 (by norm_num) (by norm_num) (by norm_num))
      (e _ _ 0 (by norm_num) (by norm_num) (by norm_num))
      (e _ _ 0 (by norm_num) (by norm_num) (by norm_num))
      (e _ _ 0 (by norm_num) (by norm_num) (by norm_num))
      (e _ _ 0 (by norm_num) (by norm_num) (by norm_num))
      (e _ _ 0 (by norm_num) (by norm_num) (by norm_num))
      (e _ _ 0 (by norm_num) (by norm_num) (by norm_num))
      (e _ _ 4 (by norm_num) (by norm_num) (by norm_num))
      (e _ _ 4 (by norm_num) (by norm_num) (by norm_num))
      (e _ _ 4 (by norm_num) (by norm_num) (by norm_num))
      (e _ _ 4 (by norm_num) (by norm_num) (by norm_num))
  have c1 : screenCorner halfTurn ⟨0, 0, 1, 1⟩ ⟨2, 2⟩ ⟨1, 0⟩
      = (FloatVal.finite 1, FloatVal.finite 2) :=
    screenCorner_of_values (-1) 0 0 (-1) ⟨0, 0, 1, 1⟩ ⟨2, 2⟩ ⟨1, 0⟩
      2 2 1 0 (-1) 0 0 0 1 1 2 2
      (e _ _ 4 (by norm_num) (by norm_num) (by norm_num))
      (e _ _ 4 (by norm_num) (by norm_num) (by norm_num))
      (e _ _ 2 (by norm_num) (by norm_num) (by norm_num))
      (e _ _ 0 (by norm_num) (by norm_num) (by norm_num))
      (e _ _ (-2) (by norm_num) (by norm_num) (by norm_num))
      (e _ _ 0 (by norm_num) (by norm_num) (by norm_num))
      (e _ _ 0 (by norm_num) (by norm_num) (by norm_num))
      (e _ _ 0 (by norm_num) (by norm_num) (by norm_num))
      (e _ _ 2 (by norm_num) (by norm_num) (by norm_num))
      (e _ _ 2 (by norm_num) (by norm_num) (by norm_num))
      (e _ _ 4 (by norm_num) (by norm_num) (by norm_num))
      (e _ _ 4 (by norm_num) (by norm_num) (by norm_num))
  have c2 : screenCorner halfTurn ⟨0, 0, 1, 1⟩ ⟨2, 2⟩ ⟨0, 1⟩
      = (FloatVal.finite 2, FloatVal.finite 1) :=
    screenCorner_of_values (-1) 0 0 (-1) ⟨0, 0, 1, 1⟩ ⟨2, 2⟩ ⟨0, 1⟩
      2 2 0 1 0 0 0 (-1) 2 2 2 1
      (e _ _ 4 (by norm_num) (by norm_num) (by norm_num))
      (e _ _ 4 (by norm_num) (by norm_num) (by norm_num))
      (e _ _ 0 (by norm_num) (by norm_num) (by norm_num))
      (e _ _ 2 (by norm_num) (by norm_num) (by norm_num))
      (e _ _ 0 (by norm_num) (by norm_num) (by norm_num))
      (e _ _ 0 (by norm_num) (by norm_num) (by norm_num))
      (e _ _ 0 (by norm_num) (by norm_num) (by norm_num))
      (e _ _ (-2) (by norm_num) (by norm_num) (by norm_num))
      (e _ _ 4 (by norm_num) (by norm_num) (by norm_num))
      (e _ _ 4 (by norm_num) (by norm_num) (by norm_num))
      (e _ _ 4 (by norm_num) (by norm_num) (by norm_num))
      (e _ _ 2 (by norm_num) (by norm_num) (by norm_num))
  have c3 : screenCorner halfTurn ⟨0, 0, 1, 1⟩ ⟨2, 2⟩ ⟨1, 1⟩
      = (FloatVal.finite 1, FloatVal.finite 1) :=
    screenCorner_of_values (-1) 0 0 (-1) ⟨0, 0, 1, 1⟩ ⟨2, 2⟩ ⟨1, 1⟩
      2 2 1 1 (-1) 0 0 (-1) 1 1 2 1
      (e _ _ 4 (by norm_num) (by norm_num) (by norm_num))
      (e _ _ 4 (by norm_num) (by norm_num) (by norm_num))
      (e _ _ 2 (by norm_num) (by norm_num) (by norm_num))
      (e _ _ 2 (by norm_num) (by norm_num) (by norm_num))
      (e _ _ (-2) (by norm_num) (by norm_num) (by norm_num))
      (e _ _ 0 (by norm_num) (by norm_num) (by norm_num))
      (e _ _ 0 (by norm_num) (by norm_num) (by norm_num))
      (e _ _ (-2) (by norm_num) (by norm_num) (by norm_num))
      (e _ _ 2 (by norm_num) (by norm_num) (by norm_num))
      (e _ _ 2 (by norm_num) (by norm_num) (by norm_num))
      (e _ _ 4 (by norm_num) (by norm_num) (by norm_num))
      (e _ _ 2 (by norm_num) (by norm_num) (by norm_num))
  have cb := cornerBounds_finite halfTurn ⟨0, 0, 1, 1⟩ ⟨2, 2⟩ _ _ _ _ _ _ _ _ c0 c1 c2 c3
  have cb' : cornerBounds halfTurn ⟨0, 0, 1, 1⟩ ⟨2, 2⟩
      = ((FloatVal.finite ((1 : Int) : ℚ), FloatVal.finite ((1 : Int) : ℚ)),
         (FloatVal.finite ((2 : Int) : ℚ), FloatVal.finite ((2 : Int) : ℚ))) := by
    rw [cb]
    norm_num
  have cbox := transformedBoundingBox_of_bounds _ _ _ _ _ _ _ (by decide) cb' (by norm_num [abs_lt])
    (by norm_num [abs_lt]) (by norm_num [abs_lt]) (by norm_num [abs_lt])
  simp only [truncToInt_intCast] at cbox
  have cbox' : transformedBoundingBox halfTurn ⟨0, 0, 1, 1⟩ ⟨2, 2⟩ = some ⟨1, 1, 2, 2⟩ := by
    rw [cbox]
    decide
  have hr : Recti.ofPosSize (-(⟨0, 0⟩ : Vec2i)) (⟨[7], 0, ⟨1, 1⟩, 1⟩ : BitmapView).getSize
      = ⟨0, 0, 1, 1⟩ := by decide
  have hbox : applyCropping float32External ⟨0, 0, 2, 2⟩
      (Recti.ofPosSize (-(⟨0, 0⟩ : Vec2i)) (⟨[7], 0, ⟨1, 1⟩, 1⟩ : BitmapView).getSize)
      ⟨2, 2⟩ halfTurnOptions = ⟨1, 1, 1, 1⟩ := by
    rw [hr, float32External_box halfTurn _ _ _ cbox' ⟨0, 0, 2, 2⟩ halfTurnOptions (by decide) rfl]
    decide
  have hsample : pointSample halfTurnOptions ⟨⟨[7], 0, ⟨1, 1⟩, 1⟩, ⟨0, 0⟩⟩ ⟨2, 2⟩ 1 1 = 7 := by
    rw [pointSample_of_values halfTurnOptions ⟨⟨[7], 0, ⟨1, 1⟩, 1⟩, ⟨0, 0⟩⟩ ⟨2, 2⟩ 1 1
      (-1) 0 0 (-1) (-1) (-1) (-1 / 2) (-1 / 2) (1 / 2) 0 0 (1 / 2) (1 / 2) 0 (1 / 2) 0 rfl
      (e _ _ (-2) (by norm_num) (by norm_num) (by norm_num))
      (e _ _ (-2) (by norm_num) (by norm_num) (by norm_num))
      (e _ _ (-1) (by norm_num) (by norm_num) (by norm_num))
      (e _ _ (-1) (by norm_num) (by norm_num) (by norm_num))
      (e _ _ 1 (by norm_num) (by norm_num) (by norm_num))
      (e _ _ 0 (by norm_num) (by norm_num) (by norm_num))
      (e _ _ 0 (by norm_num) (by norm_num) (by norm_num))
      (e _ _ 1 (by norm_num) (by norm_num) (by norm_num))
      (e _ _ 1 (by norm_num) (by norm_num) (by norm_num))
      (e _ _ 0 (by norm_num) (by norm_num) (by norm_num))
      (e _ _ 1 (by norm_num) (by norm_num) (by norm_num))
      (e _ _ 0 (by norm_num) (by norm_num) (by norm_num)),
      roundToInt_zero]
    rfl
  obtain ⟨mem', hrun, hlen, hpix⟩ := transformedCopy_point float32External ⟨[5]⟩ ⟨1, 1, 1, 1⟩
    ⟨⟨[7], 0, ⟨1, 1⟩, 1⟩, ⟨0, 0⟩⟩ ⟨2, 2⟩ halfTurnOptions rfl (by decide) (by decide)
  have hmem : mem' = [7] := by
    apply eq_of_readAt mem' [7] (by rw [hlen]; rfl)
    intro i hi
    have hi1 : i < 1 := hi
    interval_cases i
    have h00 := hpix 0 0 (by decide) (by decide) (by decide) (by decide)
    exact h00.trans (congrArg some hsample)
  rw [hmem] at hrun
  have hproc : processIntermediateBitmap float32External ⟨[7], 0, ⟨1, 1⟩, 1⟩ halfTurnOptions
      = some ⟨[7], 0, ⟨1, 1⟩, 1⟩ := rfl
  refine ⟨by decide, by decide, ?_, cbox', hbox, by decide, ?_⟩
  · intro px py
    simp only [Recti.Contains, Recti.ofPosSize, Vec2i.sub_x, Vec2i.sub_y]
    omega
  · rw [blitSprite_transformed float32External _ _ _ _ halfTurnOptions halfTurn rfl
      (by rw [hbox]; decide)]
    simp only [hbox]
    rw [hrun]
    simp only [Option.some_bind, Recti.getSize]
    rw [hproc]
    rfl

end Blitter
